import Mathlib

/-!
Verification development for the `py_ts_attrs` schema-driven code generator.

We shallowly embed the runtime data model of the repository:

* `PyVal` models the Python runtime values flowing through the load /
  represent engine (plain JSON-ish data, `Decimal`, `date` / `datetime`
  values, enum members and attrs-record instances).
* `PyType` / `RecordDef` model declared field types as produced by the
  `typing` introspection done in `types.FieldDefinition.create`.
* The handler dispatch (`ApiDataField.processor`), the per-handler
  `load` / `represent` / `process` methods of `field_processing.py`, the
  record-level entry points of `dto.py` (`ApiData.rec_load`,
  `ApiData.__iter__`/`represent`), the helpers of `enums.py` and
  `datetime.py`, and the output-file update of `output.py`
  (`TypescriptFile.update`) are translated function by function.
-/

set_option maxHeartbeats 1000000

namespace PyTsAttrs

/-- Python exceptions that can be raised by the engine (`types.py` plus the
built-in exceptions the code can hit: `TypeError`, `ValueError` from
`datetime.date`, `AttributeError` from `getattr`, `decimal.InvalidOperation`,
and the internal `ApiDataField.NoDefaultValue`). -/
inductive PyErr where
  | loadError (msg : String)
  | unknownFieldType (msg : String)
  | configurationError (msg : String)
  | fieldWithoutDefinition (msg : String)
  | typeError
  | valueError
  | attributeError
  | invalidOperation
  | noDefaultValue
  | assertionError
  deriving DecidableEq, Repr

/-- Backing literal of an enum member (`enum.Enum` values restricted by
`EnumDataField.check` to `str`- or `int`-backed enums). -/
inductive EnumLit where
  | s (v : String)
  | i (v : Int)
  deriving DecidableEq, Repr

/-- An enum class: name, whether it mixes in `str` (vs `int`), and its
ordered `_member_map_` (member name, member value). -/
structure EnumDef where
  ename : String
  strBacked : Bool
  members : List (String × EnumLit)
  deriving DecidableEq, Repr

/-- Python runtime values handled by the engine.  Floats and decimals are
modelled as rationals with separate tags; `obj` is an attrs instance
(class name plus its attribute dictionary). -/
inductive PyVal where
  | none
  | bool (b : Bool)
  | int (n : Int)
  | float (q : ℚ)
  | str (s : String)
  | decimal (q : ℚ)
  | date (y m d : Nat)
  | datetime (y m d hh mm : Nat)
  | enumMember (e : EnumDef) (member : String)
  | list (xs : List PyVal)
  | tuple (xs : List PyVal)
  | dict (entries : List (PyVal × PyVal))
  | obj (cls : String) (fields : List (String × PyVal))
  deriving Repr

mutual

/-- Structural equality test on `PyVal` (deriving is unavailable for this
nested inductive, so it is written out). -/
def PyVal.beq : PyVal → PyVal → Bool
  | .none, .none => true
  | .bool a, .bool b => a == b
  | .int a, .int b => a == b
  | .float a, .float b => decide (a = b)
  | .str a, .str b => a == b
  | .decimal a, .decimal b => decide (a = b)
  | .date y m d, .date y' m' d' => y == y' && m == m' && d == d'
  | .datetime y m d h mi, .datetime y' m' d' h' mi' =>
    y == y' && m == m' && d == d' && h == h' && mi == mi'
  | .enumMember e m, .enumMember e' m' => decide (e = e') && m == m'
  | .list xs, .list ys => PyVal.beqL xs ys
  | .tuple xs, .tuple ys => PyVal.beqL xs ys
  | .dict xs, .dict ys => PyVal.beqP xs ys
  | .obj c fs, .obj c' fs' => c == c' && PyVal.beqF fs fs'
  | _, _ => false

def PyVal.beqL : List PyVal → List PyVal → Bool
  | [], [] => true
  | x :: xs, y :: ys => PyVal.beq x y && PyVal.beqL xs ys
  | _, _ => false

def PyVal.beqP : List (PyVal × PyVal) → List (PyVal × PyVal) → Bool
  | [], [] => true
  | (k, v) :: xs, (k', v') :: ys =>
    PyVal.beq k k' && PyVal.beq v v' && PyVal.beqP xs ys
  | _, _ => false

def PyVal.beqF : List (String × PyVal) → List (String × PyVal) → Bool
  | [], [] => true
  | (n, v) :: xs, (n', v') :: ys => n == n' && PyVal.beq v v' && PyVal.beqF xs ys
  | _, _ => false

end

theorem PyVal.beq_iff : ∀ a b, PyVal.beq a b = true ↔ a = b := by
  apply PyVal.beq.induct
    (fun a b => PyVal.beq a b = true ↔ a = b)
    (fun a b => PyVal.beqF a b = true ↔ a = b)
    (fun a b => PyVal.beqP a b = true ↔ a = b)
    (fun a b => PyVal.beqL a b = true ↔ a = b) <;>
  intros <;>
  first
    | (simp_all [PyVal.beq, PyVal.beqL, PyVal.beqP, PyVal.beqF, and_assoc]; done)
    | (rename_i t u h1 h2
       cases t <;> cases u <;>
         first
           | exact (h1 rfl rfl).elim
           | exact (h2 _ _ _ _ rfl rfl).elim
           | exact (h2 _ _ _ _ _ _ rfl rfl).elim
           | (simp [PyVal.beqL, PyVal.beqP, PyVal.beqF]; done))
    | (rename_i t u h1 h2 h3 h4 h5 h6 h7 h8 h9 h10 h11 h12 h13
       cases t <;> cases u <;>
         first
           | exact (h1 rfl rfl).elim
           | exact (h2 _ _ rfl rfl).elim
           | exact (h3 _ _ rfl rfl).elim
           | exact (h4 _ _ rfl rfl).elim
           | exact (h5 _ _ rfl rfl).elim
           | exact (h6 _ _ rfl rfl).elim
           | exact (h7 _ _ _ _ _ _ rfl rfl).elim
           | exact (h8 _ _ _ _ _ _ _ _ _ _ rfl rfl).elim
           | exact (h9 _ _ _ _ rfl rfl).elim
           | exact (h10 _ _ rfl rfl).elim
           | exact (h11 _ _ rfl rfl).elim
           | exact (h12 _ _ rfl rfl).elim
           | exact (h13 _ _ _ _ rfl rfl).elim
           | (simp [PyVal.beq]; done))

instance : DecidableEq PyVal := fun a b => decidable_of_iff _ (PyVal.beq_iff a b)

namespace PyVal

/-- The value of an enum member as a `PyVal` (`member.value`). -/
def enumValue (e : EnumDef) (member : String) : PyVal :=
  match (e.members.filter (fun p => p.1 = member)).head? with
  | Option.some (_, EnumLit.s v) => .str v
  | Option.some (_, EnumLit.i v) => .int v
  | Option.none => .none

/-- Python truthiness (`bool(x)`). Enum members backed by `str`/`int`
inherit the truthiness of the backing value. -/
def truthy : PyVal → Bool
  | .none => false
  | .bool b => b
  | .int n => n ≠ 0
  | .float q => q ≠ 0
  | .str s => s ≠ ""
  | .decimal q => q ≠ 0
  | .date _ _ _ => true
  | .datetime _ _ _ _ _ => true
  | .enumMember e m =>
    match enumValue e m with
    | .str v => v ≠ ""
    | .int n => n ≠ 0
    | _ => true
  | .list xs => !xs.isEmpty
  | .tuple xs => !xs.isEmpty
  | .dict entries => !entries.isEmpty
  | .obj _ _ => true

/-- Rendering of `type(x)` as Python prints it in f-strings. -/
def typeRepr : PyVal → String
  | .none => "<class 'NoneType'>"
  | .bool _ => "<class 'bool'>"
  | .int _ => "<class 'int'>"
  | .float _ => "<class 'float'>"
  | .str _ => "<class 'str'>"
  | .decimal _ => "<class 'decimal.Decimal'>"
  | .date _ _ _ => "<class 'datetime.date'>"
  | .datetime _ _ _ _ _ => "<class 'datetime.datetime'>"
  | .enumMember e _ => "<enum '" ++ e.ename ++ "'>"
  | .list _ => "<class 'list'>"
  | .tuple _ => "<class 'tuple'>"
  | .dict _ => "<class 'dict'>"
  | .obj cls _ => "<class '" ++ cls ++ "'>"

end PyVal

/-- `dict.get(key, None)` on a Python dict modelled as an ordered
association list (first binding wins, as keys are unique in a real dict). -/
def pyDictGet (entries : List (PyVal × PyVal)) (key : PyVal) : PyVal :=
  match entries.find? (fun p => p.1 = key) with
  | Option.some p => p.2
  | Option.none => PyVal.none

/-- `key in dict`. -/
def pyDictHasKey (entries : List (PyVal × PyVal)) (key : PyVal) : Bool :=
  (entries.find? (fun p => p.1 = key)).isSome

/-- `d[key] = value` on the association-list model: replaces an existing
binding in place, otherwise appends (Python dict insertion order). -/
def pyDictSet (entries : List (PyVal × PyVal)) (key value : PyVal) :
    List (PyVal × PyVal) :=
  match entries with
  | [] => [(key, value)]
  | (k, v) :: rest =>
    if k = key then (k, value) :: rest
    else (k, v) :: pyDictSet rest key value

/-- Lookup in a string-keyed association list (used for attrs instances
and the per-record configuration maps). -/
def alistGet {α : Type} (l : List (String × α)) (key : String) : Option α :=
  match l.find? (fun p => p.1 = key) with
  | Option.some p => Option.some p.2
  | Option.none => Option.none

/-- `" -> ".join(tree)`. -/
def joinTree (tree : List String) : String :=
  String.intercalate " -> " tree

mutual

/-- A declared field type as seen by `types.FieldDefinition.create` after
`typing` introspection: scalar classes, `typing` generic aliases
(`List`/`Tuple`/`Dict`/`Union`/`Partial[...]`), enum and record classes,
`ForwardRef` wrappers, `typing.Any`, plain `dict`, and `NoneType`. -/
inductive PyType where
  | strT
  | intT
  | floatT
  | boolT
  | decimalT
  | anyT
  | noneT
  | dateT
  | datetimeT
  | rawDictT
  | enumT (e : EnumDef)
  | listT (elem : PyType)
  | tupleT (elems : List PyType)
  | dictT (key value : PyType)
  | unionT (args : List PyType)
  | recordT (r : RecordDef)
  | forwardRefT (r : RecordDef)
  | partialT (args : List PyType)

/-- An `ApiData` record class: its attrs fields (name, declared type,
default where `Option.none` models the `attr.NOTHING` sentinel) and the
per-record configuration maps of `base.ApiDataBase` used by the engine
(`CUSTOM_LOAD`, `CUSTOM_REPRESENTATION`, `OMIT_IN_REPRESENTATION`,
`FORCE_NONE`). -/
inductive RecordDef where
  | mk (rname : String)
       (fields : List (String × PyType × Option PyVal))
       (customLoad : List (String × Option (List (PyVal × PyVal) → Except PyErr PyVal)))
       (customRepr : List (String × (PyVal → PyVal)))
       (omitInRepr : List String)
       (forceNone : List String)

end

def RecordDef.rname : RecordDef → String
  | .mk n _ _ _ _ _ => n

def RecordDef.fields : RecordDef → List (String × PyType × Option PyVal)
  | .mk _ f _ _ _ _ => f

def RecordDef.customLoad :
    RecordDef → List (String × Option (List (PyVal × PyVal) → Except PyErr PyVal))
  | .mk _ _ c _ _ _ => c

def RecordDef.customRepr : RecordDef → List (String × (PyVal → PyVal))
  | .mk _ _ _ c _ _ => c

def RecordDef.omitInRepr : RecordDef → List String
  | .mk _ _ _ _ o _ => o

def RecordDef.forceNone : RecordDef → List String
  | .mk _ _ _ _ _ f => f

/-- The possible values of `getattr(field_type, "__origin__", None)` for
the types in our grammar (`typing.Union`, `list`, `tuple`, `dict`, and a
user-defined `Partial` generic class). -/
inductive TypeOrigin where
  | union
  | listO
  | tupleO
  | dictO
  | partialO
  deriving DecidableEq, Repr

namespace PyType

/-- `getattr(field_type, "__origin__", None)`. -/
def origin : PyType → Option TypeOrigin
  | .unionT _ => Option.some .union
  | .listT _ => Option.some .listO
  | .tupleT _ => Option.some .tupleO
  | .dictT _ _ => Option.some .dictO
  | .partialT _ => Option.some .partialO
  | _ => Option.none

/-- `getattr(field_type, "__args__", [])`. -/
def args : PyType → List PyType
  | .unionT a => a
  | .listT t => [t]
  | .tupleT ts => ts
  | .dictT k v => [k, v]
  | .partialT a => a
  | _ => []

/-- `inspect.isclass(field_type)`: true for actual classes, false for
`typing` aliases, `typing.Any` and `ForwardRef` instances. -/
def isclass : PyType → Bool
  | .strT | .intT | .floatT | .boolT | .decimalT | .noneT
  | .dateT | .datetimeT | .rawDictT | .enumT _ | .recordT _ => true
  | _ => false

/-- `issubclass(field_type, ApiDataBase)` (meaningful on classes only). -/
def isApiDataSubclass : PyType → Bool
  | .recordT _ => true
  | _ => false

/-- A printable rendering of the declared type, used in diagnostics
(`f"{field.type}"`). -/
def pyRepr : PyType → String
  | .strT => "<class 'str'>"
  | .intT => "<class 'int'>"
  | .floatT => "<class 'float'>"
  | .boolT => "<class 'bool'>"
  | .decimalT => "<class 'decimal.Decimal'>"
  | .anyT => "typing.Any"
  | .noneT => "<class 'NoneType'>"
  | .dateT => "<class 'datetime.date'>"
  | .datetimeT => "<class 'datetime.datetime'>"
  | .rawDictT => "<class 'dict'>"
  | .enumT e => "<enum '" ++ e.ename ++ "'>"
  | .listT _ => "typing.List[...]"
  | .tupleT _ => "typing.Tuple[...]"
  | .dictT _ _ => "typing.Dict[...]"
  | .unionT _ => "typing.Union[...]"
  | .recordT r => "<class '" ++ r.rname ++ "'>"
  | .forwardRefT r => "ForwardRef('" ++ r.rname ++ "')"
  | .partialT _ => "Partial[...]"

/-- `t.__name__` for the class-like types (used by `UnionDataField.load`
to name the attempted union arms). -/
def pyName : PyType → String
  | .strT => "str"
  | .intT => "int"
  | .floatT => "float"
  | .boolT => "bool"
  | .decimalT => "Decimal"
  | .anyT => "Any"
  | .noneT => "NoneType"
  | .dateT => "date"
  | .datetimeT => "datetime"
  | .rawDictT => "dict"
  | .enumT e => e.ename
  | .listT _ => "list"
  | .tupleT _ => "tuple"
  | .dictT _ _ => "dict"
  | .unionT _ => "Union"
  | .recordT r => r.rname
  | .forwardRefT r => r.rname
  | .partialT _ => "Partial"

end PyType

/-- `types.FieldDefinition` as built by `FieldDefinition.create`: the
`origin`/`args` components are derived from `type` (see `PyType.origin`
and `PyType.args`), so only the independent data is stored. -/
structure FieldDefinition where
  fname : String
  type : PyType
  defaultValue : Option PyVal := Option.none
  forcedType : Option String := Option.none

/-- The handler variants (the `ApiDataField` subclasses of
`field_processing.py`, in their order of definition in the source file,
which is the order `ApiDataField.__subclasses__()` reports). -/
inductive Handler where
  | extraData
  | unionData
  | listData
  | tupleData
  | anyData
  | plainDictData
  | dictData
  | strData
  | numberData
  | decimalData
  | boolData
  | enumData
  | dateData
  | forwardRefData
  | subclassData
  | partialSubclassData
  deriving DecidableEq, Repr

namespace Handler

/-- The per-variant `check` predicates.  `PartialSubclassDataField.check`
can raise `ConfigurationError`, hence the `Except`. -/
def check (h : Handler) (field : FieldDefinition) : Except PyErr Bool :=
  match h with
  | .extraData =>
    pure (match field.forcedType with
          | Option.some s => s ≠ ""
          | Option.none => false)
  | .unionData => pure (field.type.origin = Option.some .union)
  | .listData => pure (field.type.origin = Option.some .listO)
  | .tupleData => pure (field.type.origin = Option.some .tupleO)
  | .anyData =>
    pure (match field.type with
          | .anyT => true
          | _ => false)
  | .plainDictData =>
    pure ((field.type.origin = Option.none : Bool) &&
          (match field.type with
           | .rawDictT => true
           | _ => false))
  | .dictData => pure (field.type.origin = Option.some .dictO)
  | .strData =>
    pure (match field.type with
          | .strT => true
          | _ => false)
  | .numberData =>
    pure (match field.type with
          | .intT => true
          | .floatT => true
          | _ => false)
  | .decimalData =>
    pure (match field.type with
          | .decimalT => true
          | _ => false)
  | .boolData =>
    pure (match field.type with
          | .boolT => true
          | _ => false)
  | .enumData =>
    pure (match field.type with
          | .enumT _ => true
          | _ => false)
  | .dateData =>
    pure (field.type.isclass &&
          (match field.type with
           | .dateT => true
           | .datetimeT => true
           | _ => false))
  | .forwardRefData =>
    pure (match field.type with
          | .forwardRefT _ => true
          | _ => false)
  | .subclassData =>
    pure (field.type.isclass && field.type.isApiDataSubclass)
  | .partialSubclassData =>
    match field.type.origin with
    | Option.some .partialO =>
      match field.type.args with
      | [arg] =>
        if arg.isclass && arg.isApiDataSubclass then pure true
        else throw (.configurationError
          ("Partial[] can only be applied to ApiData values: " ++ field.fname))
      | _ => throw (.configurationError
          ("Partial[] can only be applied to ApiData values: " ++ field.fname))
    | _ => pure false

end Handler

/-- `ApiDataField.__subclasses__()` in source definition order. -/
def handlerSubclasses : List Handler :=
  [.extraData, .unionData, .listData, .tupleData, .anyData, .plainDictData,
   .dictData, .strData, .numberData, .decimalData, .boolData, .enumData,
   .dateData, .forwardRefData, .subclassData, .partialSubclassData]

/-- The handler order stated in spec §4.1 (Partial-of-record checked
before nested record). -/
def handlerSpecOrder : List Handler :=
  [.extraData, .unionData, .listData, .tupleData, .anyData, .plainDictData,
   .dictData, .strData, .numberData, .decimalData, .boolData, .enumData,
   .dateData, .forwardRefData, .partialSubclassData, .subclassData]

/-- First-match dispatch over a list of handler variants
(the loop body of `ApiDataField.processor`). -/
def processorOver (hs : List Handler) (field : FieldDefinition)
    (classesTree : List String) : Except PyErr Handler :=
  match hs with
  | [] => throw (.unknownFieldType
      ("Unknown field type: " ++ joinTree classesTree ++ " -> " ++
       field.fname ++ ": " ++ field.type.pyRepr))
  | h :: rest => do
    if (← h.check field) then pure h
    else processorOver rest field classesTree

/-- `ApiDataField.processor`: first `check` over `__subclasses__()` wins;
no match raises `UnknownFieldType` naming the class tree and field. -/
def processor (field : FieldDefinition) (classesTree : List String) :
    Except PyErr Handler :=
  processorOver handlerSubclasses field classesTree

/-! ### `enums.py` -/

/-- `enums.parse_enum`: builds `{v.value: v}` over `_member_map_` (later
members win on duplicate values), then requires `value` truthy, present
among the keys, and the found member itself truthy.  A string key can only
match a string-backed value, so integer-backed enums never match.  Returns
the member name. -/
def parse_enum (e : EnumDef) (value : String) : Option String :=
  let found := (e.members.reverse.find? (fun p =>
    match p.2 with
    | .s v => v = value
    | .i _ => false))
  if value ≠ "" then
    match found with
    | Option.some (m, EnumLit.s v) => if v ≠ "" then Option.some m else Option.none
    | _ => Option.none
  else Option.none

/-! ### Character-level string primitives

Python-level string operations (`str.split`, `int(s)`, `s.startswith`,
slicing) modelled structurally over the character list, so that every
use below is kernel-computable. -/

/-- Split a character list at every occurrence of `sep`, keeping empty
segments (the behaviour of Python's `str.split(sep)` with an explicit
one-character separator). -/
def splitChars (sep : Char) : List Char → List (List Char)
  | [] => [[]]
  | c :: cs =>
    if c = sep then [] :: splitChars sep cs
    else
      match splitChars sep cs with
      | [] => [[c]]
      | g :: gs => (c :: g) :: gs

/-- `s.split(sep)` for a one-character separator. -/
def strSplit (s : String) (sep : Char) : List String :=
  (splitChars sep s.toList).map (fun cs => String.mk cs)

/-- Decimal digit accumulator: the value of a digit string. -/
def digitsNat : List Char → Nat → Nat
  | [], acc => acc
  | c :: cs, acc => digitsNat cs (acc * 10 + (c.toNat - 48))

/-- `int(s)` on a (validated) digit string. -/
def strToNat (s : String) : Nat := digitsNat s.toList 0

/-- `s.startswith(c)` for a one-character prefix. -/
def strStartsWith (s : String) (c : Char) : Bool :=
  s.toList.head? = Option.some c

/-- `s[1:]`. -/
def strDrop1 (s : String) : String :=
  String.mk (s.toList.drop 1)

/-! ### `datetime.py` -/

/-- One regex group `(\d{1,2})`: a string of one or two digits. -/
def group12 (s : String) : Option String :=
  if (s.toList.length = 1 || s.toList.length = 2) && s.toList.all Char.isDigit then
    Option.some s
  else Option.none

/-- The numeric value of a digit group. -/
def groupNat (s : String) : Nat := strToNat s

/-- `PARSE_DATE_RE`: `^(\d{1,2})/(\d{1,2})/(\d{1,2})$`, returning the raw
matched groups (month, day, year). -/
def matchDateRe (s : String) : Option (String × String × String) :=
  match strSplit s '/' with
  | [a, b, c] => do
    let a ← group12 a
    let b ← group12 b
    let c ← group12 c
    pure (a, b, c)
  | _ => Option.none

/-- `PARSE_DATETIME_RE`: `^(\d{1,2})/(\d{1,2})/(\d{1,2}) (\d{1,2}):(\d{1,2})$`. -/
def matchDatetimeRe (s : String) : Option (String × String × String × String × String) :=
  match strSplit s ' ' with
  | [datePart, timePart] => do
    let (a, b, c) ← matchDateRe datePart
    match strSplit timePart ':' with
    | [h, mi] => do
      let h ← group12 h
      let mi ← group12 mi
      pure (a, b, c, h, mi)
    | _ => Option.none
  | _ => Option.none

/-- Days in a month of the proleptic Gregorian calendar
(`datetime.date`'s validity rule). -/
def daysInMonth (year month : Nat) : Nat :=
  if month = 2 then
    if year % 4 = 0 && (year % 100 ≠ 0 || year % 400 = 0) then 29 else 28
  else if month = 4 || month = 6 || month = 9 || month = 11 then 30
  else 31

/-- `datetime.date(year, month, day)`: raises `ValueError` when a
component is out of range. -/
def pyDate (year month day : Nat) : Except PyErr PyVal :=
  if 1 ≤ year && year ≤ 9999 && 1 ≤ month && month ≤ 12 &&
      1 ≤ day && day ≤ daysInMonth year month then
    pure (.date year month day)
  else throw .valueError

/-- `datetime.datetime(year, month, day, hour, minute)`. -/
def pyDatetime (year month day hour minute : Nat) : Except PyErr PyVal :=
  if 1 ≤ year && year ≤ 9999 && 1 ≤ month && month ≤ 12 &&
      1 ≤ day && day ≤ daysInMonth year month &&
      hour ≤ 23 && minute ≤ 59 then
    pure (.datetime year month day hour minute)
  else throw .valueError

/-- `datetime.parse_date(formatted_value, with_time)`.  A non-matching
string returns `None`; the `re` module raises `TypeError` on a non-string
argument; a matching string feeds `int("20" + year_group)` etc. into the
`date`/`datetime` constructor, whose range errors propagate. -/
def parse_date (formattedValue : PyVal) (withTime : Bool) : Except PyErr PyVal :=
  match formattedValue with
  | .str s =>
    if withTime then
      match matchDatetimeRe s with
      | Option.none => pure .none
      | Option.some (mo, d, y, h, mi) =>
        pyDatetime (groupNat ("20" ++ y)) (groupNat mo) (groupNat d)
          (groupNat h) (groupNat mi)
    else
      match matchDateRe s with
      | Option.none => pure .none
      | Option.some (mo, d, y) =>
        pyDate (groupNat ("20" ++ y)) (groupNat mo) (groupNat d)
  | _ => throw .typeError

/-- `str(n)` zero-padded to two digits (`strftime` `%m`/`%d`/`%y`/`%H`/`%M`). -/
def pad2 (n : Nat) : String :=
  if n < 10 then "0" ++ toString n else toString n

/-- `fix_day_month` in `datetime.format_date`: strip one leading zero. -/
def fix_day_month (v : String) : String :=
  if strStartsWith v '0' then strDrop1 v else v

/-- `datetime.format_date(input_date, show_time)`.  The engine always
calls it with `skip_current_year=False` (the parameter's default), so the
current-year-skipping branch is dead code here and the full
`month/day/year` pattern is always produced. -/
def format_date (y m d hh mi : Nat) (showTime : Bool) : String :=
  let ret := fix_day_month (pad2 m) ++ "/" ++ fix_day_month (pad2 d) ++ "/" ++
    pad2 (y % 100)
  if showTime then ret ++ " " ++ pad2 hh ++ ":" ++ pad2 mi else ret

/-! ### `decimal.Decimal` conversion -/

/-- Parse a decimal literal string (optional sign, digits, optional
fractional part), the forms relevant to `Decimal(str)`; anything else
raises `InvalidOperation`. -/
def parseDecimalString (s : String) : Option ℚ :=
  let core (t : String) : Option ℚ :=
    match strSplit t '.' with
    | [ip] =>
      if ip ≠ "" && ip.toList.all Char.isDigit then
        Option.some ((strToNat ip : ℚ))
      else Option.none
    | [ip, fp] =>
      if (ip ≠ "" || fp ≠ "") && ip.toList.all Char.isDigit &&
          fp.toList.all Char.isDigit then
        Option.some ((strToNat ip : ℚ) +
          (strToNat fp : ℚ) / ((10 : ℚ) ^ fp.toList.length))
      else Option.none
    | _ => Option.none
  if strStartsWith s '-' then (core (strDrop1 s)).map (fun q => -q)
  else if strStartsWith s '+' then core (strDrop1 s)
  else core s

/-- `Decimal(input_value)` on the value kinds the engine can feed it. -/
def pyDecimal (v : PyVal) : Except PyErr ℚ :=
  match v with
  | .int n => pure (n : ℚ)
  | .float q => pure q
  | .decimal q => pure q
  | .bool b => pure (if b then 1 else 0)
  | .str s =>
    match parseDecimalString s with
    | Option.some q => pure q
    | Option.none => throw .invalidOperation
  | .enumMember e m =>
    match PyVal.enumValue e m with
    | .int n => pure (n : ℚ)
    | .str s =>
      match parseDecimalString s with
      | Option.some q => pure q
      | Option.none => throw .invalidOperation
    | _ => throw .typeError
  | _ => throw .typeError

/-- `int(x)` on a float: truncation toward zero. -/
def pyIntOfFloat (q : ℚ) : Int :=
  if 0 ≤ q then ⌊q⌋ else ⌈q⌉

/-! ### Type-string resolution (`process` / `process_subclass`)

`ApiDataField.process_subclass` builds a fresh `FieldDefinition` (no
default, no forced type) for a nested generic argument, dispatches a
processor for it and runs `process()`; only the rendered `type` string is
relevant to load semantics (the union handler deduplicates its arms by
it), so the `additionally_load` accumulators are not modelled. -/

/-- `t == type(None)`. -/
def isNoneT : PyType → Bool
  | .noneT => true
  | _ => false

/-- Whether a union argument list contains `NoneType` (the `optional`
flag set by `UnionDataField._get_union_types`). -/
def unionOptional (args : List PyType) : Bool :=
  args.any isNoneT

mutual

/-- The `process()` result of the handler dispatched for a nested type
(`process_subclass`): the rendered TypeScript type expression. -/
def tsProcessType (fname : String) (ty : PyType) (tree : List String) :
    Except PyErr String := do
  let h ← processor ⟨fname, ty, Option.none, Option.none⟩ tree
  tsRender h fname ty tree
termination_by (sizeOf ty, 3)

/-- The `process()` body of the dispatched handler (the type-string part
of each handler's `process`). -/
def tsRender (h : Handler) (fname : String) (ty : PyType)
    (tree : List String) : Except PyErr String :=
  match h, ty with
  | .extraData, _ => throw .assertionError
  | .unionData, .unionT args => do
    let uts ← unionTypes fname tree args 0 []
    pure (String.intercalate " | " ((uts.map Prod.snd).mergeSort (fun a b => a ≤ b)))
  | .listData, .listT elem => do
    let s ← tsProcessType (fname ++ "[arg]") elem tree
    pure (if s.contains '|' then "(" ++ s ++ ")[]" else s ++ "[]")
  | .tupleData, .tupleT elems => do
    let ts ← tupleTypes fname tree elems 0
    pure ("[" ++ String.intercalate ", " (ts.map Prod.snd) ++ "]")
  | .anyData, _ => pure "any"
  | .plainDictData, _ => pure "Record<string, any>"
  | .dictData, .dictT k v => do
    let ks ← tsProcessType (fname ++ "_key") k tree
    let vs ← tsProcessType (fname ++ "_value") v tree
    pure ("Record<" ++ ks ++ ", " ++ vs ++ ">")
  | .strData, _ => pure "string"
  | .numberData, _ => pure "number"
  | .decimalData, _ => pure "number"
  | .boolData, _ => pure "boolean"
  | .enumData, .enumT e => pure e.ename
  | .dateData, _ => pure "string"
  | .forwardRefData, _ => throw .attributeError
  | .subclassData, .recordT r => pure r.rname
  | .partialSubclassData, .partialT [PyType.recordT r] =>
    pure ("Partial<" ++ r.rname ++ ">")
  | _, _ => throw .typeError
termination_by (sizeOf ty, 2)

/-- `UnionDataField._get_union_types`: `NoneType` arms only set the
optional flag; other arms are processed in declaration order and
deduplicated by the rendered type string (first occurrence kept). -/
def unionTypes (fname : String) (tree : List String) (args : List PyType)
    (i : Nat) (seen : List String) : Except PyErr (List (PyType × String)) :=
  match args with
  | [] => pure []
  | t :: rest =>
    if isNoneT t then unionTypes fname tree rest (i + 1) seen
    else do
      let ts ← tsProcessType (fname ++ "_" ++ toString i) t tree
      if seen.contains ts then unionTypes fname tree rest (i + 1) seen
      else do
        let r ← unionTypes fname tree rest (i + 1) (ts :: seen)
        pure ((t, ts) :: r)
termination_by (sizeOf args, 1)

/-- `TupleDataField._get_tuple_types`. -/
def tupleTypes (fname : String) (tree : List String) (args : List PyType)
    (i : Nat) : Except PyErr (List (PyType × String)) :=
  match args with
  | [] => pure []
  | t :: rest => do
    let ts ← tsProcessType (fname ++ "_" ++ toString i) t tree
    let r ← tupleTypes fname tree rest (i + 1)
    pure ((t, ts) :: r)
termination_by (sizeOf args, 1)

end

/-- `DictDataField._get_definition`: key/value actual types with their
rendered type strings. -/
def dictDefinition (fname : String) (tree : List String) (k v : PyType) :
    Except PyErr ((PyType × String) × (PyType × String)) := do
  let ks ← tsProcessType (fname ++ "_key") k tree
  let vs ← tsProcessType (fname ++ "_value") v tree
  pure ((k, ks), (v, vs))

/-! ### `types.Partial` -/

/-- `Partial.is_optional`: the declared type is a `Union` containing
`NoneType`. -/
def partialIsOptional (t : PyType) : Bool :=
  match t with
  | .unionT args => unionOptional args
  | _ => false

/-- `typing.Optional[t]` (`Union` flattening: wrapping an existing union
appends `NoneType` to its arguments). -/
def optionalize (t : PyType) : PyType :=
  match t with
  | .unionT args => .unionT (args ++ [.noneT])
  | t => .unionT [t, .noneT]

/-- `Partial.generate_cls`: a subclass named `Partial_<name>` whose fields
all default to `None` and whose non-optional field types are wrapped in
`Optional`; the configuration maps are inherited from the base class. -/
def partialGenerateCls (r : RecordDef) : RecordDef :=
  .mk ("Partial_" ++ r.rname)
      (r.fields.map (fun f =>
        (f.1, if partialIsOptional f.2.1 then f.2.1 else optionalize f.2.1,
         Option.some PyVal.none)))
      r.customLoad r.customRepr r.omitInRepr r.forceNone

/-! ### Termination measures for the recursive engine

Python's recursion here is on the declared-type structure; `Partial`
fields are loaded through a generated class whose field types are wrapped
in one `Optional`, so a plain `sizeOf` does not decrease and a weighted
measure is used instead. -/

mutual

def tweight : PyType → Nat
  | .strT => 1
  | .intT => 1
  | .floatT => 1
  | .boolT => 1
  | .decimalT => 1
  | .anyT => 1
  | .noneT => 1
  | .dateT => 1
  | .datetimeT => 1
  | .rawDictT => 1
  | .enumT _ => 1
  | .listT t => tweight t + 1
  | .tupleT ts => lweight ts + 1
  | .dictT k v => tweight k + tweight v + 1
  | .unionT args => lweight args + 1
  | .recordT r => rweight r + 1
  | .forwardRefT r => rweight r + 1
  | .partialT args => pweight args + 1
termination_by t => (sizeOf t, 0)

def lweight : List PyType → Nat
  | [] => 0
  | t :: ts => tweight t + lweight ts + 1
termination_by ts => (sizeOf ts, 0)

def pweight : List PyType → Nat
  | [] => 0
  | t :: ts => paw t + 1 + pweight ts
termination_by ts => (sizeOf ts, 2)

def paw : PyType → Nat
  | .recordT (.mk _ fields _ _ _ _) => frweight fields + 4 * fields.length + 3
  | t => tweight t + 1
termination_by t => (sizeOf t, 1)

def rweight : RecordDef → Nat
  | .mk _ fields _ _ _ _ => frweight fields + 1
termination_by r => (sizeOf r, 0)

def frweight : List (String × PyType × Option PyVal) → Nat
  | [] => 0
  | (_, t, _) :: fs => tweight t + 6 + frweight fs
termination_by fs => (sizeOf fs, 0)

end

theorem tweight_pos : ∀ t, 1 ≤ tweight t := by
  intro t
  cases t <;> simp [tweight] <;> omega

theorem tweight_optionalize (t : PyType) :
    tweight (optionalize t) ≤ tweight t + 4 := by
  cases t <;> simp [optionalize, tweight, lweight]
  case unionT args =>
    induction args with
    | nil => simp [lweight, tweight]
    | cons a as ih => simp [lweight] at ih ⊢; omega

theorem frweight_partialGenerateCls (fields : List (String × PyType × Option PyVal)) :
    frweight (fields.map (fun f =>
      (f.1, if partialIsOptional f.2.1 then f.2.1 else optionalize f.2.1,
       Option.some PyVal.none))) ≤ frweight fields + 4 * fields.length := by
  induction fields with
  | nil => simp [frweight]
  | cons f fs ih =>
    obtain ⟨n, t, d⟩ := f
    simp only [List.map_cons, frweight, List.length_cons]
    have h := tweight_optionalize t
    by_cases hopt : partialIsOptional t <;> simp [hopt] <;> omega

theorem rweight_partialGenerateCls (r : RecordDef) :
    rweight (partialGenerateCls r) < tweight (.partialT [.recordT r]) := by
  rcases r with ⟨n, fields, cl, cr, om, fn⟩
  have h := frweight_partialGenerateCls fields
  simp only [partialGenerateCls, rweight, tweight, pweight, paw, lweight,
    RecordDef.fields, RecordDef.rname, RecordDef.customLoad,
    RecordDef.customRepr, RecordDef.omitInRepr, RecordDef.forceNone] at h ⊢
  omega

theorem rweight_fields_eq (r : RecordDef) :
    rweight r = frweight r.fields + 1 := by
  cases r
  simp [rweight, RecordDef.fields]

/-- Weight of the head types of a `(type, ts-string)` list. -/
def wPairs : List (PyType × String) → Nat
  | [] => 0
  | p :: ps => tweight p.1 + wPairs ps

theorem unionTypes_wPairs_le (fname : String) (tree : List String) :
    ∀ (args : List PyType) (i : Nat) (seen : List String)
      (uts : List (PyType × String)),
      unionTypes fname tree args i seen = .ok uts → wPairs uts ≤ lweight args := by
  intro args
  induction args with
  | nil =>
    intro i seen uts h
    simp only [unionTypes, pure, Except.pure, Except.ok.injEq] at h
    subst h
    simp [wPairs]
  | cons t rest ih =>
    intro i seen uts h
    by_cases hn : isNoneT t
    · simp only [unionTypes, if_pos hn] at h
      have := ih _ _ _ h
      simp only [lweight]
      omega
    · simp only [unionTypes, if_neg hn, bind, Except.bind] at h
      cases hts : tsProcessType (fname ++ "_" ++ toString i) t tree with
      | error e => rw [hts] at h; cases h
      | ok ts =>
        rw [hts] at h
        dsimp only at h
        by_cases hseen : seen.contains ts
        · rw [if_pos hseen] at h
          have := ih _ _ _ h
          simp only [lweight]
          have := tweight_pos t
          omega
        · rw [if_neg hseen] at h
          cases hrec : unionTypes fname tree rest (i + 1) (ts :: seen) with
          | error e => rw [hrec] at h; cases h
          | ok r =>
            rw [hrec] at h
            simp only [pure, Except.pure, Except.ok.injEq] at h
            subst h
            have := ih _ _ _ hrec
            simp only [wPairs, lweight]
            omega

/-! ### Runtime type tests used by the load/represent engine -/

/-- `type(v) == t` (exact runtime class comparison against a declared
class-like type; always false against `typing` aliases). -/
def typeIs (t : PyType) (v : PyVal) : Bool :=
  match t, v with
  | .strT, .str _ => true
  | .intT, .int _ => true
  | .floatT, .float _ => true
  | .boolT, .bool _ => true
  | .decimalT, .decimal _ => true
  | .dateT, .date _ _ _ => true
  | .datetimeT, .datetime _ _ _ _ _ => true
  | .rawDictT, .dict _ => true
  | .noneT, .none => true
  | .enumT e, .enumMember e' _ => e = e'
  | .recordT r, .obj c _ => r.rname = c
  | _, _ => false

/-- `isinstance(v, str)`: strings, and members of `str`-backed enums. -/
def isinstanceStr (v : PyVal) : Bool :=
  match v with
  | .str _ => true
  | .enumMember e _ => e.strBacked
  | _ => false

/-- `str(v)` (used only to build nested field names and messages). -/
def pyStrOf : PyVal → String
  | .none => "None"
  | .bool b => if b then "True" else "False"
  | .int n => toString n
  | .float q => toString q
  | .str s => s
  | .decimal q => toString q
  | .date y m d => toString y ++ "-" ++ pad2 m ++ "-" ++ pad2 d
  | .datetime y m d hh mi =>
    toString y ++ "-" ++ pad2 m ++ "-" ++ pad2 d ++ " " ++ pad2 hh ++ ":" ++ pad2 mi
  | .enumMember e m => e.ename ++ "." ++ m
  | .list _ => "[...]"
  | .tuple _ => "(...)"
  | .dict _ => "{...}"
  | .obj cls _ => "<" ++ cls ++ " object>"

/-- The base `ApiDataField.load` short-circuit: `input_value is None` and
the descriptor's default is not the `attr.NOTHING` sentinel.  Every
handler runs this first (`super().load` wrapped in
`except NoDefaultValue`). -/
def tryDefault (dv : Option PyVal) (v : PyVal) : Option PyVal :=
  match v, dv with
  | .none, Option.some d => Option.some d
  | _, _ => Option.none

/-- The key types `DictDataField.load` accepts for an entry: a declared
key type that is a union *not containing `NoneType`* is expanded to its
arguments, anything else stands alone. -/
def dictActualKeyTypes (kt : PyType) : List PyType :=
  match kt with
  | .unionT args => if args.any isNoneT then [.unionT args] else args
  | _ => [kt]

/-- Python list repr of a list of types (`f"{actual_types}"`). -/
def typesListRepr (ts : List PyType) : String :=
  "[" ++ String.intercalate ", " (ts.map PyType.pyRepr) ++ "]"

/-- `issubclass(t, enum.Enum)` for a class-like declared type. -/
def isEnumClass (t : PyType) : Bool :=
  match t with
  | .enumT _ => true
  | _ => false

/-- `input_cls(**ret_kwargs)`: attrs instance construction; a missing
required argument (no default) raises `TypeError`. -/
def constructObj (r : RecordDef) (kwargs : List (String × PyVal)) :
    Except PyErr PyVal := do
  let fields ← r.fields.mapM (fun f =>
    match alistGet kwargs f.1 with
    | Option.some v => pure (f.1, v)
    | Option.none =>
      match f.2.2 with
      | Option.some d => pure (f.1, d)
      | Option.none => throw PyErr.typeError)
  pure (.obj r.rname fields)

/-- The `except TypeError` in `ApiData.rec_load`'s field loop. -/
def catchTypeError (m : Except PyErr PyVal) (fieldTree : List String)
    (fieldType : PyType) (fieldName : String) : Except PyErr PyVal :=
  match m with
  | .error .typeError => throw (.loadError (joinTree fieldTree ++
      ": unknown field type: " ++ fieldType.pyRepr ++ " (" ++ fieldName ++ ")"))
  | m => m

/-- The key branch of `DictData.load`: accept a key whose type is one of
the actual key types; otherwise a raw string key is looked up through
`parse_enum` when the single declared key type is an enum class; anything
else raises `LoadError` with the key message. -/
def dictKeyCoerce (key : PyVal) (actualTypes : List PyType)
    (keyMsg : String) : Except PyErr PyVal :=
  if actualTypes.any (fun t => typeIs t key) then pure key
  else
    match key, actualTypes with
    | .str sv, [PyType.enumT e] =>
      match parse_enum e sv with
      | Option.some m => pure (PyVal.enumMember e m)
      | Option.none => throw (.loadError keyMsg)
    | _, _ => throw (.loadError keyMsg)

/-! ### The load engine

`processorLoad fd dispatchTree v loadTree` is
`ApiDataField.processor(fd, dispatchTree).load(v, loadTree)`; the handler
remembers the tree it was constructed with (`self.classes_tree`, used by
`_get_union_types` / `_get_tuple_types` / `_get_definition`), which can
differ from the tree passed to `load`.  The loop over
`_get_union_types()`'s result in `UnionDataField.load` is re-expressed as
a loop over the raw argument list that recomputes the (pure) dedup
filter, which attempts exactly the same arms in the same order. -/

mutual

def processorLoad (fd : FieldDefinition) (dispatchTree : List String)
    (v : PyVal) (loadTree : List String) : Except PyErr PyVal := do
  let h ← processor fd dispatchTree
  handlerLoad h fd.fname fd.defaultValue fd.type dispatchTree v loadTree
termination_by (4 * tweight fd.type + 2, 0)

decreasing_by all_goals
  (first
    | (apply Prod.Lex.right
       simp only [List.length_cons]
       omega)
    | (apply Prod.Lex.left
       try dsimp only
       first
         | (have hh := rweight_partialGenerateCls r
            simp only [tweight, lweight, frweight, rweight, paw, pweight] at hh ⊢
            omega)
         | (simp only [tweight, lweight, frweight, rweight, paw, pweight]
            omega)
         | (simp only [rweight_fields_eq, tweight, lweight, frweight, paw, pweight]
            omega)
         | omega))

def handlerLoad (h : Handler) (fname : String) (dv : Option PyVal)
    (ty : PyType) (constructionTree : List String) (v : PyVal)
    (classTree : List String) : Except PyErr PyVal :=
  match h, ty with
  | .extraData, _ =>
    -- `ExtraDataField` does not override `load`: the base implementation
    -- either returns the default or raises `NoDefaultValue`.
    match tryDefault dv v with
    | Option.some d => pure d
    | Option.none => throw .noDefaultValue
  | .unionData, .unionT args =>
    match tryDefault dv v with
    | Option.some d => pure d
    | Option.none => do
      let uts ← unionTypes fname constructionTree args 0 []
      if unionOptional args && decide (v = PyVal.none) then pure .none
      else
        loadUnionArms fname constructionTree args 0 [] v classTree
          (uts.map (fun p => p.1.pyName))
  | .listData, .listT elem =>
    match tryDefault dv v with
    | Option.some d => pure d
    | Option.none =>
      match v with
      | .list xs => PyVal.list <$> loadListElems fname elem xs 0 classTree
      | _ => throw (.loadError ("Type Mismatch: " ++ joinTree classTree ++
          " -> " ++ fname ++ ": " ++ v.typeRepr ++ " is not a list!"))
  | .tupleData, .tupleT elems =>
    match tryDefault dv v with
    | Option.some d => pure d
    | Option.none => do
      let _tts ← tupleTypes fname constructionTree elems 0
      match v with
      | .list xs =>
        if xs.length ≠ elems.length then
          throw (.loadError ("Length Mismatch: " ++ joinTree classTree ++
            " -> " ++ fname ++ ": expected " ++ toString elems.length ++
            ", got " ++ toString xs.length))
        else PyVal.tuple <$> loadTupleElems fname elems xs 0 classTree
      | _ => throw (.loadError ("Type Mismatch: " ++ joinTree classTree ++
          " -> " ++ fname ++ ": " ++ v.typeRepr ++ " is not a list!"))
  | .anyData, _ =>
    match tryDefault dv v with
    | Option.some d => pure d
    | Option.none => pure v
  | .plainDictData, _ =>
    match tryDefault dv v with
    | Option.some d => pure d
    | Option.none =>
      match v with
      | .dict _ => pure v
      | _ => throw (.loadError ("Type Mismatch: " ++ joinTree classTree ++
          " -> " ++ fname ++ ": " ++ v.typeRepr ++ " is not a dict!"))
  | .dictData, .dictT kt vt =>
    match tryDefault dv v with
    | Option.some d => pure d
    | Option.none =>
      match v with
      | .dict entries => do
        let _defn ← dictDefinition fname constructionTree kt vt
        PyVal.dict <$> loadDictEntries fname kt vt entries classTree []
      | _ => throw (.loadError ("Type Mismatch: " ++ joinTree classTree ++
          " -> " ++ fname ++ ": " ++ v.typeRepr ++ " is not a dict!"))
  | .strData, _ =>
    match tryDefault dv v with
    | Option.some d => pure d
    | Option.none =>
      if !typeIs .strT v && !isinstanceStr v then
        throw (.loadError ("Type Mismatch: " ++ joinTree classTree ++ " -> " ++
          fname ++ ": " ++ v.typeRepr ++ " is not a string!"))
      else pure v
  | .numberData, _ =>
    match tryDefault dv v with
    | Option.some d => pure d
    | Option.none =>
      if typeIs ty v then pure v
      else
        match ty, v with
        | .floatT, .int n => pure (.float (n : ℚ))
        | .intT, .float q => pure (.int (pyIntOfFloat q))
        | _, _ => throw (.loadError ("Type Mismatch: " ++ joinTree classTree ++
            " -> " ++ fname ++ ": " ++ v.typeRepr ++ " is not a " ++
            ty.pyRepr ++ "!"))
  | .decimalData, _ =>
    match tryDefault dv v with
    | Option.some d => pure d
    | Option.none =>
      if v.truthy then PyVal.decimal <$> pyDecimal v
      else pure .none
  | .boolData, _ =>
    match tryDefault dv v with
    | Option.some d => pure d
    | Option.none =>
      if typeIs .boolT v then pure v
      else throw (.loadError ("Type Mismatch: " ++ joinTree classTree ++
        " -> " ++ fname ++ ": " ++ v.typeRepr ++ " is not a boolean!"))
  | .enumData, .enumT e =>
    match tryDefault dv v with
    | Option.some d => pure d
    | Option.none =>
      match v with
      | .str sv =>
        match parse_enum e sv with
        | Option.some m => pure (.enumMember e m)
        | Option.none => throw (.loadError ("Value Error: " ++
            joinTree classTree ++ " -> " ++ fname ++ ": " ++ sv ++
            " is not a " ++ e.ename ++ "!"))
      | _ =>
        if typeIs (.enumT e) v then pure v
        else throw (.loadError ("Type Mismatch: " ++ joinTree classTree ++
          " -> " ++ fname ++ ": " ++ v.typeRepr ++
          " is not a string and neither " ++ (PyType.enumT e).pyRepr ++ "!"))
  | .dateData, _ =>
    match tryDefault dv v with
    | Option.some d => pure d
    | Option.none =>
      parse_date v (match ty with
                    | .datetimeT => true
                    | _ => false)
  | .forwardRefData, .forwardRefT r =>
    match tryDefault dv v with
    | Option.some d => pure d
    | Option.none => recLoad r v [r.rname]
  | .subclassData, .recordT r =>
    match tryDefault dv v with
    | Option.some d => pure d
    | Option.none => recLoad r v [r.rname]
  | .partialSubclassData, .partialT [PyType.recordT r] =>
    match tryDefault dv v with
    | Option.some d => pure d
    | Option.none => recLoad (partialGenerateCls r) v [(partialGenerateCls r).rname]
  | _, _ => throw .assertionError
termination_by (4 * tweight ty + 1, 0)

decreasing_by all_goals
  (first
    | (apply Prod.Lex.right
       simp only [List.length_cons]
       omega)
    | (apply Prod.Lex.left
       try dsimp only
       first
         | (have hh := rweight_partialGenerateCls r
            simp only [tweight, lweight, frweight, rweight, paw, pweight] at hh ⊢
            omega)
         | (simp only [tweight, lweight, frweight, rweight, paw, pweight]
            omega)
         | (simp only [rweight_fields_eq, tweight, lweight, frweight, paw, pweight]
            omega)
         | omega))

/-- The arm loop of `UnionDataField.load`: each kept arm is loaded with a
fresh processor named `<field>[union]` and default `None`; only
`LoadError` is caught (and printed); exhausting the arms raises
`LoadError` naming all attempted types. -/
def loadUnionArms (fname : String) (constructionTree : List String)
    (args : List PyType) (i : Nat) (seen : List String) (v : PyVal)
    (classTree : List String) (attemptedNames : List String) :
    Except PyErr PyVal :=
  match args with
  | [] => throw (.loadError ("Type Mismatch: " ++ joinTree classTree ++
      " -> " ++ fname ++ ": " ++ v.typeRepr ++ " is not in Union[" ++
      String.intercalate ", " attemptedNames ++ "]"))
  | t :: rest =>
    if isNoneT t then
      loadUnionArms fname constructionTree rest (i + 1) seen v classTree attemptedNames
    else
      match tsProcessType (fname ++ "_" ++ toString i) t constructionTree with
      | .error e => throw e
      | .ok ts =>
        if seen.contains ts then
          loadUnionArms fname constructionTree rest (i + 1) seen v classTree attemptedNames
        else
          match processorLoad ⟨fname ++ "[union]", t, Option.some PyVal.none,
              Option.none⟩ classTree v classTree with
          | .error (.loadError _) =>
            loadUnionArms fname constructionTree rest (i + 1) (ts :: seen) v classTree attemptedNames
          | r => r
termination_by (4 * (lweight args + 1), args.length)

decreasing_by all_goals
  (first
    | (apply Prod.Lex.right
       simp only [List.length_cons]
       omega)
    | (apply Prod.Lex.left
       try dsimp only
       first
         | (have hh := rweight_partialGenerateCls r
            simp only [tweight, lweight, frweight, rweight, paw, pweight] at hh ⊢
            omega)
         | (simp only [tweight, lweight, frweight, rweight, paw, pweight]
            omega)
         | (simp only [rweight_fields_eq, tweight, lweight, frweight, paw, pweight]
            omega)
         | omega))

/-- The element loop of `ListDataField.load`. -/
def loadListElems (fname : String) (elem : PyType) (xs : List PyVal)
    (i : Nat) (classTree : List String) : Except PyErr (List PyVal) :=
  match xs with
  | [] => pure []
  | x :: rest => do
    let r ← processorLoad ⟨fname ++ "[" ++ toString i ++ "]", elem,
      Option.some PyVal.none, Option.none⟩ classTree x classTree
    let rs ← loadListElems fname elem rest (i + 1) classTree
    pure (r :: rs)
termination_by (4 * tweight elem + 3, xs.length)

decreasing_by all_goals
  (first
    | (apply Prod.Lex.right
       simp only [List.length_cons]
       omega)
    | (apply Prod.Lex.left
       try dsimp only
       first
         | (have hh := rweight_partialGenerateCls r
            simp only [tweight, lweight, frweight, rweight, paw, pweight] at hh ⊢
            omega)
         | (simp only [tweight, lweight, frweight, rweight, paw, pweight]
            omega)
         | (simp only [rweight_fields_eq, tweight, lweight, frweight, paw, pweight]
            omega)
         | omega))

/-- The positional loop of `TupleDataField.load` (the element load is
passed `class_tree + [field_name]`). -/
def loadTupleElems (fname : String) (elems : List PyType) (xs : List PyVal)
    (i : Nat) (classTree : List String) : Except PyErr (List PyVal) :=
  match elems, xs with
  | t :: ts, x :: rest => do
    let r ← processorLoad ⟨fname ++ "[" ++ toString i ++ "]", t,
      Option.some PyVal.none, Option.none⟩ classTree x (classTree ++ [fname])
    let rs ← loadTupleElems fname ts rest (i + 1) classTree
    pure (r :: rs)
  | _, _ => pure []
termination_by (4 * lweight elems + 3, 0)

decreasing_by all_goals
  (first
    | (apply Prod.Lex.right
       simp only [List.length_cons]
       omega)
    | (apply Prod.Lex.left
       try dsimp only
       first
         | (have hh := rweight_partialGenerateCls r
            simp only [tweight, lweight, frweight, rweight, paw, pweight] at hh ⊢
            omega)
         | (simp only [tweight, lweight, frweight, rweight, paw, pweight]
            omega)
         | (simp only [rweight_fields_eq, tweight, lweight, frweight, paw, pweight]
            omega)
         | omega))

/-- The entry loop of `DictDataField.load`: key type check with
enum-string coercion, recursive value load, insertion-ordered result. -/
def loadDictEntries (fname : String) (kt vt : PyType)
    (entries : List (PyVal × PyVal)) (classTree : List String)
    (acc : List (PyVal × PyVal)) : Except PyErr (List (PyVal × PyVal)) :=
  match entries with
  | [] => pure acc
  | (key, value) :: rest => do
    let actualTypes := dictActualKeyTypes kt
    let keyMsg := "Type Mismatch: " ++ joinTree classTree ++ " -> " ++
      fname ++ ": key (" ++ pyStrOf key ++ ", " ++ key.typeRepr ++
      ") is not " ++ typesListRepr actualTypes ++ "!"
    let key' ← dictKeyCoerce key actualTypes keyMsg
    let value' ← processorLoad ⟨fname ++ "[" ++ pyStrOf key' ++ "]", vt,
      Option.some PyVal.none, Option.none⟩ classTree value (classTree ++ [fname])
    loadDictEntries fname kt vt rest classTree (pyDictSet acc key' value')
termination_by (4 * tweight vt + 3, entries.length)

decreasing_by all_goals
  (first
    | (apply Prod.Lex.right
       simp only [List.length_cons]
       omega)
    | (apply Prod.Lex.left
       try dsimp only
       first
         | (have hh := rweight_partialGenerateCls r
            simp only [tweight, lweight, frweight, rweight, paw, pweight] at hh ⊢
            omega)
         | (simp only [tweight, lweight, frweight, rweight, paw, pweight]
            omega)
         | (simp only [rweight_fields_eq, tweight, lweight, frweight, paw, pweight]
            omega)
         | omega))

/-- `ApiData.rec_load`. -/
def recLoad (r : RecordDef) (inputData : PyVal) (fieldTree : List String) :
    Except PyErr PyVal :=
  match inputData with
  | .dict entries => do
    let kwargs ← recLoadFields r entries r.fields fieldTree []
    constructObj r kwargs
  | _ => throw (.loadError (joinTree fieldTree ++ ": Not a Dict while Loadable"))
termination_by (4 * rweight r + 1, 0)

decreasing_by all_goals
  (first
    | (apply Prod.Lex.right
       simp only [List.length_cons]
       omega)
    | (apply Prod.Lex.left
       try dsimp only
       first
         | (have hh := rweight_partialGenerateCls r
            simp only [tweight, lweight, frweight, rweight, paw, pweight] at hh ⊢
            omega)
         | (simp only [tweight, lweight, frweight, rweight, paw, pweight]
            omega)
         | (simp only [rweight_fields_eq, tweight, lweight, frweight, paw, pweight]
            omega)
         | omega))

/-- The field loop of `ApiData.rec_load`: ambiguous-union check, custom
loaders (a `None` custom loader skips the field), otherwise dispatch and
load; `TypeError` is converted to `LoadError`. -/
def recLoadFields (r : RecordDef) (entries : List (PyVal × PyVal))
    (fields : List (String × PyType × Option PyVal))
    (fieldTree : List String) (kwargs : List (String × PyVal)) :
    Except PyErr (List (String × PyVal)) :=
  match fields with
  | [] => pure kwargs
  | (fieldName, fieldType, default) :: rest => do
    let fieldValue := pyDictGet entries (.str fieldName)
    if fieldType.origin = Option.some .union &&
        !(fieldType.args.any isNoneT) &&
        (alistGet r.customLoad fieldName).isNone then
      throw (.unknownFieldType (joinTree fieldTree ++ ": Union Field \"" ++
        fieldName ++ "\" not in CUSTOM_LOAD"))
    else
      match alistGet r.customLoad fieldName with
      | Option.some (Option.some loader) => do
        let lv ← catchTypeError (loader entries) fieldTree fieldType fieldName
        recLoadFields r entries rest fieldTree (kwargs ++ [(fieldName, lv)])
      | Option.some Option.none =>
        recLoadFields r entries rest fieldTree kwargs
      | Option.none => do
        let lv ← catchTypeError
          (processorLoad ⟨fieldName, fieldType, default, Option.none⟩
            (fieldTree ++ [fieldName]) fieldValue (fieldTree ++ [fieldName]))
          fieldTree fieldType fieldName
        recLoadFields r entries rest fieldTree (kwargs ++ [(fieldName, lv)])
termination_by (4 * frweight fields + 3, 0)

decreasing_by all_goals
  (first
    | (apply Prod.Lex.right
       simp only [List.length_cons]
       omega)
    | (apply Prod.Lex.left
       try dsimp only
       first
         | (have hh := rweight_partialGenerateCls r
            simp only [tweight, lweight, frweight, rweight, paw, pweight] at hh ⊢
            omega)
         | (simp only [tweight, lweight, frweight, rweight, paw, pweight]
            omega)
         | (simp only [rweight_fields_eq, tweight, lweight, frweight, paw, pweight]
            omega)
         | omega))

end

/-- `ApiData.load_from_dict`. -/
def load_from_dict (r : RecordDef) (v : PyVal) : Except PyErr PyVal :=
  recLoad r v [r.rname]

/-! ### The represent engine (`ApiData.__iter__` / handler `represent`) -/

/-- Whether a union arm matches the runtime value in
`UnionDataField.represent`: exact type equality, generic-origin equality,
or an `issubclass` relationship in either direction between two classes. -/
def unionArmMatches (t : PyType) (v : PyVal) : Bool :=
  typeIs t v ||
  (match t, v with
   | .listT _, .list _ => true
   | .tupleT _, .tuple _ => true
   | .dictT _ _, .dict _ => true
   | _, _ => false) ||
  (t.isclass &&
   (match t, v with
    | .strT, .enumMember e _ => e.strBacked
    | .enumT e, .str _ => e.strBacked
    | .intT, .bool _ => true
    | .boolT, .int _ => true
    | .intT, .enumMember e _ => !e.strBacked
    | .enumT e, .int _ => !e.strBacked
    | .dateT, .datetime _ _ _ _ _ => true
    | .datetimeT, .date _ _ _ => true
    | .recordT r, .obj c _ => c = "Partial_" ++ r.rname
    | _, _ => false))

/-- Iterating a Python value (`for x in v`): lists/tuples yield elements,
dicts yield keys, strings yield 1-character strings; anything else raises
`TypeError`. -/
def pyIter (v : PyVal) : Except PyErr (List PyVal) :=
  match v with
  | .list xs => pure xs
  | .tuple xs => pure xs
  | .dict entries => pure (entries.map Prod.fst)
  | .str s => pure (s.toList.map (fun c => .str (String.singleton c)))
  | _ => throw .typeError

/-- `float(v)` (used by `DecimalDataField.represent`). -/
def pyFloat (v : PyVal) : Except PyErr ℚ :=
  match v with
  | .decimal q => pure q
  | .float q => pure q
  | .int n => pure (n : ℚ)
  | .bool b => pure (if b then 1 else 0)
  | .str s =>
    match parseDecimalString s with
    | Option.some q => pure q
    | Option.none => throw .valueError
  | _ => throw .typeError

mutual

/-- `ApiDataField.processor(fd, tree).represent(exemplar)`, where the
caller has already performed the handler's
`getattr(cls_exemplar, self.field.name, None)` and passes the value. -/
def processorRepresent (fd : FieldDefinition) (dispatchTree : List String)
    (v : PyVal) : Except PyErr PyVal := do
  let h ← processor fd dispatchTree
  handlerRepresent h fd.fname fd.type dispatchTree v
termination_by (4 * tweight fd.type + 2, 0)
decreasing_by all_goals
  (first
    | (apply Prod.Lex.right
       simp only [List.length_cons]
       omega)
    | (apply Prod.Lex.left
       try dsimp only
       first
         | (have hh := rweight_partialGenerateCls r
            simp only [tweight, lweight, frweight, rweight, paw, pweight] at hh ⊢
            omega)
         | (simp only [tweight, lweight, frweight, rweight, paw, pweight]
            omega)
         | (simp only [rweight_fields_eq, tweight, lweight, frweight, paw, pweight]
            omega)
         | omega))

def handlerRepresent (h : Handler) (fname : String) (ty : PyType)
    (constructionTree : List String) (v : PyVal) : Except PyErr PyVal :=
  match h, ty with
  | .extraData, _ => pure v
  | .unionData, .unionT args => representUnionArms fname args v
  | .listData, .listT elem =>
    match v with
    | .none => pure .none
    | _ => do
      let xs ← pyIter v
      PyVal.list <$> representListElems fname elem xs
  | .tupleData, .tupleT elems =>
    match v with
    | .none => pure .none
    | _ => do
      let _tts ← tupleTypes fname constructionTree elems 0
      let xs ← pyIter v
      PyVal.list <$> representTupleElems fname elems xs
  | .anyData, _ => pure v
  | .plainDictData, _ => pure v
  | .dictData, .dictT kt vt =>
    match v with
    | .none => pure .none
    | .dict entries => do
      let _defn ← dictDefinition fname constructionTree kt vt
      PyVal.dict <$> representDictEntries fname kt vt entries []
    | _ => throw .attributeError
  | .strData, _ => pure v
  | .numberData, _ => pure v
  | .boolData, _ => pure v
  | .decimalData, _ =>
    match v with
    | .none => pure .none
    | _ => PyVal.float <$> pyFloat v
  | .enumData, .enumT e =>
    match v with
    | .none => pure .none
    | .enumMember e' m => pure (PyVal.enumValue e' m)
    | .str s => pure (.str s)
    | _ => throw (.loadError ("Value Error: " ++ fname ++ ": " ++ pyStrOf v ++
        " is not a " ++ e.ename ++ "!"))
  | .dateData, _ =>
    match v with
    | .none => pure .none
    | .date y m d =>
      pure (.str (format_date y m d 0 0 (match ty with
                                         | .datetimeT => true
                                         | _ => false)))
    | .datetime y m d hh mi =>
      pure (.str (format_date y m d hh mi (match ty with
                                           | .datetimeT => true
                                           | _ => false)))
    | _ => throw .attributeError
  | .forwardRefData, .forwardRefT r =>
    match v with
    | .none => pure .none
    | .obj _ _ => recRepresent r v
    | _ => throw .attributeError
  | .subclassData, .recordT r =>
    match v with
    | .none => pure .none
    | .obj _ _ => recRepresent r v
    | _ => throw .attributeError
  | .partialSubclassData, .partialT [PyType.recordT r] =>
    match v with
    | .none => pure .none
    | .obj _ _ => recRepresent (partialGenerateCls r) v
    | _ => throw .attributeError
  | _, _ => throw .assertionError
termination_by (4 * tweight ty + 1, 0)
decreasing_by all_goals
  (first
    | (apply Prod.Lex.right
       simp only [List.length_cons]
       omega)
    | (apply Prod.Lex.left
       try dsimp only
       first
         | (have hh := rweight_partialGenerateCls r
            simp only [tweight, lweight, frweight, rweight, paw, pweight] at hh ⊢
            omega)
         | (simp only [tweight, lweight, frweight, rweight, paw, pweight]
            omega)
         | (simp only [rweight_fields_eq, tweight, lweight, frweight, paw, pweight]
            omega)
         | omega))

/-- `UnionDataField.represent`: first matching non-`NoneType` arm is
represented (with `classes_tree = [field_name]`); no match yields `None`. -/
def representUnionArms (fname : String) (args : List PyType) (v : PyVal) :
    Except PyErr PyVal :=
  match args with
  | [] => pure .none
  | t :: rest =>
    if unionArmMatches t v && !isNoneT t then
      processorRepresent ⟨fname, t, Option.none, Option.none⟩ [fname] v
    else representUnionArms fname rest v
termination_by (4 * (lweight args + 1), args.length)
decreasing_by all_goals
  (first
    | (apply Prod.Lex.right
       simp only [List.length_cons]
       omega)
    | (apply Prod.Lex.left
       try dsimp only
       first
         | (have hh := rweight_partialGenerateCls r
            simp only [tweight, lweight, frweight, rweight, paw, pweight] at hh ⊢
            omega)
         | (simp only [tweight, lweight, frweight, rweight, paw, pweight]
            omega)
         | (simp only [rweight_fields_eq, tweight, lweight, frweight, paw, pweight]
            omega)
         | omega))

/-- `ListDataField.represent`'s element loop (each element is wrapped in a
`Dummy` and represented with `classes_tree = [field_name]`). -/
def representListElems (fname : String) (elem : PyType) (xs : List PyVal) :
    Except PyErr (List PyVal) :=
  match xs with
  | [] => pure []
  | x :: rest => do
    let r ← processorRepresent ⟨fname, elem, Option.none, Option.none⟩ [fname] x
    let rs ← representListElems fname elem rest
    pure (r :: rs)
termination_by (4 * tweight elem + 3, xs.length)
decreasing_by all_goals
  (first
    | (apply Prod.Lex.right
       simp only [List.length_cons]
       omega)
    | (apply Prod.Lex.left
       try dsimp only
       first
         | (have hh := rweight_partialGenerateCls r
            simp only [tweight, lweight, frweight, rweight, paw, pweight] at hh ⊢
            omega)
         | (simp only [tweight, lweight, frweight, rweight, paw, pweight]
            omega)
         | (simp only [rweight_fields_eq, tweight, lweight, frweight, paw, pweight]
            omega)
         | omega))

/-- `TupleDataField.represent`'s positional loop (`zip` stops at the
shorter sequence; nested processors get an empty `classes_tree`). -/
def representTupleElems (fname : String) (elems : List PyType)
    (xs : List PyVal) : Except PyErr (List PyVal) :=
  match elems, xs with
  | t :: ts, x :: rest => do
    let r ← processorRepresent ⟨fname, t, Option.none, Option.none⟩ [] x
    let rs ← representTupleElems fname ts rest
    pure (r :: rs)
  | _, _ => pure []
termination_by (4 * lweight elems + 3, 0)
decreasing_by all_goals
  (first
    | (apply Prod.Lex.right
       simp only [List.length_cons]
       omega)
    | (apply Prod.Lex.left
       try dsimp only
       first
         | (have hh := rweight_partialGenerateCls r
            simp only [tweight, lweight, frweight, rweight, paw, pweight] at hh ⊢
            omega)
         | (simp only [tweight, lweight, frweight, rweight, paw, pweight]
            omega)
         | (simp only [rweight_fields_eq, tweight, lweight, frweight, paw, pweight]
            omega)
         | omega))

/-- `DictDataField.represent`'s entry loop (`result[repr(k)] = repr(v)`:
the assignment's right-hand side is evaluated before the subscript). -/
def representDictEntries (fname : String) (kt vt : PyType)
    (entries : List (PyVal × PyVal)) (acc : List (PyVal × PyVal)) :
    Except PyErr (List (PyVal × PyVal)) :=
  match entries with
  | [] => pure acc
  | (k, val) :: rest => do
    let val' ← processorRepresent ⟨fname, vt, Option.none, Option.none⟩ [] val
    let k' ← processorRepresent ⟨fname, kt, Option.none, Option.none⟩ [] k
    representDictEntries fname kt vt rest (pyDictSet acc k' val')
termination_by (4 * (tweight kt + tweight vt) + 3, entries.length)
decreasing_by all_goals
  (first
    | (apply Prod.Lex.right
       simp only [List.length_cons]
       omega)
    | (apply Prod.Lex.left
       try dsimp only
       first
         | (have hh := rweight_partialGenerateCls r
            simp only [tweight, lweight, frweight, rweight, paw, pweight] at hh ⊢
            omega)
         | (simp only [tweight, lweight, frweight, rweight, paw, pweight]
            omega)
         | (simp only [rweight_fields_eq, tweight, lweight, frweight, paw, pweight]
            omega)
         | omega))

/-- `ApiData.__iter__` / `represent`: iterate the class's attrs fields in
order, skip omitted fields and `None` values not forced, apply custom
representers, otherwise dispatch a processor (empty `classes_tree`) and
represent the field value. -/
def recRepresent (r : RecordDef) (inst : PyVal) : Except PyErr PyVal :=
  match inst with
  | .obj _ instFields => do
    let entries ← recRepresentFields r instFields r.fields []
    pure (.dict entries)
  | _ => throw .attributeError
termination_by (4 * rweight r + 1, 0)
decreasing_by all_goals
  (first
    | (apply Prod.Lex.right
       simp only [List.length_cons]
       omega)
    | (apply Prod.Lex.left
       try dsimp only
       first
         | (have hh := rweight_partialGenerateCls r
            simp only [tweight, lweight, frweight, rweight, paw, pweight] at hh ⊢
            omega)
         | (simp only [tweight, lweight, frweight, rweight, paw, pweight]
            omega)
         | (simp only [rweight_fields_eq, tweight, lweight, frweight, paw, pweight]
            omega)
         | omega))

def recRepresentFields (r : RecordDef) (instFields : List (String × PyVal))
    (fields : List (String × PyType × Option PyVal))
    (acc : List (PyVal × PyVal)) : Except PyErr (List (PyVal × PyVal)) :=
  match fields with
  | [] => pure acc
  | (name, t, d) :: rest =>
    let value := (alistGet instFields name).getD .none
    if (!decide (value = PyVal.none) || r.forceNone.contains name) &&
        !(r.omitInRepr.contains name) then
      match alistGet r.customRepr name with
      | Option.some f =>
        recRepresentFields r instFields rest (pyDictSet acc (.str name) (f value))
      | Option.none => do
        let rep ← processorRepresent ⟨name, t, d, Option.none⟩ [] value
        recRepresentFields r instFields rest (pyDictSet acc (.str name) rep)
    else recRepresentFields r instFields rest acc
termination_by (4 * frweight fields + 3, 0)
decreasing_by all_goals
  (first
    | (apply Prod.Lex.right
       simp only [List.length_cons]
       omega)
    | (apply Prod.Lex.left
       try dsimp only
       first
         | (have hh := rweight_partialGenerateCls r
            simp only [tweight, lweight, frweight, rweight, paw, pweight] at hh ⊢
            omega)
         | (simp only [tweight, lweight, frweight, rweight, paw, pweight]
            omega)
         | (simp only [rweight_fields_eq, tweight, lweight, frweight, paw, pweight]
            omega)
         | omega))

end

/-- `ApiData.represent` (`dict(self)`). -/
def represent (r : RecordDef) (inst : PyVal) : Except PyErr PyVal :=
  recRepresent r inst


/-! ### `output.py` (`TypescriptFile`) -/

/-- `TypescriptFile._header()`. -/
def tsHeader : List String :=
  ["// This file is generated automatically! Please do not change it manually",
   "// ALL CHANGES WILL BE LOST",
   ""]

/-- `str.strip()` (Python strips ASCII whitespace at both ends; the
generated text only carries spaces and newlines there). -/
def pyStrip (s : String) : String :=
  s.trim

/-- `TypescriptFile.generate_code`. -/
def generate_code (sections : List (List String)) : String :=
  String.intercalate "\n\n" (sections.map (fun sec => pyStrip (String.intercalate "\n" sec)))

/-- `TypescriptFile.generate(header)` as called by `update` (with the
auto-generated header). -/
def tsGenerate (sections : List (List String)) : String :=
  (pyStrip (String.intercalate "\n" tsHeader ++ generate_code sections)).replace "\n\n\n" "\n\n"

/-- `file.readlines()` / `str.splitlines(keepends=True)` for `\n`-separated
text. -/
def splitKeepEnds (s : String) : List String :=
  let step := s.toList.foldl (fun (acc : List String × String) c =>
    if c = '\n' then (acc.1 ++ [acc.2.push c], "") else (acc.1, acc.2.push c))
    ([], "")
  if step.2 = "" then step.1 else step.1 ++ [step.2]

/-- The effect of `TypescriptFile.update` on the output file. -/
inductive UpdateAction where
  | skip
  | write (content : String)
  deriving DecidableEq, Repr

/-- `TypescriptFile.update`: compare the existing file with the newly
generated text, dropping the first `len(header)` (= 3) lines from both;
equal tails leave the file untouched, otherwise the new text is written
(a missing file is always written). -/
def tsUpdate (existing : Option String) (sections : List (List String)) :
    UpdateAction :=
  let newText := tsGenerate sections
  match existing with
  | Option.some old =>
    if (splitKeepEnds old).drop tsHeader.length =
        (splitKeepEnds newText).drop tsHeader.length then .skip
    else .write newText
  | Option.none => .write newText

/-! ### Spec-side reformulation of the union load (for the amended C3) -/

/-- The loop of `UnionDataField.load` as the spec describes it: try each
arm of the already-deduplicated list in order, return the first
successful decode, catch (only) `LoadError` per arm, and raise a
`LoadError` naming every attempted type after the last arm. -/
def unionFirstMatch (fname : String) (uts : List (PyType × String))
    (v : PyVal) (classTree : List String) (attemptedNames : List String) :
    Except PyErr PyVal :=
  match uts with
  | [] => throw (.loadError ("Type Mismatch: " ++ joinTree classTree ++
      " -> " ++ fname ++ ": " ++ v.typeRepr ++ " is not in Union[" ++
      String.intercalate ", " attemptedNames ++ "]"))
  | (t, _) :: rest =>
    match processorLoad ⟨fname ++ "[union]", t, Option.some PyVal.none,
        Option.none⟩ classTree v classTree with
    | .error (.loadError _) => unionFirstMatch fname rest v classTree attemptedNames
    | r => r


/-! ### The round-trippable fragment (for the amended C1)

The counterexamples show the round trip fails for `Decimal`,
`date`/`datetime`, integer-backed enums, raw non-optional unions and
custom hooks; the predicates below carve out the fragment on which the
round trip is provable: plain scalars, `Any`, raw dicts, truthy
injective string-backed enums, lists, tuples, string/int/enum-keyed
dicts, single-arm optionals of those (except `Any`), and nested records
without custom hooks or omitted fields. -/

/-- A string-backed enum whose member values are all non-empty strings
and whose names and values are duplicate-free. -/
def rtEnumB (e : EnumDef) : Bool :=
  e.strBacked &&
  e.members.all (fun p =>
    match p.2 with
    | .s w => w ≠ ""
    | .i _ => false) &&
  decide (e.members.map Prod.fst).Nodup &&
  decide (e.members.map Prod.snd).Nodup

/-- Key types for which dict entries round-trip. -/
def rtKeyB : PyType → Bool
  | .strT => true
  | .intT => true
  | .enumT e => rtEnumB e
  | _ => false

/-- Types allowed as the single non-null arm of an optional. -/
def rtInnerOk : PyType → Bool
  | .anyT => false
  | .unionT _ => false
  | _ => true

mutual

def rtType : PyType → Bool
  | .strT => true
  | .intT => true
  | .floatT => true
  | .boolT => true
  | .anyT => true
  | .rawDictT => true
  | .enumT e => rtEnumB e
  | .listT t => rtType t
  | .tupleT ts => rtTypes ts
  | .dictT kt vt => rtKeyB kt && rtType vt
  | .unionT [t, .noneT] => rtInnerOk t && rtType t
  | .recordT r => rtRecordB r
  | _ => false
termination_by t => (sizeOf t, 1)

def rtTypes : List PyType → Bool
  | [] => true
  | t :: ts => rtType t && rtTypes ts
termination_by ts => (sizeOf ts, 0)

def rtRecordB : RecordDef → Bool
  | .mk _ fields cl cr om fn =>
    cl.isEmpty && cr.isEmpty && om.isEmpty && fn.isEmpty &&
    decide (fields.map Prod.fst).Nodup && rtFieldsB fields
termination_by r => (sizeOf r, 0)

def rtFieldsB : List (String × PyType × Option PyVal) → Bool
  | [] => true
  | (_, t, _) :: fs => rtType t && rtFieldsB fs
termination_by fs => (sizeOf fs, 0)

end

/-- A field that loads without error from an absent key (used for
omitted fields of the top-level record). -/
def absentLoadable (t : PyType) (d : Option PyVal) : Bool :=
  d.isSome ||
  (match t with
   | .anyT => true
   | .unionT args => unionOptional args
   | _ => false)

/-- The top-level record for the amended round-trip: no custom loaders or
representers, duplicate-free field names, round-trippable field types;
fields marked omitted may exist but must be loadable from an absent key. -/
def rtRecordTop : RecordDef → Bool
  | .mk _ fields cl cr om fn =>
    cl.isEmpty && cr.isEmpty && fn.isEmpty &&
    decide (fields.map Prod.fst).Nodup &&
    fields.all (fun f => rtType f.2.1 &&
      (!om.contains f.1 || absentLoadable f.2.1 f.2.2))

/-- Valid keys of a round-trippable dict. -/
def validKeyB : PyType → PyVal → Bool
  | .strT, .str _ => true
  | .intT, .int _ => true
  | .enumT e, .enumMember e' m =>
    decide (e' = e) && (e.members.map Prod.fst).contains m
  | _, _ => false

mutual

/-- A runtime value matching its declared (round-trippable) type; `None`
is valid only for optionals and `Any`. -/
def validVal : PyType → PyVal → Bool
  | .strT, .str _ => true
  | .intT, .int _ => true
  | .floatT, .float _ => true
  | .boolT, .bool _ => true
  | .anyT, _ => true
  | .rawDictT, .dict _ => true
  | .enumT e, .enumMember e' m =>
    decide (e' = e) && (e.members.map Prod.fst).contains m
  | .listT t, .list xs => validList t xs
  | .tupleT ts, .tuple xs => validTuple ts xs
  | .dictT kt vt, .dict entries =>
    decide (entries.map Prod.fst).Nodup && validEntries kt vt entries
  | .unionT [t, .noneT], v => decide (v = PyVal.none) || validVal t v
  | .recordT r, .obj c instFields =>
    decide (c = r.rname) && validInstB r instFields
  | _, _ => false
termination_by t v => (sizeOf t + sizeOf v, 1)

def validList (t : PyType) (xs : List PyVal) : Bool :=
  match xs with
  | [] => true
  | x :: rest => validVal t x && validList t rest
termination_by (sizeOf t + sizeOf xs, 0)

def validTuple (ts : List PyType) (xs : List PyVal) : Bool :=
  match ts, xs with
  | [], [] => true
  | t :: ts, x :: rest => validVal t x && validTuple ts rest
  | _, _ => false
termination_by (sizeOf ts + sizeOf xs, 0)

def validEntries (kt vt : PyType) (entries : List (PyVal × PyVal)) : Bool :=
  match entries with
  | [] => true
  | (k, w) :: rest => validKeyB kt k && validVal vt w && validEntries kt vt rest
termination_by (sizeOf vt + sizeOf entries, 0)

def validInstB (r : RecordDef) (instFields : List (String × PyVal)) : Bool :=
  match r with
  | .mk _ fields _ _ _ _ => validFieldsB fields instFields
termination_by (sizeOf r + sizeOf instFields, 1)

/-- Instance attributes aligned with the class's fields; a `None` value
additionally requires the field's default to be the sentinel or `None`
(a non-`None` default would resurface instead of the stored `None`). -/
def validFieldsB : List (String × PyType × Option PyVal) →
    List (String × PyVal) → Bool
  | [], [] => true
  | (n, t, d) :: fs, (n', v) :: ivs =>
    decide (n = n') && validVal t v &&
    (!decide (v = PyVal.none) || decide (d = Option.none) ||
      decide (d = Option.some PyVal.none)) &&
    validFieldsB fs ivs
  | _, _ => false
termination_by fs ivs => (sizeOf fs + sizeOf ivs, 0)

end

/-- The inductive round-trip property of a single field type: every valid
value represents to some `w` that is null exactly when the value is null,
and `w` loads back to the original value, for any default consistent with
the base short-circuit (`None` defaults or non-null values). -/
def RT (t : PyType) : Prop :=
  ∀ v, validVal t v = true →
    ∀ (name : String) (tree : List String) (d0 : Option PyVal),
    ∃ w, processorRepresent ⟨name, t, d0, Option.none⟩ tree v = pure w ∧
      (w = PyVal.none ↔ v = PyVal.none) ∧
      ∀ (name2 : String) (tree1 tree2 : List String) (dv : Option PyVal),
        dv = Option.none ∨ dv = Option.some PyVal.none ∨ v ≠ PyVal.none →
        processorLoad ⟨name2, t, dv, Option.none⟩ tree1 w tree2 = pure v

/-- The record and instance of the C1 counterexample: a single
`Decimal`-typed field holding `Decimal(0)`. -/
def decimalRecord : RecordDef :=
  .mk "R" [("d", .decimalT, Option.none)] [] [] [] []



/-- A record whose single field's `CUSTOM_LOAD` entry inspects the whole
input mapping, as `rec_load` passes it (`input_data` is handed to the
loader, so a loader can test key membership). -/
def c10Record : RecordDef :=
  .mk "C" [("f", .intT, Option.none)]
    [("f", Option.some (fun input =>
      pure (if pyDictHasKey input (.str "f") then .int 1 else .int 0)))]
    [] [] []

/-! ## Theorems -/

section DispatchLemmas

theorem processor_forced (n : String) (ty : PyType) (dv : Option PyVal)
    (s : String) (hs : s ≠ "") (t : List String) :
    processor ⟨n, ty, dv, Option.some s⟩ t = .ok .extraData := by
  simp [processor, processorOver, handlerSubclasses, Handler.check, hs,
    bind, Except.bind, pure, Except.pure]

theorem processor_strT (n : String) (dv : Option PyVal) (t : List String) :
    processor ⟨n, .strT, dv, Option.none⟩ t = .ok .strData := rfl

theorem processor_intT (n : String) (dv : Option PyVal) (t : List String) :
    processor ⟨n, .intT, dv, Option.none⟩ t = .ok .numberData := rfl

theorem processor_floatT (n : String) (dv : Option PyVal) (t : List String) :
    processor ⟨n, .floatT, dv, Option.none⟩ t = .ok .numberData := rfl

theorem processor_boolT (n : String) (dv : Option PyVal) (t : List String) :
    processor ⟨n, .boolT, dv, Option.none⟩ t = .ok .boolData := rfl

theorem processor_decimalT (n : String) (dv : Option PyVal) (t : List String) :
    processor ⟨n, .decimalT, dv, Option.none⟩ t = .ok .decimalData := rfl

theorem processor_anyT (n : String) (dv : Option PyVal) (t : List String) :
    processor ⟨n, .anyT, dv, Option.none⟩ t = .ok .anyData := rfl

theorem processor_noneT (n : String) (dv : Option PyVal) (t : List String) :
    processor ⟨n, .noneT, dv, Option.none⟩ t = .error (.unknownFieldType
      ("Unknown field type: " ++ joinTree t ++ " -> " ++ n ++ ": " ++
       PyType.noneT.pyRepr)) := rfl

theorem processor_dateT (n : String) (dv : Option PyVal) (t : List String) :
    processor ⟨n, .dateT, dv, Option.none⟩ t = .ok .dateData := rfl

theorem processor_datetimeT (n : String) (dv : Option PyVal) (t : List String) :
    processor ⟨n, .datetimeT, dv, Option.none⟩ t = .ok .dateData := rfl

theorem processor_rawDictT (n : String) (dv : Option PyVal) (t : List String) :
    processor ⟨n, .rawDictT, dv, Option.none⟩ t = .ok .plainDictData := rfl

theorem processor_enumT (n : String) (dv : Option PyVal) (e : EnumDef) (t : List String) :
    processor ⟨n, .enumT e, dv, Option.none⟩ t = .ok .enumData := rfl

theorem processor_listT (n : String) (dv : Option PyVal) (el : PyType) (t : List String) :
    processor ⟨n, .listT el, dv, Option.none⟩ t = .ok .listData := rfl

theorem processor_tupleT (n : String) (dv : Option PyVal) (ts : List PyType) (t : List String) :
    processor ⟨n, .tupleT ts, dv, Option.none⟩ t = .ok .tupleData := rfl

theorem processor_dictT (n : String) (dv : Option PyVal) (k v : PyType) (t : List String) :
    processor ⟨n, .dictT k v, dv, Option.none⟩ t = .ok .dictData := rfl

theorem processor_unionT (n : String) (dv : Option PyVal) (args : List PyType) (t : List String) :
    processor ⟨n, .unionT args, dv, Option.none⟩ t = .ok .unionData := rfl

theorem processor_recordT (n : String) (dv : Option PyVal) (r : RecordDef) (t : List String) :
    processor ⟨n, .recordT r, dv, Option.none⟩ t = .ok .subclassData := by
  cases r
  rfl

theorem processor_forwardRefT (n : String) (dv : Option PyVal) (r : RecordDef) (t : List String) :
    processor ⟨n, .forwardRefT r, dv, Option.none⟩ t = .ok .forwardRefData := by
  cases r
  rfl

theorem processor_partialT_ok (n : String) (dv : Option PyVal) (r : RecordDef) (t : List String) :
    processor ⟨n, .partialT [.recordT r], dv, Option.none⟩ t = .ok .partialSubclassData := by
  cases r
  rfl

theorem processorOver_congr_suffix (l l1 l2 : List Handler)
    (f : FieldDefinition) (t : List String)
    (h : processorOver l1 f t = processorOver l2 f t) :
    processorOver (l ++ l1) f t = processorOver (l ++ l2) f t := by
  induction l with
  | nil => simpa using h
  | cons hd tl ih =>
    simp only [List.cons_append, processorOver, bind, Except.bind]
    cases hc : hd.check f with
    | error e => rfl
    | ok b => cases b <;> simp [ih]

theorem processorOver_last_two (f : FieldDefinition) (t : List String) :
    processorOver [.subclassData, .partialSubclassData] f t =
    processorOver [.partialSubclassData, .subclassData] f t := by
  rcases f with ⟨name, ty, dv, ft⟩
  cases ty <;>
    simp [processorOver, Handler.check, bind, Except.bind, pure, Except.pure,
      PyType.origin, PyType.isclass, PyType.isApiDataSubclass]

theorem processorOver_no_match (l : List Handler) (f : FieldDefinition)
    (t : List String) (h : ∀ hd : Handler, hd.check f = pure false) :
    processorOver l f t = throw (.unknownFieldType
      ("Unknown field type: " ++ joinTree t ++ " -> " ++ f.fname ++ ": " ++
       f.type.pyRepr)) := by
  induction l with
  | nil => rfl
  | cons hd tl ih =>
    simp [processorOver, bind, Except.bind, h hd, pure, Except.pure, ih]

end DispatchLemmas

/-- C4: handler resolution iterates the fixed ordered list of variant
predicates; extensionally this first-match dispatch agrees with the
priority order given in spec §4.1 (forced type, union, list, tuple, any,
raw map, typed map, scalars, enum, date, forward reference, Partial
before nested record) — the two orders differ only in the relative
position of the last two checks, whose predicates are disjoint — and
when no predicate matches, resolution fails with `UnknownFieldType`
naming the full field path. -/
theorem c4_dispatch_priority_order (f : FieldDefinition) (t : List String) :
    processor f t = processorOver handlerSpecOrder f t ∧
    ((∀ hd : Handler, hd.check f = pure false) →
      processor f t = throw (.unknownFieldType
        ("Unknown field type: " ++ joinTree t ++ " -> " ++ f.fname ++ ": " ++
         f.type.pyRepr))) := by
  constructor
  · exact processorOver_congr_suffix
      [.extraData, .unionData, .listData, .tupleData, .anyData, .plainDictData,
       .dictData, .strData, .numberData, .decimalData, .boolData, .enumData,
       .dateData, .forwardRefData]
      [.subclassData, .partialSubclassData] [.partialSubclassData, .subclassData]
      f t (processorOver_last_two f t)
  · exact fun h => processorOver_no_match _ f t h

/-- C4 witness: a bare `NoneType` annotation matches no predicate and
fails with `UnknownFieldType` carrying the record → field path. -/
theorem c4_dispatch_priority_order_witness :
    processor ⟨"f", .noneT, Option.none, Option.none⟩ ["Rec"] =
      throw (.unknownFieldType "Unknown field type: Rec -> f: <class 'NoneType'>") :=
  (c4_dispatch_priority_order ⟨"f", .noneT, Option.none, Option.none⟩ ["Rec"]).2
    (by intro hd; cases hd <;> rfl)

theorem processor_forced_empty (n : String) (ty : PyType) (dv : Option PyVal)
    (t : List String) :
    processor ⟨n, ty, dv, Option.some ""⟩ t = processor ⟨n, ty, dv, Option.none⟩ t := rfl

theorem processor_partialT_bad (n : String) (dv : Option PyVal) (t : List String)
    (a : PyType) (ha : (a.isclass && a.isApiDataSubclass) = false) :
    processor ⟨n, .partialT [a], dv, Option.none⟩ t =
      .error (.configurationError ("Partial[] can only be applied to ApiData values: " ++ n)) := by
  cases a <;>
    first
      | rfl
      | (rename_i r; cases r; simp [PyType.isclass, PyType.isApiDataSubclass] at ha)
      | (simp [PyType.isclass, PyType.isApiDataSubclass] at ha)

theorem processor_partialT_nil (n : String) (dv : Option PyVal) (t : List String) :
    processor ⟨n, .partialT [], dv, Option.none⟩ t =
      .error (.configurationError ("Partial[] can only be applied to ApiData values: " ++ n)) := rfl

theorem processor_partialT_many (n : String) (dv : Option PyVal) (t : List String)
    (a b : PyType) (rest : List PyType) :
    processor ⟨n, .partialT (a :: b :: rest), dv, Option.none⟩ t =
      .error (.configurationError ("Partial[] can only be applied to ApiData values: " ++ n)) := rfl

unseal processorLoad in
theorem processorLoad_bind (fd : FieldDefinition) (t1 : List String)
    (v : PyVal) (t2 : List String) :
    processorLoad fd t1 v t2 = (processor fd t1).bind
      (fun h => handlerLoad h fd.fname fd.defaultValue fd.type t1 v t2) := by
  rw [processorLoad]
  rfl

unseal processorLoad handlerLoad loadUnionArms loadListElems loadTupleElems loadDictEntries recLoad recLoadFields tsProcessType unionTypes tupleTypes in
theorem c2_aux (n : String) (ty : PyType) (tree : List String) (d : PyVal)
    (h : Handler)
    (hdisp : processor ⟨n, ty, Option.some d, Option.none⟩ tree = .ok h) :
    handlerLoad h n (Option.some d) ty tree PyVal.none tree = pure d := by
  cases ty <;>
    first
      | (injection hdisp with hh
         subst hh
         rfl)
      | (exact absurd hdisp (fun hx => Except.noConfusion hx))
      | (rename_i args
         match args with
         | [] => exact absurd hdisp (fun hx => Except.noConfusion hx)
         | [a] =>
           cases a <;>
             first
               | (injection hdisp with hh
                  subst hh
                  rfl)
               | (exact absurd hdisp (fun hx => Except.noConfusion hx))
         | a :: b :: rest => exact absurd hdisp (fun hx => Except.noConfusion hx))

unseal processorLoad handlerLoad loadUnionArms loadListElems loadTupleElems loadDictEntries recLoad recLoadFields tsProcessType unionTypes tupleTypes in
/-- C2: whenever the field descriptor carries a non-sentinel default and
a handler resolves, loading an absent/null raw value returns the default
immediately, whatever the declared type — every handler honours the base
short-circuit before any type-specific validation. -/
theorem c2_default_short_circuit (fd : FieldDefinition) (tree : List String)
    (d : PyVal) (h : Handler) (hdef : fd.defaultValue = Option.some d)
    (hdisp : processor fd tree = .ok h) :
    processorLoad fd tree PyVal.none tree = pure d := by
  rcases fd with ⟨n, ty, dv, ft⟩
  simp only at hdef
  subst hdef
  rw [processorLoad_bind]
  dsimp only
  cases ft with
  | none =>
    rw [hdisp]
    simp only [Except.bind]
    exact c2_aux n ty tree d h hdisp
  | some s =>
    by_cases hs : s = ""
    · subst hs
      rw [processor_forced_empty] at hdisp ⊢
      rw [hdisp]
      simp only [Except.bind]
      exact c2_aux n ty tree d h hdisp
    · rw [processor_forced n ty (Option.some d) s hs tree] at hdisp
      rw [processor_forced n ty (Option.some d) s hs tree]
      injection hdisp with hh
      subst hh
      simp only [Except.bind]
      cases ty <;>
        first
          | rfl
          | (rename_i args
             match args with
             | [] => rfl
             | [a] => cases a <;> rfl
             | a :: b :: rest => rfl)

unseal processorLoad handlerLoad loadUnionArms loadListElems loadTupleElems loadDictEntries recLoad recLoadFields tsProcessType unionTypes tupleTypes in
/-- C2 witness: a field declared as the non-nullable `Union[int, bool]`
with default `"x"` loads `"x"` from an absent value — the short-circuit
bypasses the union check entirely. -/
theorem c2_default_short_circuit_witness :
    processorLoad ⟨"f", .unionT [.intT, .boolT], Option.some (.str "x"),
        Option.none⟩ ["R"] PyVal.none ["R"] = pure (.str "x") :=
  c2_default_short_circuit ⟨"f", .unionT [.intT, .boolT],
      Option.some (.str "x"), Option.none⟩ ["R"] (.str "x") .unionData rfl rfl

/-- C9: `TypescriptFile.update` leaves the output file untouched whenever
the generated text a previous run wrote matches the newly generated text
(byte-identical declarations under the same auto-generated header), and
in particular a second generation run over unchanged sections never
rewrites the file. -/
theorem c9_idempotent_output (s1 s2 : List (List String))
    (hbody : tsGenerate s1 = tsGenerate s2) :
    tsUpdate (Option.some (tsGenerate s1)) s2 = .skip := by
  simp [tsUpdate, hbody]

/-- C9 witness: re-running generation over the same single declaration
section does not rewrite the file. -/
theorem c9_idempotent_output_witness :
    tsUpdate (Option.some (tsGenerate [["export type A = string;"]]))
      [["export type A = string;"]] = .skip :=
  c9_idempotent_output [["export type A = string;"]]
    [["export type A = string;"]] rfl

section UnionLoadLemmas

unseal processorLoad handlerLoad loadUnionArms loadListElems loadTupleElems loadDictEntries recLoad recLoadFields tsProcessType unionTypes tupleTypes in
theorem loadUnionArms_eq_firstMatch (fname : String) (ctree : List String)
    (v : PyVal) (ltree : List String) (attempted : List String) :
    ∀ (args : List PyType) (i : Nat) (seen : List String)
      (uts : List (PyType × String)),
      unionTypes fname ctree args i seen = .ok uts →
      loadUnionArms fname ctree args i seen v ltree attempted =
        unionFirstMatch fname uts v ltree attempted := by
  intro args
  induction args with
  | nil =>
    intro i seen uts h
    simp only [unionTypes, pure, Except.pure, Except.ok.injEq] at h
    subst h
    rfl
  | cons t rest ih =>
    intro i seen uts h
    by_cases hn : isNoneT t
    · simp only [unionTypes, if_pos hn] at h
      rw [loadUnionArms, if_pos hn]
      exact ih _ _ _ h
    · simp only [unionTypes, if_neg hn, bind, Except.bind] at h
      rw [loadUnionArms, if_neg hn]
      cases hts : tsProcessType (fname ++ "_" ++ toString i) t ctree with
      | error e => rw [hts] at h; cases h
      | ok ts =>
        rw [hts] at h
        dsimp only at h
        by_cases hseen : seen.contains ts
        · rw [if_pos hseen] at h
          simp only [if_pos hseen]
          exact ih _ _ _ h
        · rw [if_neg hseen] at h
          simp only [if_neg hseen]
          cases hrec : unionTypes fname ctree rest (i + 1) (ts :: seen) with
          | error e => rw [hrec] at h; cases h
          | ok r =>
            rw [hrec] at h
            simp only [pure, Except.pure, Except.ok.injEq] at h
            subst h
            rw [unionFirstMatch]
            cases hload : processorLoad ⟨fname ++ "[union]", t,
                Option.some PyVal.none, Option.none⟩ ltree v ltree with
            | error e =>
              cases e <;> simp only [hload] <;> try rfl
              exact ih _ _ _ hrec
            | ok w => simp only [hload]

end UnionLoadLemmas

/-- C3 (amended): for a union-typed field, after the default
short-circuit the handler computes the union's arms *deduplicated by
their rendered type string* (first arm of each rendered type kept, `None`
arms only setting the optional flag); if the descriptor is optional and
the input is null it returns null; otherwise it tries each *deduplicated*
arm in declaration order, returns the first successful decode, catches
(and merely logs) each attempted arm's `LoadError`, and if every
attempted arm fails raises `LoadError` naming the deduplicated attempted
types. -/
theorem c3_union_first_match_amended (fname : String) (dv : Option PyVal)
    (args : List PyType) (ctree : List String) (v : PyVal)
    (ltree : List String) :
    handlerLoad .unionData fname dv (.unionT args) ctree v ltree =
      (match tryDefault dv v with
       | Option.some d => pure d
       | Option.none =>
         (unionTypes fname ctree args 0 []).bind (fun uts =>
           if unionOptional args && decide (v = PyVal.none) then pure .none
           else unionFirstMatch fname uts v ltree
             (uts.map (fun p => p.1.pyName)))) := by
  rw [handlerLoad]
  cases htd : tryDefault dv v with
  | some d => rfl
  | none =>
    dsimp only
    cases hu : unionTypes fname ctree args 0 [] with
    | error e => rfl
    | ok uts =>
      simp only [Except.bind, bind]
      by_cases hopt : (unionOptional args && decide (v = PyVal.none)) = true
      · rw [if_pos hopt, if_pos hopt]
      · rw [if_neg hopt, if_neg hopt]
        exact loadUnionArms_eq_firstMatch fname ctree v ltree _ args 0 [] uts hu

unseal processorLoad handlerLoad loadUnionArms loadListElems loadTupleElems loadDictEntries recLoad recLoadFields tsProcessType unionTypes tupleTypes in
/-- C3 counterexample: for the field `Union[int, Decimal]` both arms
render as `number`, so the `Decimal` arm is deduplicated away.  On input
`"5"` the `Decimal` arm alone would decode successfully, yet the union
load raises a `LoadError` naming only `int` — the claim's "tries each
non-null union arm" is false on the code. -/
theorem c3_union_first_match_counterexample :
    processorLoad ⟨"f", .decimalT, Option.none, Option.none⟩ ["R"]
        (.str "5") ["R"] = pure (.decimal 5) ∧
    processorLoad ⟨"f", .unionT [.intT, .decimalT], Option.none,
        Option.none⟩ ["R"] (.str "5") ["R"] =
      throw (.loadError "Type Mismatch: R -> f: <class 'str'> is not in Union[int]") := by
  constructor
  · rfl
  · rfl

unseal processorLoad handlerLoad loadUnionArms loadListElems loadTupleElems loadDictEntries recLoad recLoadFields tsProcessType unionTypes tupleTypes in
/-- C5 counterexample: an integer-backed enum with member value `1`
rejects the raw input `1` with a `LoadError`, although `1` is in the
enum's declared value set — only strings are ever looked up against the
value set, so the claim is false for integer-backed enums. -/
theorem c5_enum_load_counterexample :
    PyVal.enumValue ⟨"Num", false, [("ONE", .i 1)]⟩ "ONE" = .int 1 ∧
    processorLoad ⟨"f", .enumT ⟨"Num", false, [("ONE", .i 1)]⟩, Option.none,
        Option.none⟩ ["R"] (.int 1) ["R"] =
      throw (.loadError
        "Type Mismatch: R -> f: <class 'int'> is not a string and neither <enum 'Num'>!") := by
  constructor
  · rfl
  · rfl

/-- C5 (amended): enum load accepts exactly (a) a string that
`parse_enum` resolves against the declared value set (case-sensitive
exact match on string-backed values, requiring a truthy string and a
truthy member), converted to the enum member, and (b) an instance of the
same enum, returned as-is; any other input — in particular the raw
backing integer of an integer-backed enum, even when it is in the value
set — raises `LoadError`. -/
theorem c5_enum_load_amended (e : EnumDef) (fname : String)
    (tree : List String) :
    (∀ s m, parse_enum e s = Option.some m →
      handlerLoad .enumData fname Option.none (.enumT e) tree (.str s) tree =
        pure (.enumMember e m)) ∧
    (∀ m, handlerLoad .enumData fname Option.none (.enumT e) tree
        (.enumMember e m) tree = pure (.enumMember e m)) ∧
    (∀ s, parse_enum e s = Option.none →
      handlerLoad .enumData fname Option.none (.enumT e) tree (.str s) tree =
        throw (.loadError ("Value Error: " ++ joinTree tree ++ " -> " ++
          fname ++ ": " ++ s ++ " is not a " ++ e.ename ++ "!"))) ∧
    (∀ n : Int,
      handlerLoad .enumData fname Option.none (.enumT e) tree (.int n) tree =
        throw (.loadError ("Type Mismatch: " ++ joinTree tree ++ " -> " ++
          fname ++ ": " ++ (PyVal.int n).typeRepr ++
          " is not a string and neither " ++ (PyType.enumT e).pyRepr ++ "!"))) := by
  refine ⟨?_, ?_, ?_, ?_⟩
  · intro s m hp
    rw [handlerLoad]
    simp [tryDefault, hp]
  · intro m
    rw [handlerLoad]
    simp [tryDefault, typeIs]
    intro s hs
    exact PyVal.noConfusion hs
  · intro s hp
    rw [handlerLoad]
    simp [tryDefault, hp]
  · intro n
    rw [handlerLoad]
    simp [tryDefault, typeIs]
    intro s hs
    exact PyVal.noConfusion hs

unseal processorLoad handlerLoad loadUnionArms loadListElems loadTupleElems loadDictEntries recLoad recLoadFields tsProcessType unionTypes tupleTypes in
/-- C5 witness: the string-backed enum value `"active"` loads to its
member, an instance passes through, a wrong string and a raw integer
raise `LoadError`. -/
theorem c5_enum_load_amended_witness :
    handlerLoad .enumData "f" Option.none
        (.enumT ⟨"Status", true, [("ACTIVE", .s "active")]⟩) ["R"]
        (.str "active") ["R"] =
      pure (.enumMember ⟨"Status", true, [("ACTIVE", .s "active")]⟩ "ACTIVE") ∧
    handlerLoad .enumData "f" Option.none
        (.enumT ⟨"Status", true, [("ACTIVE", .s "active")]⟩) ["R"]
        (.int 7) ["R"] =
      throw (.loadError ("Type Mismatch: " ++ joinTree ["R"] ++ " -> " ++ "f" ++
        ": " ++ (PyVal.int 7).typeRepr ++ " is not a string and neither " ++
        (PyType.enumT ⟨"Status", true, [("ACTIVE", .s "active")]⟩).pyRepr ++ "!")) :=
  ⟨(c5_enum_load_amended ⟨"Status", true, [("ACTIVE", .s "active")]⟩ "f" ["R"]).1
      "active" "ACTIVE" rfl,
   (c5_enum_load_amended ⟨"Status", true, [("ACTIVE", .s "active")]⟩ "f" ["R"]).2.2.2 7⟩

unseal processorLoad handlerLoad loadUnionArms loadListElems loadTupleElems loadDictEntries recLoad recLoadFields tsProcessType unionTypes tupleTypes in
/-- C6 counterexample: a Python tuple value of the declared arity is a
sequence, yet the loader rejects it with the "is not a list" error
instead of loading each position — only exact `list` inputs are
accepted. -/
theorem c6_tuple_load_counterexample :
    processorLoad ⟨"f", .tupleT [.intT, .intT, .intT], Option.none,
        Option.none⟩ ["R"] (.tuple [.int 1, .int 2, .int 3]) ["R"] =
      throw (.loadError "Type Mismatch: R -> f: <class 'tuple'> is not a list!") := by
  rfl

/-- C6 (amended): for a tuple-typed field with no applicable default
(after the element type strings resolve), load rejects any input that is
not exactly a Python `list` — including tuples and other sequences —
with the "is not a list" `LoadError`; a list whose length differs from
the declared arity raises `LoadError` naming the expected and actual
lengths; a list of the right length loads each position against its
declared element type. -/
theorem c6_tuple_load_amended (fname : String) (elems : List PyType)
    (ctree ltree : List String) (dv : Option PyVal) (v : PyVal)
    (hnd : tryDefault dv v = Option.none)
    (tts : List (PyType × String))
    (hts : tupleTypes fname ctree elems 0 = .ok tts) :
    (∀ xs, v = .list xs →
      handlerLoad .tupleData fname dv (.tupleT elems) ctree v ltree =
        if xs.length ≠ elems.length then
          throw (.loadError ("Length Mismatch: " ++ joinTree ltree ++ " -> " ++
            fname ++ ": expected " ++ toString elems.length ++ ", got " ++
            toString xs.length))
        else PyVal.tuple <$> loadTupleElems fname elems xs 0 ltree) ∧
    ((∀ xs, v ≠ .list xs) →
      handlerLoad .tupleData fname dv (.tupleT elems) ctree v ltree =
        throw (.loadError ("Type Mismatch: " ++ joinTree ltree ++
          " -> " ++ fname ++ ": " ++ v.typeRepr ++ " is not a list!"))) := by
  constructor
  · intro xs hv
    subst hv
    rw [handlerLoad, hnd]
    dsimp only
    rw [hts]
    rfl
  · intro hne
    cases v with
    | list xs => exact absurd rfl (hne xs)
    | none =>
      rw [handlerLoad, hnd]; dsimp only; rw [hts]; rfl;
        exact fun xs hx => PyVal.noConfusion hx
    | bool b =>
      rw [handlerLoad, hnd]; dsimp only; rw [hts]; rfl;
        exact fun xs hx => PyVal.noConfusion hx
    | int n =>
      rw [handlerLoad, hnd]; dsimp only; rw [hts]; rfl;
        exact fun xs hx => PyVal.noConfusion hx
    | float q =>
      rw [handlerLoad, hnd]; dsimp only; rw [hts]; rfl;
        exact fun xs hx => PyVal.noConfusion hx
    | str s =>
      rw [handlerLoad, hnd]; dsimp only; rw [hts]; rfl;
        exact fun xs hx => PyVal.noConfusion hx
    | decimal q =>
      rw [handlerLoad, hnd]; dsimp only; rw [hts]; rfl;
        exact fun xs hx => PyVal.noConfusion hx
    | date a b c =>
      rw [handlerLoad, hnd]; dsimp only; rw [hts]; rfl;
        exact fun xs hx => PyVal.noConfusion hx
    | datetime a b c d e =>
      rw [handlerLoad, hnd]; dsimp only; rw [hts]; rfl;
        exact fun xs hx => PyVal.noConfusion hx
    | enumMember e m =>
      rw [handlerLoad, hnd]; dsimp only; rw [hts]; rfl;
        exact fun xs hx => PyVal.noConfusion hx
    | tuple xs =>
      rw [handlerLoad, hnd]; dsimp only; rw [hts]; rfl;
        exact fun xs hx => PyVal.noConfusion hx
    | dict entries =>
      rw [handlerLoad, hnd]; dsimp only; rw [hts]; rfl;
        exact fun xs hx => PyVal.noConfusion hx
    | obj n fs =>
      rw [handlerLoad, hnd]; dsimp only; rw [hts]; rfl;
        exact fun xs hx => PyVal.noConfusion hx

unseal processorLoad handlerLoad loadUnionArms loadListElems loadTupleElems loadDictEntries recLoad recLoadFields tsProcessType unionTypes tupleTypes in
/-- C6 witness: loading `[1, 2]` into a declared-length-3 tuple raises
`LoadError` naming expected=3, actual=2. -/
theorem c6_tuple_load_amended_witness :
    handlerLoad .tupleData "f" Option.none (.tupleT [.intT, .intT, .intT])
        ["R"] (.list [.int 1, .int 2]) ["R"] =
      throw (.loadError ("Length Mismatch: " ++ joinTree ["R"] ++ " -> " ++
        "f" ++ ": expected " ++ toString (3 : Nat) ++ ", got " ++
        toString (2 : Nat))) := by
  have h := (c6_tuple_load_amended "f" [.intT, .intT, .intT] ["R"] ["R"]
    Option.none (.list [.int 1, .int 2]) rfl
    [(.intT, "number"), (.intT, "number"), (.intT, "number")] rfl).1
    [.int 1, .int 2] rfl
  rw [h]
  rfl

unseal processorLoad handlerLoad loadUnionArms loadListElems loadTupleElems loadDictEntries recLoad recLoadFields tsProcessType unionTypes tupleTypes in
/-- C7 counterexample: with the declared key type `Optional[int]` — a
union — the entry key `5` matches the non-null arm `int`, yet the loader
rejects it: unions containing `None` are *not* expanded to their
non-null arms (only `None`-free unions are), so the claim is false. -/
theorem c7_dict_key_counterexample :
    processorLoad ⟨"f", .dictT (.unionT [.intT, .noneT]) .strT, Option.none,
        Option.none⟩ ["R"] (.dict [(.int 5, .str "a")]) ["R"] =
      throw (.loadError
        "Type Mismatch: R -> f: key (5, <class 'int'>) is not [typing.Union[...]]!") ∧
    processorLoad ⟨"f", .dictT .intT .strT, Option.none, Option.none⟩ ["R"]
        (.dict [(.int 5, .str "a")]) ["R"] =
      pure (.dict [(.int 5, .str "a")]) := by
  constructor
  · rfl
  · rfl

unseal processorLoad handlerLoad loadUnionArms loadListElems loadTupleElems loadDictEntries recLoad recLoadFields tsProcessType unionTypes tupleTypes in
/-- C7 (amended): the typed-map key rule expands a declared key type that
is a union *without a null arm* to its arguments, while a union
containing null stays unexpanded (so its entries can never type-match);
and when the single declared key type is an enum class, a raw string key
resolving through `parse_enum` is coerced to the enum member before the
value is loaded recursively. -/
theorem c7_dict_key_types_amended (fname : String) (vt : PyType)
    (ltree : List String) :
    (∀ args : List PyType, args.any isNoneT = false →
      dictActualKeyTypes (.unionT args) = args) ∧
    (∀ args : List PyType, args.any isNoneT = true →
      dictActualKeyTypes (.unionT args) = [.unionT args]) ∧
    (∀ (e : EnumDef) (s : String) (m : String) (w : PyVal),
      parse_enum e s = Option.some m →
      loadDictEntries fname (.enumT e) vt [(.str s, w)] ltree [] =
        (processorLoad ⟨fname ++ "[" ++ pyStrOf (PyVal.enumMember e m) ++ "]",
            vt, Option.some PyVal.none, Option.none⟩ ltree w
            (ltree ++ [fname])).bind (fun w' =>
          pure [(PyVal.enumMember e m, w')])) := by
  refine ⟨?_, ?_, ?_⟩
  · intro args h
    simp [dictActualKeyTypes, h]
  · intro args h
    simp [dictActualKeyTypes, h]
  · intro e s m w hp
    rw [loadDictEntries]
    simp only [dictActualKeyTypes, dictKeyCoerce, List.any_nil, List.any_cons,
      typeIs, Bool.or_false, Bool.false_eq_true, if_false, bind, Except.bind,
      pure, Except.pure, hp]
    cases hload : processorLoad ⟨fname ++ "[" ++ pyStrOf (PyVal.enumMember e m) ++ "]",
        vt, Option.some PyVal.none, Option.none⟩ ltree w (ltree ++ [fname]) with
    | error er => rfl
    | ok w' => rfl

unseal processorLoad handlerLoad loadUnionArms loadListElems loadTupleElems loadDictEntries recLoad recLoadFields tsProcessType unionTypes tupleTypes in
/-- C7 witness: a map keyed by a single string-backed enum accepts the
raw string key `"active"`, coercing it to the member. -/
theorem c7_dict_key_types_amended_witness :
    dictActualKeyTypes (.unionT [.intT, .strT]) = [.intT, .strT] ∧
    dictActualKeyTypes (.unionT [.intT, .noneT]) = [.unionT [.intT, .noneT]] ∧
    loadDictEntries "f" (.enumT ⟨"Status", true, [("ACTIVE", .s "active")]⟩)
        .intT [(.str "active", .int 3)] ["R"] [] =
      pure [(.enumMember ⟨"Status", true, [("ACTIVE", .s "active")]⟩ "ACTIVE",
        .int 3)] := by
  refine ⟨(c7_dict_key_types_amended "f" .intT ["R"]).1 [.intT, .strT] rfl,
    (c7_dict_key_types_amended "f" .intT ["R"]).2.1 [.intT, .noneT] rfl, ?_⟩
  rw [(c7_dict_key_types_amended "f" .intT ["R"]).2.2
    ⟨"Status", true, [("ACTIVE", .s "active")]⟩ "active" "ACTIVE" (.int 3) rfl]
  rfl

unseal processorLoad handlerLoad loadUnionArms loadListElems loadTupleElems loadDictEntries recLoad recLoadFields tsProcessType unionTypes tupleTypes in
/-- C8 counterexample: `"13/1/20"` matches the date pattern (a parse is
attempted) but month 13 makes `datetime.date` raise `ValueError`, which
propagates out of `load` — the failure is not degraded to null. -/
theorem c8_date_parse_counterexample :
    matchDateRe "13/1/20" = Option.some ("13", "1", "20") ∧
    processorLoad ⟨"f", .dateT, Option.none, Option.none⟩ ["R"]
        (.str "13/1/20") ["R"] = throw .valueError := by
  constructor
  · rfl
  · rfl

/-- C8 (amended): a date/datetime field with no applicable default
delegates to `parse_date`; a string that does not match the expected
`M/D/Y` (`M/D/Y H:M`) pattern silently degrades to null, while a
pattern-matching string whose components are out of range raises the
`date`/`datetime` constructor's `ValueError` (and a non-string input
raises `TypeError`). -/
theorem c8_date_parse_amended (fname : String) (tree : List String)
    (s : String) :
    (matchDateRe s = Option.none →
      handlerLoad .dateData fname Option.none .dateT tree (.str s) tree =
        pure PyVal.none) ∧
    (∀ mo d y, matchDateRe s = Option.some (mo, d, y) →
      handlerLoad .dateData fname Option.none .dateT tree (.str s) tree =
        pyDate (groupNat ("20" ++ y)) (groupNat mo) (groupNat d)) ∧
    (matchDatetimeRe s = Option.none →
      handlerLoad .dateData fname Option.none .datetimeT tree (.str s) tree =
        pure PyVal.none) ∧
    (∀ mo d y hh mi, matchDatetimeRe s = Option.some (mo, d, y, hh, mi) →
      handlerLoad .dateData fname Option.none .datetimeT tree (.str s) tree =
        pyDatetime (groupNat ("20" ++ y)) (groupNat mo) (groupNat d)
          (groupNat hh) (groupNat mi)) := by
  refine ⟨?_, ?_, ?_, ?_⟩
  · intro h
    rw [handlerLoad]
    simp [tryDefault, parse_date, h]
    intro hx
    exact PyType.noConfusion hx
  · intro mo d y h
    rw [handlerLoad]
    simp [tryDefault, parse_date, h]
    intro hx
    exact PyType.noConfusion hx
  · intro h
    rw [handlerLoad]
    simp [tryDefault, parse_date, h]
  · intro mo d y hh mi h
    rw [handlerLoad]
    simp [tryDefault, parse_date, h]

unseal processorLoad handlerLoad loadUnionArms loadListElems loadTupleElems loadDictEntries recLoad recLoadFields tsProcessType unionTypes tupleTypes in
/-- C8 witness: an unparsable string loads to null; a pattern-matching
but invalid date raises `ValueError` through the amended rule. -/
theorem c8_date_parse_amended_witness :
    handlerLoad .dateData "f" Option.none .dateT ["R"] (.str "hello") ["R"] =
      pure PyVal.none ∧
    handlerLoad .dateData "f" Option.none .dateT ["R"] (.str "13/1/20") ["R"] =
      pyDate 2020 13 1 := by
  refine ⟨(c8_date_parse_amended "f" ["R"] "hello").1 rfl, ?_⟩
  have h := (c8_date_parse_amended "f" ["R"] "13/1/20").2.1 "13" "1" "20" rfl
  rw [h]
  rfl

section DictLemmas

theorem pyDictGet_pyDictSet_self (entries : List (PyVal × PyVal))
    (key v : PyVal) :
    pyDictGet (pyDictSet entries key v) key = v := by
  induction entries with
  | nil => simp [pyDictSet, pyDictGet]
  | cons p rest ih =>
    obtain ⟨k0, v0⟩ := p
    by_cases h : k0 = key
    · subst h
      simp [pyDictSet, pyDictGet]
    · simp only [pyDictSet, if_neg h]
      simpa [pyDictGet, List.find?_cons, h] using ih

theorem pyDictGet_pyDictSet_other (entries : List (PyVal × PyVal))
    (key v key' : PyVal) (h : key' ≠ key) :
    pyDictGet (pyDictSet entries key v) key' = pyDictGet entries key' := by
  have hne : ¬(key = key') := fun hx => h hx.symm
  induction entries with
  | nil => simp [pyDictSet, pyDictGet, List.find?_cons, hne]
  | cons p rest ih =>
    obtain ⟨k0, v0⟩ := p
    by_cases hk : k0 = key
    · subst hk
      simp [pyDictSet, pyDictGet, List.find?_cons, hne]
    · simp only [pyDictSet, if_neg hk]
      by_cases hk' : k0 = key'
      · subst hk'
        simp [pyDictGet, List.find?_cons]
      · simpa [pyDictGet, List.find?_cons, hk'] using ih

theorem recLoadFields_entries_congr (r : RecordDef)
    (e1 e2 : List (PyVal × PyVal))
    (hcl : r.customLoad = [])
    (hget : ∀ s : String, pyDictGet e1 (.str s) = pyDictGet e2 (.str s)) :
    ∀ (fields : List (String × PyType × Option PyVal)) (tree : List String)
      (kwargs : List (String × PyVal)),
      recLoadFields r e1 fields tree kwargs =
        recLoadFields r e2 fields tree kwargs := by
  intro fields
  induction fields with
  | nil =>
    intro tree kwargs
    rw [recLoadFields, recLoadFields]
  | cons f rest ih =>
    intro tree kwargs
    obtain ⟨fieldName, fieldType, default⟩ := f
    rw [recLoadFields, recLoadFields]
    simp only [hcl, alistGet, List.find?_nil]
    rw [hget fieldName]
    split_ifs with hcond
    · rfl
    · cases hload : catchTypeError
          (processorLoad ⟨fieldName, fieldType, default, Option.none⟩
            (tree ++ [fieldName]) (pyDictGet e2 (.str fieldName))
            (tree ++ [fieldName])) tree fieldType fieldName with
      | error er => simp only [hload, bind, Except.bind]
      | ok lv =>
        simp only [hload, bind, Except.bind]
        exact ih tree (kwargs ++ [(fieldName, lv)])

end DictLemmas

unseal PyVal.beq PyVal.beqL PyVal.beqP PyVal.beqF processorLoad handlerLoad loadUnionArms loadListElems loadTupleElems loadDictEntries recLoad recLoadFields tsProcessType unionTypes tupleTypes in
/-- C10 counterexample: a record field with a `CUSTOM_LOAD` hook receives
the entire input mapping, so it can distinguish an absent key from an
explicit null one — loading `\x7b\x7d` and `\x7b"f": null\x7d` through the same record
produces different instances. -/
theorem c10_absent_vs_null_counterexample :
    recLoad c10Record (.dict []) ["C"] =
      pure (.obj "C" [("f", .int 0)]) ∧
    recLoad c10Record (.dict [(.str "f", PyVal.none)]) ["C"] =
      pure (.obj "C" [("f", .int 1)]) ∧
    (PyVal.obj "C" [("f", .int 0)]) ≠ (PyVal.obj "C" [("f", .int 1)]) := by
  refine ⟨rfl, rfl, ?_⟩
  intro h
  simp at h

/-- C10 (amended): for a record with no `CUSTOM_LOAD` hooks, the
top-level load entry point cannot distinguish an absent field key from a
key explicitly present with a null value: adding an explicit null binding
for a key that reads as null (absent or already null) leaves the load
result unchanged.  (A record with custom loaders can distinguish, because
each loader receives the entire input mapping.) -/
theorem c10_absent_vs_null_amended (r : RecordDef)
    (hcl : r.customLoad = []) (entries : List (PyVal × PyVal)) (k : String)
    (hk : pyDictGet entries (.str k) = PyVal.none) :
    load_from_dict r (.dict (pyDictSet entries (.str k) PyVal.none)) =
      load_from_dict r (.dict entries) := by
  rw [load_from_dict, load_from_dict, recLoad, recLoad]
  have hget : ∀ s : String,
      pyDictGet (pyDictSet entries (.str k) PyVal.none) (.str s) =
        pyDictGet entries (.str s) := by
    intro s
    by_cases hs : s = k
    · subst hs
      rw [hk, pyDictGet_pyDictSet_self]
    · exact pyDictGet_pyDictSet_other entries (.str k) PyVal.none (.str s)
        (fun hx => hs (PyVal.str.inj hx))
  rw [recLoadFields_entries_congr r _ entries hcl hget r.fields [r.rname] []]

unseal PyVal.beq PyVal.beqL PyVal.beqP PyVal.beqF processorLoad handlerLoad loadUnionArms loadListElems loadTupleElems loadDictEntries recLoad recLoadFields tsProcessType unionTypes tupleTypes in
/-- C10 witness: for a plain record (no custom loaders) with one
defaulted string field, loading with the field key explicitly null equals
loading with the key absent. -/
theorem c10_absent_vs_null_amended_witness :
    load_from_dict (.mk "W" [("g", .strT, Option.some (.str "d"))] [] [] [] [])
        (.dict (pyDictSet [(.str "x", .int 1)] (.str "g") PyVal.none)) =
      load_from_dict (.mk "W" [("g", .strT, Option.some (.str "d"))] [] [] [] [])
        (.dict [(.str "x", .int 1)]) :=
  c10_absent_vs_null_amended
    (.mk "W" [("g", .strT, Option.some (.str "d"))] [] [] [] []) rfl
    [(.str "x", .int 1)] "g" rfl

section C1Helpers

theorem tryDefault_of_ne_none (dv : Option PyVal) (v : PyVal)
    (h : v ≠ PyVal.none) : tryDefault dv v = Option.none := by
  cases v <;> first | exact absurd rfl h | (cases dv <;> rfl)

theorem catchTypeError_ok (x : PyVal) (t : List String) (ty : PyType)
    (n : String) : catchTypeError (pure x) t ty n = pure x := rfl

unseal processorRepresent in
theorem processorRepresent_bind (fd : FieldDefinition) (tree : List String)
    (v : PyVal) :
    processorRepresent fd tree v = (processor fd tree).bind
      (fun h => handlerRepresent h fd.fname fd.type tree v) := by
  rw [processorRepresent]
  rfl

unseal rtType rtTypes rtRecordB rtFieldsB in
theorem isNoneT_false_of_rtType (t : PyType) (h : rtType t = true) :
    isNoneT t = false := by
  cases t <;> first | rfl | exact Bool.noConfusion h

unseal rtType rtTypes rtRecordB rtFieldsB in
theorem rtType_of_rtKeyB (t : PyType) (h : rtKeyB t = true) :
    rtType t = true := by
  cases t <;> first | exact Bool.noConfusion h | rfl | (rw [rtType]; exact h)

theorem rtType_unionT_inv (args : List PyType)
    (h : rtType (.unionT args) = true) :
    ∃ t, args = [t, .noneT] ∧ rtInnerOk t = true ∧ rtType t = true := by
  match args with
  | [] => simp [rtType] at h
  | [t] => simp [rtType] at h
  | [t1, t2] =>
    cases t2 <;> simp [rtType] at h
    exact ⟨t1, rfl, h.1, h.2⟩
  | t1 :: t2 :: t3 :: rest => simp [rtType] at h

unseal tsProcessType tsRender unionTypes tupleTypes in
theorem rt_tsProcessType_ok : ∀ (k : Nat) (t : PyType), sizeOf t ≤ k →
    rtType t = true → ∀ (fname : String) (tree : List String),
    ∃ s, tsProcessType fname t tree = .ok s := by
  intro k
  induction k with
  | zero => intro t hsz _ _ _; cases t <;> simp at hsz
  | succ k ih =>
    intro t hsz hrt fname tree
    cases t with
    | strT => exact ⟨"string", rfl⟩
    | intT => exact ⟨"number", rfl⟩
    | floatT => exact ⟨"number", rfl⟩
    | boolT => exact ⟨"boolean", rfl⟩
    | anyT => exact ⟨"any", rfl⟩
    | rawDictT => exact ⟨"Record<string, any>", rfl⟩
    | enumT e =>
      refine ⟨e.ename, ?_⟩
      rw [tsProcessType, processor_enumT]
      simp only [Except.bind, bind]
      rw [tsRender]
      rfl
    | recordT r =>
      refine ⟨r.rname, ?_⟩
      rw [tsProcessType, processor_recordT]
      simp only [Except.bind, bind]
      rw [tsRender]
      rfl
    | decimalT => simp [rtType] at hrt
    | noneT => simp [rtType] at hrt
    | dateT => simp [rtType] at hrt
    | datetimeT => simp [rtType] at hrt
    | forwardRefT r => simp [rtType] at hrt
    | partialT args => simp [rtType] at hrt
    | listT t1 =>
      rw [rtType] at hrt
      have hsz1 : sizeOf t1 ≤ k := by simp at hsz; omega
      obtain ⟨s, hs⟩ := ih t1 hsz1 hrt (fname ++ "[arg]") tree
      refine ⟨if s.contains '|' then "(" ++ s ++ ")[]" else s ++ "[]", ?_⟩
      rw [tsProcessType, processor_listT]
      simp only [Except.bind, bind]
      rw [tsRender]
      simp [hs, Except.bind, bind, pure, Except.pure]
    | dictT kt vt =>
      rw [rtType] at hrt
      simp only [Bool.and_eq_true] at hrt
      obtain ⟨hk, hv⟩ := hrt
      have hszk : sizeOf kt ≤ k := by simp at hsz; omega
      have hszv : sizeOf vt ≤ k := by simp at hsz; omega
      obtain ⟨ks, hks⟩ := ih kt hszk (rtType_of_rtKeyB kt hk) (fname ++ "_key") tree
      obtain ⟨vs, hvs⟩ := ih vt hszv hv (fname ++ "_value") tree
      refine ⟨"Record<" ++ ks ++ ", " ++ vs ++ ">", ?_⟩
      rw [tsProcessType, processor_dictT]
      simp only [Except.bind, bind]
      rw [tsRender]
      simp [hks, hvs, Except.bind, bind, pure, Except.pure]
    | tupleT elems =>
      rw [rtType] at hrt
      have hall : ∀ ts, sizeOf ts ≤ sizeOf elems → rtTypes ts = true →
          ∀ i, ∃ u, tupleTypes fname tree ts i = .ok u := by
        intro ts
        induction ts with
        | nil => intro _ _ i; exact ⟨[], by rw [tupleTypes]; rfl⟩
        | cons a as iha =>
          intro hsz2 hrts i
          rw [rtTypes] at hrts
          simp only [Bool.and_eq_true] at hrts
          obtain ⟨hA, hAs⟩ := hrts
          obtain ⟨sA, hsA⟩ := ih a (by simp at hsz hsz2 ⊢; omega) hA
            (fname ++ "_" ++ toString i) tree
          obtain ⟨u, hu⟩ := iha (by simp at hsz2 ⊢; omega) hAs (i + 1)
          refine ⟨(a, sA) :: u, ?_⟩
          rw [tupleTypes]
          simp [hsA, hu, Except.bind, bind, pure, Except.pure]
      obtain ⟨u, hu⟩ := hall elems (le_refl _) hrt 0
      refine ⟨"[" ++ String.intercalate ", " (u.map Prod.snd) ++ "]", ?_⟩
      rw [tsProcessType, processor_tupleT]
      simp only [Except.bind, bind]
      rw [tsRender]
      rw [hu]
      simp [Except.bind, bind, pure, Except.pure]
    | unionT args =>
      obtain ⟨t1, hargs, hinner, hrt1⟩ := rtType_unionT_inv args hrt
      subst hargs
      have hsz1 : sizeOf t1 ≤ k := by simp at hsz; omega
      obtain ⟨s, hs⟩ := ih t1 hsz1 hrt1 (fname ++ "_" ++ toString 0) tree
      refine ⟨String.intercalate " | "
        (([(t1, s)].map Prod.snd).mergeSort (fun a b => a ≤ b)), ?_⟩
      rw [tsProcessType, processor_unionT]
      simp only [Except.bind, bind]
      rw [tsRender]
      rw [unionTypes]
      simp only [isNoneT_false_of_rtType t1 hrt1, Bool.false_eq_true, if_false,
        hs, Except.bind, bind]
      simp [unionTypes, isNoneT, List.contains_nil, Except.bind, bind, pure,
        Except.pure]

unseal tsProcessType tsRender unionTypes tupleTypes in
/-- `unionTypes` on a round-trippable optional: exactly the inner arm. -/
theorem unionTypes_optional (t1 : PyType) (hrt1 : rtType t1 = true)
    (s : String) (fname : String) (tree : List String)
    (hs : tsProcessType (fname ++ "_" ++ toString 0) t1 tree = .ok s) :
    unionTypes fname tree [t1, .noneT] 0 [] = .ok [(t1, s)] := by
  rw [unionTypes]
  simp only [isNoneT_false_of_rtType t1 hrt1, Bool.false_eq_true, if_false,
    hs, Except.bind, bind]
  simp [unionTypes, isNoneT, List.contains_nil, Except.bind, bind, pure,
    Except.pure]

end C1Helpers

section EnumLemmas

theorem filter_fst_head (m : String) (lit : EnumLit) :
    ∀ (l : List (String × EnumLit)), (l.map Prod.fst).Nodup →
    (m, lit) ∈ l →
    (l.filter (fun p => p.1 = m)).head? = Option.some (m, lit) := by
  intro l
  induction l with
  | nil => intro _ h; cases h
  | cons p rest ih =>
    intro hnd hm
    obtain ⟨m0, l0⟩ := p
    simp only [List.map_cons, List.nodup_cons] at hnd
    by_cases he : m0 = m
    · subst he
      rcases List.mem_cons.mp hm with heq | htl
      · injection heq with h1 h2
        subst h2
        simp [List.filter_cons]
      · exact absurd (List.mem_map.mpr ⟨(m0, lit), htl, rfl⟩) hnd.1
    · rcases List.mem_cons.mp hm with heq | htl
      · injection heq with h1 _
        exact absurd h1.symm he
      · rw [List.filter_cons_of_neg (by simp [he])]
        exact ih hnd.2 htl

theorem find_by_value_unique (val : String) (m : String) :
    ∀ (l : List (String × EnumLit)), (l.map Prod.snd).Nodup →
    (m, EnumLit.s val) ∈ l →
    l.find? (fun p =>
        match p.2 with
        | .s v => v = val
        | .i _ => false) = Option.some (m, EnumLit.s val) := by
  intro l
  induction l with
  | nil => intro _ h; cases h
  | cons p rest ih =>
    intro hnd hm
    obtain ⟨m0, l0⟩ := p
    simp only [List.map_cons, List.nodup_cons] at hnd
    rcases List.mem_cons.mp hm with heq | htl
    · injection heq with h1 h2
      subst h1
      subst h2
      rw [List.find?_cons_of_pos _ (by simp)]
    · cases l0 with
      | i n =>
        rw [List.find?_cons_of_neg _ (by simp)]
        exact ih hnd.2 htl
      | s v =>
        by_cases hv : v = val
        · subst hv
          exact absurd (List.mem_map.mpr ⟨(m, EnumLit.s v), htl, rfl⟩) hnd.1
        · rw [List.find?_cons_of_neg _ (by simp [hv])]
          exact ih hnd.2 htl

theorem parse_enum_value (e : EnumDef)
    (hnodup : (e.members.map Prod.snd).Nodup) (m val : String)
    (hmem : (m, EnumLit.s val) ∈ e.members) (hval : val ≠ "") :
    parse_enum e val = Option.some m := by
  have hrev := find_by_value_unique val m e.members.reverse
    (by simpa using hnodup) (by simpa using hmem)
  simp [parse_enum, hrev, hval]

/-- Every member of a round-trippable enum has a non-empty string value,
its `.value` is that string, and `parse_enum` takes the string back to the
member. -/
theorem rtEnum_member_val (e : EnumDef) (he : rtEnumB e = true) (m : String)
    (hm : m ∈ e.members.map Prod.fst) :
    ∃ val, (m, EnumLit.s val) ∈ e.members ∧ val ≠ "" ∧
      PyVal.enumValue e m = .str val ∧ parse_enum e val = Option.some m := by
  simp only [rtEnumB, Bool.and_eq_true, List.all_eq_true, decide_eq_true_eq] at he
  obtain ⟨⟨⟨hsb, hall⟩, hndn⟩, hndv⟩ := he
  obtain ⟨⟨m2, lit⟩, hmem, hfst⟩ := List.mem_map.mp hm
  simp only at hfst
  subst hfst
  cases lit with
  | i n => exact absurd (hall _ hmem) (by simp)
  | s val =>
    have hval : val ≠ "" := by simpa using hall _ hmem
    refine ⟨val, hmem, hval, ?_, parse_enum_value e hndv m2 val hmem hval⟩
    rw [PyVal.enumValue, filter_fst_head m2 (EnumLit.s val) e.members hndn hmem]

end EnumLemmas

section AssocLemmas

theorem pyDictSet_fresh (k v : PyVal) :
    ∀ acc : List (PyVal × PyVal), pyDictHasKey acc k = false →
    pyDictSet acc k v = acc ++ [(k, v)] := by
  intro acc
  induction acc with
  | nil => intro _; rfl
  | cons p rest ih =>
    intro hf
    obtain ⟨k0, v0⟩ := p
    simp only [pyDictHasKey, List.find?_cons] at hf
    by_cases hk : k0 = k
    · subst hk; simp at hf
    · rw [pyDictSet, if_neg hk, List.cons_append]
      congr 1
      exact ih (by simpa [pyDictHasKey, hk] using hf)

theorem pyDictHasKey_append (a b : List (PyVal × PyVal)) (k : PyVal) :
    pyDictHasKey (a ++ b) k = (pyDictHasKey a k || pyDictHasKey b k) := by
  induction a with
  | nil => simp [pyDictHasKey]
  | cons p rest ih =>
    by_cases hk : p.1 = k
    · simp [pyDictHasKey, List.find?_cons, hk]
    · simpa [pyDictHasKey, List.find?_cons, hk] using ih

theorem pyDictGet_cons_self (k v : PyVal) (rest : List (PyVal × PyVal)) :
    pyDictGet ((k, v) :: rest) k = v := by
  simp [pyDictGet, List.find?_cons]

theorem pyDictGet_cons_ne (k0 v0 k : PyVal) (rest : List (PyVal × PyVal))
    (h : k0 ≠ k) : pyDictGet ((k0, v0) :: rest) k = pyDictGet rest k := by
  simp [pyDictGet, List.find?_cons, h]

theorem pyDictGet_of_not_hasKey (k : PyVal) :
    ∀ (l : List (PyVal × PyVal)), pyDictHasKey l k = false →
    pyDictGet l k = PyVal.none := by
  intro l
  induction l with
  | nil => intro _; rfl
  | cons p rest ih =>
    intro hf
    obtain ⟨k0, v0⟩ := p
    by_cases hk : k0 = k
    · subst hk; simp [pyDictHasKey, List.find?_cons] at hf
    · rw [pyDictGet_cons_ne _ _ _ _ hk]
      exact ih (by simpa [pyDictHasKey, List.find?_cons, hk] using hf)

theorem pyDictHasKey_of_keys (k : PyVal) :
    ∀ (l : List (PyVal × PyVal)), (∀ p, p ∈ l → p.1 ≠ k) →
    pyDictHasKey l k = false := by
  intro l
  induction l with
  | nil => intro _; rfl
  | cons p rest ih =>
    intro hk
    simp only [pyDictHasKey, List.find?_cons]
    have h0 : ¬(p.1 = k) := hk p (List.mem_cons_self p rest)
    simp only [h0, decide_eq_false h0, Bool.false_eq_true, if_false]
    exact ih (fun q hq => hk q (List.mem_cons_of_mem p hq))

theorem alistGet_cons_self {α : Type} (n : String) (v : α)
    (l : List (String × α)) : alistGet ((n, v) :: l) n = Option.some v := by
  simp [alistGet, List.find?_cons]

theorem alistGet_cons_ne {α : Type} (n0 : String) (v0 : α) (n : String)
    (l : List (String × α)) (h : n0 ≠ n) :
    alistGet ((n0, v0) :: l) n = alistGet l n := by
  simp [alistGet, List.find?_cons, h]

theorem exceptMapM_congr {α β : Type} (f g : α → Except PyErr β) :
    ∀ l : List α, (∀ x, x ∈ l → f x = g x) → l.mapM f = l.mapM g := by
  intro l
  induction l with
  | nil => intro _; rfl
  | cons a rest ih =>
    intro h
    rw [List.mapM_cons, List.mapM_cons, h a (List.mem_cons_self a rest),
      ih (fun x hx => h x (List.mem_cons_of_mem a hx))]

theorem constructObj_of_aligned (r : RecordDef) (kw : List (String × PyVal))
    (h : kw.map Prod.fst = r.fields.map Prod.fst)
    (hnd : (r.fields.map Prod.fst).Nodup) :
    constructObj r kw = pure (.obj r.rname kw) := by
  rw [constructObj]
  have main : ∀ (fields : List (String × PyType × Option PyVal))
      (kw2 : List (String × PyVal)),
      kw2.map Prod.fst = fields.map Prod.fst →
      (fields.map Prod.fst).Nodup →
      fields.mapM (fun f =>
        (match alistGet kw2 f.1 with
         | Option.some v => pure (f.1, v)
         | Option.none =>
           match f.2.2 with
           | Option.some d => pure (f.1, d)
           | Option.none =>
             throw PyErr.typeError : Except PyErr (String × PyVal))) =
        pure kw2 := by
    intro fields
    induction fields with
    | nil =>
      intro kw2 hmap _
      cases kw2 with
      | nil => rfl
      | cons a b => simp at hmap
    | cons f fs ih =>
      intro kw2 hmap hnd2
      cases kw2 with
      | nil => simp at hmap
      | cons a kw' =>
        obtain ⟨n, v⟩ := a
        simp only [List.map_cons, List.cons.injEq] at hmap
        obtain ⟨hn, hrest⟩ := hmap
        simp only [List.map_cons, List.nodup_cons] at hnd2
        rw [List.mapM_cons]
        have hget : alistGet ((n, v) :: kw') f.1 = Option.some v := by
          rw [← hn]; exact alistGet_cons_self n v kw'
        rw [hget]
        have hpoint : ∀ g, g ∈ fs →
            (fun g : String × PyType × Option PyVal =>
              (match alistGet ((n, v) :: kw') g.1 with
               | Option.some w => pure (g.1, w)
               | Option.none =>
                 match g.2.2 with
                 | Option.some d => pure (g.1, d)
                 | Option.none =>
                   throw PyErr.typeError : Except PyErr (String × PyVal))) g =
            (fun g : String × PyType × Option PyVal =>
              (match alistGet kw' g.1 with
               | Option.some w => pure (g.1, w)
               | Option.none =>
                 match g.2.2 with
                 | Option.some d => pure (g.1, d)
                 | Option.none =>
                   throw PyErr.typeError : Except PyErr (String × PyVal))) g := by
          intro g hg
          have hgn : g.1 ≠ n := by
            intro hx
            apply hnd2.1
            rw [← hn, ← hx]
            exact List.mem_map.mpr ⟨g, hg, rfl⟩
          simp only
          rw [alistGet_cons_ne n v g.1 kw' (fun hx => hgn hx.symm)]
        rw [exceptMapM_congr _ _ fs hpoint, ih kw' hrest hnd2.2]
        simp only [bind, Except.bind, pure, Except.pure]
        rw [hn]
  rw [main r.fields kw h hnd]
  rfl

end AssocLemmas

section UnionHelpers

theorem unionOptional_pair (t : PyType) :
    unionOptional [t, .noneT] = true := by
  simp [unionOptional, isNoneT]

theorem union_guard (t : PyType) (hrt : rtType t = true) :
    (decide (t.origin = Option.some TypeOrigin.union) &&
      !(t.args.any isNoneT)) = false := by
  cases t <;> simp [PyType.origin, PyType.args]
  case unionT args =>
    obtain ⟨t1, rfl, _, _⟩ := rtType_unionT_inv args hrt
    simp [isNoneT]

theorem armMatches_none (t : PyType) :
    unionArmMatches t PyVal.none = isNoneT t := by
  cases t <;> rfl

theorem armMatches_of_valid (t : PyType) (v : PyVal)
    (hin : rtInnerOk t = true) (hrt : rtType t = true)
    (hv : validVal t v = true) :
    unionArmMatches t v = true := by
  cases t with
  | anyT => exact absurd hin (by simp [rtInnerOk])
  | unionT args => exact absurd hin (by simp [rtInnerOk])
  | decimalT => simp [rtType] at hrt
  | noneT => simp [rtType] at hrt
  | dateT => simp [rtType] at hrt
  | datetimeT => simp [rtType] at hrt
  | forwardRefT r => simp [rtType] at hrt
  | partialT args => simp [rtType] at hrt
  | strT => cases v <;> simp [validVal] at hv <;> rfl
  | intT => cases v <;> simp [validVal] at hv <;> rfl
  | floatT => cases v <;> simp [validVal] at hv <;> rfl
  | boolT => cases v <;> simp [validVal] at hv <;> rfl
  | rawDictT => cases v <;> simp [validVal] at hv <;> rfl
  | listT t1 => cases v <;> simp [validVal] at hv <;> rfl
  | tupleT ts => cases v <;> simp [validVal] at hv <;> rfl
  | dictT kt vt => cases v <;> simp [validVal] at hv <;> rfl
  | enumT e =>
    cases v <;> simp [validVal] at hv
    case enumMember e2 m =>
      obtain ⟨h1, _⟩ := hv
      subst h1
      simp [unionArmMatches, typeIs]
  | recordT r =>
    cases v <;> simp [validVal] at hv
    case obj c fs =>
      obtain ⟨h1, _⟩ := hv
      subst h1
      simp [unionArmMatches, typeIs]

theorem fragment_dispatch (t : PyType) (hrt : rtType t = true) (n : String)
    (dv : Option PyVal) (tree : List String) :
    ∃ h, processor ⟨n, t, dv, Option.none⟩ tree = .ok h := by
  cases t with
  | strT => exact ⟨.strData, processor_strT n dv tree⟩
  | intT => exact ⟨.numberData, processor_intT n dv tree⟩
  | floatT => exact ⟨.numberData, processor_floatT n dv tree⟩
  | boolT => exact ⟨.boolData, processor_boolT n dv tree⟩
  | anyT => exact ⟨.anyData, processor_anyT n dv tree⟩
  | rawDictT => exact ⟨.plainDictData, processor_rawDictT n dv tree⟩
  | enumT e => exact ⟨.enumData, processor_enumT n dv e tree⟩
  | listT t1 => exact ⟨.listData, processor_listT n dv t1 tree⟩
  | tupleT ts => exact ⟨.tupleData, processor_tupleT n dv ts tree⟩
  | dictT kt vt => exact ⟨.dictData, processor_dictT n dv kt vt tree⟩
  | unionT args => exact ⟨.unionData, processor_unionT n dv args tree⟩
  | recordT r => exact ⟨.subclassData, processor_recordT n dv r tree⟩
  | decimalT => simp [rtType] at hrt
  | noneT => simp [rtType] at hrt
  | dateT => simp [rtType] at hrt
  | datetimeT => simp [rtType] at hrt
  | forwardRefT r => simp [rtType] at hrt
  | partialT args => simp [rtType] at hrt

unseal tsProcessType tsRender unionTypes tupleTypes processorLoad handlerLoad loadUnionArms loadListElems loadTupleElems loadDictEntries recLoad recLoadFields in
theorem optional_load_none (t1 : PyType) (hrt1 : rtType t1 = true)
    (n : String) (tree1 tree2 : List String) (dv : Option PyVal)
    (hdv : dv = Option.none ∨ dv = Option.some PyVal.none) :
    processorLoad ⟨n, .unionT [t1, .noneT], dv, Option.none⟩ tree1
      PyVal.none tree2 = pure PyVal.none := by
  rw [processorLoad_bind, processor_unionT]
  simp only [Except.bind]
  rw [handlerLoad]
  rcases hdv with rfl | rfl
  · obtain ⟨s, hs⟩ := rt_tsProcessType_ok (sizeOf t1) t1 (le_refl _) hrt1
      (n ++ "_" ++ toString 0) tree1
    have hu := unionTypes_optional t1 hrt1 s n tree1 hs
    dsimp only [tryDefault]
    rw [hu]
    simp [unionOptional_pair, Except.bind, bind]
  · rfl

unseal processorLoad handlerLoad in
theorem any_load (v : PyVal) (n : String) (tree1 tree2 : List String)
    (dv : Option PyVal)
    (hdv : dv = Option.none ∨ dv = Option.some PyVal.none ∨ v ≠ PyVal.none) :
    processorLoad ⟨n, .anyT, dv, Option.none⟩ tree1 v tree2 = pure v := by
  rw [processorLoad_bind, processor_anyT]
  simp only [Except.bind]
  rw [handlerLoad]
  by_cases hv : v = PyVal.none
  · subst hv
    rcases hdv with rfl | rfl | hne
    · rfl
    · rfl
    · exact absurd rfl hne
  · rw [tryDefault_of_ne_none dv v hv]

unseal processorLoad handlerLoad in
theorem default_load_none (t : PyType) (hrt : rtType t = true) (n : String)
    (tree : List String) (d : PyVal) :
    processorLoad ⟨n, t, Option.some d, Option.none⟩ tree PyVal.none tree =
      pure d := by
  obtain ⟨h, hh⟩ := fragment_dispatch t hrt n (Option.some d) tree
  rw [processorLoad_bind, hh]
  simp only [Except.bind]
  exact c2_aux n t tree d h hh

end UnionHelpers

section RecordLoop

theorem alistGet_nil {α : Type} (n : String) :
    alistGet ([] : List (String × α)) n = Option.none := rfl

theorem contains_nil_str (n : String) :
    (([] : List String).contains n) = false := rfl

theorem recRepresentFields_congr (r : RecordDef)
    (iF1 iF2 : List (String × PyVal)) :
    ∀ (fields : List (String × PyType × Option PyVal)),
    (∀ p, p ∈ fields → alistGet iF1 p.1 = alistGet iF2 p.1) →
    ∀ acc, recRepresentFields r iF1 fields acc =
      recRepresentFields r iF2 fields acc := by
  intro fields
  induction fields with
  | nil => intro _ acc; rw [recRepresentFields, recRepresentFields]
  | cons f fs ih =>
    intro h acc
    obtain ⟨n, t, d⟩ := f
    rw [recRepresentFields, recRepresentFields]
    rw [h (n, t, d) (List.mem_cons_self _ _)]
    have ih2 := fun acc2 => ih (fun p hp => h p (List.mem_cons_of_mem _ hp)) acc2
    split_ifs with hc
    · cases halist : alistGet r.customRepr n with
      | some f2 => exact ih2 _
      | none =>
        simp only [bind, Except.bind]
        cases hrep : processorRepresent ⟨n, t, d, Option.none⟩ []
            ((alistGet iF2 n).getD .none) with
        | error e => rfl
        | ok w => exact ih2 _
    · exact ih2 _

theorem rec_fields_roundtrip (r : RecordDef)
    (hcl : r.customLoad = []) (hcr : r.customRepr = [])
    (hfn : r.forceNone = []) :
    ∀ (fields : List (String × PyType × Option PyVal)),
    (∀ p, p ∈ fields → RT p.2.1) →
    (∀ p, p ∈ fields → rtType p.2.1 = true) →
    (∀ p, p ∈ fields → r.omitInRepr.contains p.1 = false ∨
      absentLoadable p.2.1 p.2.2 = true) →
    ∀ (instFields : List (String × PyVal)),
      validFieldsB fields instFields = true →
      (fields.map Prod.fst).Nodup →
      ∀ (acc : List (PyVal × PyVal)),
        (∀ n, n ∈ fields.map Prod.fst → pyDictHasKey acc (.str n) = false) →
      ∃ (out : List (PyVal × PyVal)) (loaded : List (String × PyVal)),
        recRepresentFields r instFields fields acc = pure (acc ++ out) ∧
        (∀ kw, kw ∈ out → ∃ n, n ∈ fields.map Prod.fst ∧
          kw.1 = PyVal.str n) ∧
        (∀ (full : List (PyVal × PyVal)),
          (∀ n, n ∈ fields.map Prod.fst →
            pyDictGet full (PyVal.str n) = pyDictGet out (PyVal.str n)) →
          ∀ (tree : List String) (kwargs : List (String × PyVal)),
            recLoadFields r full fields tree kwargs =
              pure (kwargs ++ loaded)) ∧
        loaded.map Prod.fst = fields.map Prod.fst ∧
        (∀ n, n ∈ fields.map Prod.fst → r.omitInRepr.contains n = false →
          alistGet loaded n = alistGet instFields n) ∧
        (r.omitInRepr = [] → loaded = instFields) := by
  intro fields
  induction fields with
  | nil =>
    intro _ _ _ instFields hval _ acc _
    cases instFields with
    | cons a ivs => simp [validFieldsB] at hval
    | nil =>
      refine ⟨[], [], ?_, ?_, ?_, ?_, ?_, ?_⟩
      · rw [recRepresentFields]
        simp
      · intro kw hkw; cases hkw
      · intro full _ tree kwargs
        rw [recLoadFields]
        simp
      · rfl
      · intro n hn; cases hn
      · intro _; rfl
  | cons f fs ih =>
    intro hRT hrt homok instFields hval hnd acc hacc
    obtain ⟨n, t, d⟩ := f
    cases instFields with
    | nil => simp [validFieldsB] at hval
    | cons a ivs =>
      obtain ⟨n2, v⟩ := a
      rw [validFieldsB] at hval
      simp only [Bool.and_eq_true, decide_eq_true_eq] at hval
      obtain ⟨⟨⟨hn2, hvv⟩, hd⟩, hrest⟩ := hval
      subst hn2
      simp only [List.map_cons, List.nodup_cons] at hnd
      obtain ⟨hnin, hnd'⟩ := hnd
      -- sub-facts
      have hRT0 : RT t := hRT (n, t, d) (List.mem_cons_self _ _)
      have hrt0 : rtType t = true := hrt (n, t, d) (List.mem_cons_self _ _)
      have hRT' := fun p hp => hRT p (List.mem_cons_of_mem _ hp)
      have hrt' := fun p hp => hrt p (List.mem_cons_of_mem _ hp)
      have homok' := fun p hp => homok p (List.mem_cons_of_mem _ hp)
      have hcongrIF : ∀ p, p ∈ fs → alistGet ((n, v) :: ivs) p.1 =
          alistGet ivs p.1 := by
        intro p hp
        have : p.1 ≠ n := by
          intro hx
          exact hnin (hx ▸ List.mem_map.mpr ⟨p, hp, rfl⟩)
        exact alistGet_cons_ne n v p.1 ivs (fun hx => this hx.symm)
      obtain ⟨w, hrepr, hiff, hload⟩ := hRT0 v hvv n [] d
      have hd' : ¬v = PyVal.none ∨ d = Option.none ∨
          d = Option.some PyVal.none := by
        simp only [Bool.or_eq_true, Bool.not_eq_true', decide_eq_false_iff_not,
          decide_eq_true_eq] at hd
        tauto
      have hloadField : ∀ (fieldVal : PyVal) (tree : List String),
          fieldVal = w →
          processorLoad ⟨n, t, d, Option.none⟩ (tree ++ [n]) fieldVal
            (tree ++ [n]) = pure v := by
        intro fieldVal tree hfv
        subst hfv
        apply hload
        rcases hd' with h1 | h1 | h1
        · exact Or.inr (Or.inr h1)
        · exact Or.inl h1
        · exact Or.inr (Or.inl h1)
      by_cases hom : r.omitInRepr.contains n = true
      · -- omitted field: skipped in representation, absent-loadable on load
        have habs : absentLoadable t d = true := by
          rcases homok (n, t, d) (List.mem_cons_self _ _) with h1 | h1
          · rw [hom] at h1; cases h1
          · exact h1
        obtain ⟨out', loaded', hrep', hkeys', hload', hmap', hget', hemp'⟩ :=
          ih hRT' hrt' homok' ivs hrest hnd' acc
            (fun n2 hn2 => hacc n2 (List.mem_cons_of_mem _ hn2))
        -- the value the absent load produces
        have habsload : ∃ lv, ∀ tree : List String,
            processorLoad ⟨n, t, d, Option.none⟩ (tree ++ [n]) PyVal.none
              (tree ++ [n]) = pure lv := by
          cases d with
          | some dd =>
            exact ⟨dd, fun tree => default_load_none t hrt0 n (tree ++ [n]) dd⟩
          | none =>
            simp only [absentLoadable, Option.isSome_none, Bool.false_or] at habs
            cases t with
            | anyT =>
              exact ⟨PyVal.none, fun tree =>
                any_load PyVal.none n (tree ++ [n]) (tree ++ [n]) Option.none
                  (Or.inl rfl)⟩
            | unionT args =>
              obtain ⟨t1, rfl, _, hrt1⟩ := rtType_unionT_inv args hrt0
              exact ⟨PyVal.none, fun tree =>
                optional_load_none t1 hrt1 n (tree ++ [n]) (tree ++ [n])
                  Option.none (Or.inl rfl)⟩
            | strT => cases habs
            | intT => cases habs
            | floatT => cases habs
            | boolT => cases habs
            | decimalT => cases habs
            | noneT => cases habs
            | dateT => cases habs
            | datetimeT => cases habs
            | rawDictT => cases habs
            | enumT e => cases habs
            | listT t1 => cases habs
            | tupleT ts => cases habs
            | dictT kt vt => cases habs
            | recordT rr => cases habs
            | forwardRefT rr => cases habs
            | partialT args => cases habs
        obtain ⟨lv, hlv⟩ := habsload
        refine ⟨out', (n, lv) :: loaded', ?_, ?_, ?_, ?_, ?_, ?_⟩
        · rw [recRepresentFields]
          simp only [alistGet_cons_self, Option.getD_some, hfn,
            contains_nil_str, Bool.or_false, hom, Bool.not_true,
            Bool.and_false, Bool.false_eq_true, if_false]
          rw [recRepresentFields_congr r ((n, v) :: ivs) ivs fs hcongrIF acc]
          exact hrep'
        · intro kw hkw
          obtain ⟨n3, hn3, hk3⟩ := hkeys' kw hkw
          exact ⟨n3, List.mem_cons_of_mem _ hn3, hk3⟩
        · intro full hfull tree kwargs
          rw [recLoadFields, hcl]
          simp only [alistGet_nil, Option.isNone_none, Bool.and_true]
          rw [if_neg (by rw [union_guard t hrt0]; simp)]
          have hgetn : pyDictGet full (PyVal.str n) = PyVal.none := by
            rw [hfull n (List.mem_cons_self _ _)]
            refine pyDictGet_of_not_hasKey _ _ (pyDictHasKey_of_keys _ _ ?_)
            intro p hp hx
            obtain ⟨n3, hn3, hk3⟩ := hkeys' p hp
            rw [hk3] at hx
            injection hx with hx2
            exact hnin (hx2 ▸ hn3)
          rw [hgetn, hlv tree, catchTypeError_ok]
          simp only [bind, Except.bind, pure, Except.pure]
          rw [hload' full (fun n3 hn3 => hfull n3 (List.mem_cons_of_mem _ hn3))
            tree (kwargs ++ [(n, lv)])]
          simp [pure, Except.pure]
        · simp only [List.map_cons, hmap']
        · intro n3 hn3 hom3
          rcases List.mem_cons.mp hn3 with rfl | hn3'
          · rw [hom3] at hom; cases hom
          · have hne3 : n3 ≠ n := by
              intro hx
              exact hnin (hx ▸ hn3')
            rw [alistGet_cons_ne n lv n3 loaded' (fun hx => hne3 hx.symm),
              alistGet_cons_ne n v n3 ivs (fun hx => hne3 hx.symm)]
            exact hget' n3 hn3' hom3
        · intro hempty
          rw [hempty] at hom
          cases hom
      · -- not omitted
        simp only [Bool.not_eq_true] at hom
        by_cases hvn : v = PyVal.none
        · -- null value: skipped in representation, loads back as null
          subst hvn
          obtain ⟨out', loaded', hrep', hkeys', hload', hmap', hget', hemp'⟩ :=
            ih hRT' hrt' homok' ivs hrest hnd' acc
              (fun n2 hn2 => hacc n2 (List.mem_cons_of_mem _ hn2))
          have hwn : w = PyVal.none := hiff.mpr rfl
          subst hwn
          refine ⟨out', (n, PyVal.none) :: loaded', ?_, ?_, ?_, ?_, ?_, ?_⟩
          · rw [recRepresentFields,
              if_neg (by simp [hfn, alistGet_cons_self])]
            rw [recRepresentFields_congr r ((n, PyVal.none) :: ivs) ivs fs
              hcongrIF acc]
            exact hrep'
          · intro kw hkw
            obtain ⟨n3, hn3, hk3⟩ := hkeys' kw hkw
            exact ⟨n3, List.mem_cons_of_mem _ hn3, hk3⟩
          · intro full hfull tree kwargs
            rw [recLoadFields, hcl]
            simp only [alistGet_nil, Option.isNone_none, Bool.and_true]
            rw [if_neg (by rw [union_guard t hrt0]; simp)]
            have hgetn : pyDictGet full (PyVal.str n) = PyVal.none := by
              rw [hfull n (List.mem_cons_self _ _)]
              refine pyDictGet_of_not_hasKey _ _ (pyDictHasKey_of_keys _ _ ?_)
              intro p hp hx
              obtain ⟨n3, hn3, hk3⟩ := hkeys' p hp
              rw [hk3] at hx
              injection hx with hx2
              exact hnin (hx2 ▸ hn3)
            rw [hgetn, hloadField PyVal.none tree rfl, catchTypeError_ok]
            simp only [bind, Except.bind, pure, Except.pure]
            rw [hload' full
              (fun n3 hn3 => hfull n3 (List.mem_cons_of_mem _ hn3))
              tree (kwargs ++ [(n, PyVal.none)])]
            simp [pure, Except.pure]
          · simp only [List.map_cons, hmap']
          · intro n3 hn3 hom3
            rcases List.mem_cons.mp hn3 with rfl | hn3'
            · rw [alistGet_cons_self, alistGet_cons_self]
            · have hne3 : n3 ≠ n := by
                intro hx
                exact hnin (hx ▸ hn3')
              rw [alistGet_cons_ne n PyVal.none n3 loaded'
                  (fun hx => hne3 hx.symm),
                alistGet_cons_ne n PyVal.none n3 ivs
                  (fun hx => hne3 hx.symm)]
              exact hget' n3 hn3' hom3
          · intro hempty
            rw [hemp' hempty]
        · -- represented value
          have hacc0 : pyDictHasKey acc (PyVal.str n) = false :=
            hacc n (List.mem_cons_self _ _)
          have haccw : ∀ n2, n2 ∈ fs.map Prod.fst →
              pyDictHasKey (acc ++ [(PyVal.str n, w)]) (PyVal.str n2) = false := by
            intro n2 hn2
            rw [pyDictHasKey_append]
            have h1 : pyDictHasKey acc (PyVal.str n2) = false :=
              hacc n2 (List.mem_cons_of_mem _ hn2)
            have h2 : pyDictHasKey [(PyVal.str n, w)] (PyVal.str n2) = false := by
              refine pyDictHasKey_of_keys _ _ ?_
              intro p hp hx
              rcases List.mem_singleton.mp hp with rfl
              injection hx with hx2
              exact hnin (hx2 ▸ hn2)
            rw [h1, h2]
            rfl
          obtain ⟨out', loaded', hrep', hkeys', hload', hmap', hget', hemp'⟩ :=
            ih hRT' hrt' homok' ivs hrest hnd' (acc ++ [(PyVal.str n, w)]) haccw
          refine ⟨(PyVal.str n, w) :: out', (n, v) :: loaded',
            ?_, ?_, ?_, ?_, ?_, ?_⟩
          · rw [recRepresentFields,
              if_pos (by simp [hfn, alistGet_cons_self, hvn]; simpa using hom),
              hcr]
            simp only [alistGet_nil, alistGet_cons_self, Option.getD_some]
            rw [hrepr]
            simp only [bind, Except.bind, pure, Except.pure]
            rw [pyDictSet_fresh (PyVal.str n) w acc hacc0]
            rw [recRepresentFields_congr r ((n, v) :: ivs) ivs fs hcongrIF _]
            rw [hrep']
            simp [pure, Except.pure]
          · intro kw hkw
            rcases List.mem_cons.mp hkw with rfl | hkw'
            · exact ⟨n, List.mem_cons_self _ _, rfl⟩
            · obtain ⟨n3, hn3, hk3⟩ := hkeys' kw hkw'
              exact ⟨n3, List.mem_cons_of_mem _ hn3, hk3⟩
          · intro full hfull tree kwargs
            rw [recLoadFields, hcl]
            simp only [alistGet_nil, Option.isNone_none, Bool.and_true]
            rw [if_neg (by rw [union_guard t hrt0]; simp)]
            have hgetw : pyDictGet full (PyVal.str n) = w := by
              rw [hfull n (List.mem_cons_self _ _)]
              exact pyDictGet_cons_self _ _ _
            rw [hgetw, hloadField w tree rfl, catchTypeError_ok]
            simp only [bind, Except.bind, pure, Except.pure]
            have hfull' : ∀ n3, n3 ∈ fs.map Prod.fst →
                pyDictGet full (PyVal.str n3) = pyDictGet out' (PyVal.str n3) := by
              intro n3 hn3
              rw [hfull n3 (List.mem_cons_of_mem _ hn3)]
              refine pyDictGet_cons_ne _ _ _ _ ?_
              intro hx
              injection hx with hx2
              exact hnin (hx2 ▸ hn3)
            rw [hload' full hfull' tree (kwargs ++ [(n, v)])]
            simp [pure, Except.pure]
          · simp only [List.map_cons, hmap']
          · intro n3 hn3 hom3
            rcases List.mem_cons.mp hn3 with rfl | hn3'
            · rw [alistGet_cons_self, alistGet_cons_self]
            · have hne3 : n3 ≠ n := by
                intro hx
                exact hnin (hx ▸ hn3')
              rw [alistGet_cons_ne n v n3 loaded' (fun hx => hne3 hx.symm),
                alistGet_cons_ne n v n3 ivs (fun hx => hne3 hx.symm)]
              exact hget' n3 hn3' hom3
          · intro hempty
            rw [hemp' hempty]

end RecordLoop

section RtAllPrereqs

theorem tweight_mem_fields (p : String × PyType × Option PyVal) :
    ∀ (fields : List (String × PyType × Option PyVal)), p ∈ fields →
    tweight p.2.1 + 6 ≤ frweight fields := by
  intro fields
  induction fields with
  | nil => intro h; cases h
  | cons f fs ih =>
    intro h
    obtain ⟨n, t, d⟩ := f
    rcases List.mem_cons.mp h with rfl | h2
    · simp only [frweight]
      omega
    · have := ih h2
      simp only [frweight]
      omega

theorem rtFieldsB_mem :
    ∀ (fields : List (String × PyType × Option PyVal)),
    rtFieldsB fields = true → ∀ p, p ∈ fields → rtType p.2.1 = true := by
  intro fields
  induction fields with
  | nil => intro _ p h; cases h
  | cons f fs ih =>
    intro hrt p h
    obtain ⟨n, t, d⟩ := f
    rw [rtFieldsB] at hrt
    simp only [Bool.and_eq_true] at hrt
    rcases List.mem_cons.mp h with rfl | h2
    · exact hrt.1
    · exact ih hrt.2 p h2

theorem validFieldsB_map_fst :
    ∀ (fields : List (String × PyType × Option PyVal))
      (iF : List (String × PyVal)),
    validFieldsB fields iF = true →
    iF.map Prod.fst = fields.map Prod.fst := by
  intro fields
  induction fields with
  | nil =>
    intro iF h
    cases iF with
    | nil => rfl
    | cons a l => simp [validFieldsB] at h
  | cons f fs ih =>
    intro iF h
    obtain ⟨n, t, d⟩ := f
    cases iF with
    | nil => simp [validFieldsB] at h
    | cons a l =>
      obtain ⟨n2, v⟩ := a
      rw [validFieldsB] at h
      simp only [Bool.and_eq_true, decide_eq_true_eq] at h
      obtain ⟨⟨⟨h1, _⟩, _⟩, h4⟩ := h
      subst h1
      simp only [List.map_cons, List.cons.injEq]
      exact ⟨by trivial, ih l h4⟩

unseal tsProcessType tsRender unionTypes tupleTypes in
theorem tupleTypes_ok_rt :
    ∀ (elems : List PyType), rtTypes elems = true →
    ∀ (fname : String) (tree : List String) (i : Nat),
    ∃ u, tupleTypes fname tree elems i = .ok u := by
  intro elems
  induction elems with
  | nil => intro _ fname tree i; exact ⟨[], by rw [tupleTypes]; rfl⟩
  | cons a as ih =>
    intro hrt fname tree i
    rw [rtTypes] at hrt
    simp only [Bool.and_eq_true] at hrt
    obtain ⟨sA, hsA⟩ := rt_tsProcessType_ok (sizeOf a) a (le_refl _) hrt.1
      (fname ++ "_" ++ toString i) tree
    obtain ⟨u, hu⟩ := ih hrt.2 fname tree (i + 1)
    refine ⟨(a, sA) :: u, ?_⟩
    rw [tupleTypes]
    simp [hsA, hu, Except.bind, bind, pure, Except.pure]

theorem dictActualKeyTypes_single (kt : PyType) (hk : rtKeyB kt = true) :
    dictActualKeyTypes kt = [kt] := by
  cases kt <;> first | rfl | exact Bool.noConfusion hk

theorem dictDefinition_ok (kt vt : PyType) (hk : rtKeyB kt = true)
    (hv : rtType vt = true) (fname : String) (tree : List String) :
    ∃ defn, dictDefinition fname tree kt vt = .ok defn := by
  obtain ⟨ks, hks⟩ := rt_tsProcessType_ok (sizeOf kt) kt (le_refl _)
    (rtType_of_rtKeyB kt hk) (fname ++ "_key") tree
  obtain ⟨vs, hvs⟩ := rt_tsProcessType_ok (sizeOf vt) vt (le_refl _) hv
    (fname ++ "_value") tree
  refine ⟨((kt, ks), (vt, vs)), ?_⟩
  rw [dictDefinition]
  simp [hks, hvs, Except.bind, bind, pure, Except.pure]

unseal processorRepresent handlerRepresent representUnionArms representListElems representTupleElems representDictEntries recRepresent recRepresentFields in
theorem key_roundtrip (kt : PyType) (hk : rtKeyB kt = true) (k : PyVal)
    (hv : validKeyB kt k = true) :
    ∃ k2, (∀ (name : String) (tree : List String) (d0 : Option PyVal),
        processorRepresent ⟨name, kt, d0, Option.none⟩ tree k = pure k2) ∧
      (∀ msg, dictKeyCoerce k2 (dictActualKeyTypes kt) msg = pure k) := by
  cases kt with
  | strT =>
    cases k <;> simp [validKeyB] at hv
    case str s =>
      refine ⟨.str s, ?_, ?_⟩
      · intro name tree d0
        rw [processorRepresent_bind, processor_strT]
        simp only [Except.bind]
        rw [handlerRepresent]
      · intro msg
        rfl
  | intT =>
    cases k <;> simp [validKeyB] at hv
    case int n =>
      refine ⟨.int n, ?_, ?_⟩
      · intro name tree d0
        rw [processorRepresent_bind, processor_intT]
        simp only [Except.bind]
        rw [handlerRepresent]
      · intro msg
        rfl
  | enumT e =>
    cases k <;> simp [validKeyB] at hv
    case enumMember e2 m =>
      obtain ⟨h1, h2⟩ := hv
      subst h1
      have hm : m ∈ e2.members.map Prod.fst := by simpa using h2
      obtain ⟨val, hmem, hval, hveq, hparse⟩ := rtEnum_member_val e2 hk m hm
      refine ⟨.str val, ?_, ?_⟩
      · intro name tree d0
        rw [processorRepresent_bind, processor_enumT]
        simp only [Except.bind]
        rw [handlerRepresent, hveq]
      · intro msg
        rw [dictActualKeyTypes_single (PyType.enumT e2) hk, dictKeyCoerce,
          if_neg (by simp [typeIs])]
        rw [hparse]
  | floatT => exact Bool.noConfusion hk
  | boolT => exact Bool.noConfusion hk
  | decimalT => exact Bool.noConfusion hk
  | anyT => exact Bool.noConfusion hk
  | noneT => exact Bool.noConfusion hk
  | dateT => exact Bool.noConfusion hk
  | datetimeT => exact Bool.noConfusion hk
  | rawDictT => exact Bool.noConfusion hk
  | listT t1 => exact Bool.noConfusion hk
  | tupleT ts => exact Bool.noConfusion hk
  | dictT a b => exact Bool.noConfusion hk
  | unionT args => exact Bool.noConfusion hk
  | recordT r => exact Bool.noConfusion hk
  | forwardRefT r => exact Bool.noConfusion hk
  | partialT args => exact Bool.noConfusion hk

end RtAllPrereqs

section RTScalars

unseal processorLoad handlerLoad processorRepresent handlerRepresent in
theorem RT_str : RT .strT := by
  intro v hv name tree d0
  cases v <;> simp [validVal] at hv
  case str s =>
  refine ⟨.str s, ?_, by simp, ?_⟩
  · rw [processorRepresent_bind, processor_strT]
    simp only [Except.bind]
    rw [handlerRepresent]
  · intro name2 tree1 tree2 dv _
    rw [processorLoad_bind, processor_strT]
    simp only [Except.bind]
    rw [handlerLoad, tryDefault_of_ne_none dv _ (by simp)]
    rfl

unseal processorLoad handlerLoad processorRepresent handlerRepresent in
theorem RT_int : RT .intT := by
  intro v hv name tree d0
  cases v <;> simp [validVal] at hv
  case int n =>
  refine ⟨.int n, ?_, by simp, ?_⟩
  · rw [processorRepresent_bind, processor_intT]
    simp only [Except.bind]
    rw [handlerRepresent]
  · intro name2 tree1 tree2 dv _
    rw [processorLoad_bind, processor_intT]
    simp only [Except.bind]
    rw [handlerLoad, tryDefault_of_ne_none dv _ (by simp)]
    try rfl
    all_goals
      (intro a h1 h2
       first
         | exact PyType.noConfusion h1
         | exact PyVal.noConfusion h2)

unseal processorLoad handlerLoad processorRepresent handlerRepresent in
theorem RT_float : RT .floatT := by
  intro v hv name tree d0
  cases v <;> simp [validVal] at hv
  case float q =>
  refine ⟨.float q, ?_, by simp, ?_⟩
  · rw [processorRepresent_bind, processor_floatT]
    simp only [Except.bind]
    rw [handlerRepresent]
  · intro name2 tree1 tree2 dv _
    rw [processorLoad_bind, processor_floatT]
    simp only [Except.bind]
    rw [handlerLoad, tryDefault_of_ne_none dv _ (by simp)]
    try rfl
    all_goals
      (intro a h1 h2
       first
         | exact PyType.noConfusion h1
         | exact PyVal.noConfusion h2)

unseal processorLoad handlerLoad processorRepresent handlerRepresent in
theorem RT_bool : RT .boolT := by
  intro v hv name tree d0
  cases v <;> simp [validVal] at hv
  case bool b =>
  refine ⟨.bool b, ?_, by simp, ?_⟩
  · rw [processorRepresent_bind, processor_boolT]
    simp only [Except.bind]
    rw [handlerRepresent]
  · intro name2 tree1 tree2 dv _
    rw [processorLoad_bind, processor_boolT]
    simp only [Except.bind]
    rw [handlerLoad, tryDefault_of_ne_none dv _ (by simp)]
    try rfl

unseal processorRepresent handlerRepresent in
theorem RT_any : RT .anyT := by
  intro v _ name tree d0
  refine ⟨v, ?_, Iff.rfl, ?_⟩
  · rw [processorRepresent_bind, processor_anyT]
    simp only [Except.bind]
    rw [handlerRepresent]
  · intro name2 tree1 tree2 dv hdv
    exact any_load v name2 tree1 tree2 dv hdv

unseal processorLoad handlerLoad processorRepresent handlerRepresent in
theorem RT_rawDict : RT .rawDictT := by
  intro v hv name tree d0
  cases v <;> simp [validVal] at hv
  case dict entries =>
  refine ⟨.dict entries, ?_, by simp, ?_⟩
  · rw [processorRepresent_bind, processor_rawDictT]
    simp only [Except.bind]
    rw [handlerRepresent]
  · intro name2 tree1 tree2 dv _
    rw [processorLoad_bind, processor_rawDictT]
    simp only [Except.bind]
    rw [handlerLoad, tryDefault_of_ne_none dv _ (by simp)]
    try rfl

unseal processorLoad handlerLoad processorRepresent handlerRepresent in
theorem RT_enum (e : EnumDef) (he : rtEnumB e = true) : RT (.enumT e) := by
  intro v hv name tree d0
  cases v <;> simp [validVal] at hv
  case enumMember e2 m =>
  obtain ⟨h1, h2⟩ := hv
  subst h1
  have hm : m ∈ e2.members.map Prod.fst := by simpa using h2
  obtain ⟨val, hmem, hval, hveq, hparse⟩ := rtEnum_member_val e2 he m hm
  refine ⟨.str val, ?_, by simp, ?_⟩
  · rw [processorRepresent_bind, processor_enumT]
    simp only [Except.bind]
    rw [handlerRepresent, hveq]
  · intro name2 tree1 tree2 dv _
    rw [processorLoad_bind, processor_enumT]
    simp only [Except.bind]
    rw [handlerLoad, tryDefault_of_ne_none dv _ (by simp)]
    dsimp only
    rw [hparse]

end RTScalars

section RTListTuple

unseal processorLoad handlerLoad loadListElems processorRepresent handlerRepresent representListElems in
theorem RT_list (t1 : PyType) (h1 : RT t1) : RT (.listT t1) := by
  intro v hv name tree d0
  cases v <;> simp [validVal] at hv
  case list xs =>
  have hElems : ∀ (ys : List PyVal), validList t1 ys = true →
      ∃ ws, representListElems name t1 ys = pure ws ∧
        ∀ (fname2 : String) (i : Nat) (ctree : List String),
          loadListElems fname2 t1 ws i ctree = pure ys := by
    intro ys
    induction ys with
    | nil =>
      intro _
      refine ⟨[], by rw [representListElems], ?_⟩
      intro fname2 i ctree
      rw [loadListElems]
    | cons x rest ihy =>
      intro hvy
      rw [validList] at hvy
      simp only [Bool.and_eq_true] at hvy
      obtain ⟨wx, hrx, _, hlx⟩ := h1 x hvy.1 name [name] Option.none
      obtain ⟨ws, hrw, hlw⟩ := ihy hvy.2
      refine ⟨wx :: ws, ?_, ?_⟩
      · rw [representListElems, hrx]
        simp only [bind, Except.bind, pure, Except.pure]
        rw [hrw]
        rfl
      · intro fname2 i ctree
        rw [loadListElems,
          hlx (fname2 ++ "[" ++ toString i ++ "]") ctree ctree
            (Option.some PyVal.none) (Or.inr (Or.inl rfl))]
        simp only [bind, Except.bind, pure, Except.pure]
        rw [hlw fname2 (i + 1) ctree]
        rfl
  obtain ⟨ws, hrw, hlw⟩ := hElems xs hv
  refine ⟨.list ws, ?_, by simp, ?_⟩
  · rw [processorRepresent_bind, processor_listT]
    simp only [Except.bind]
    rw [handlerRepresent]
    simp only [pyIter, bind, Except.bind, pure, Except.pure]
    try rw [hrw]
    all_goals
      first
        | rfl
        | (intro h; exact PyVal.noConfusion h)
  · intro name2 tree1 tree2 dv _
    rw [processorLoad_bind, processor_listT]
    simp only [Except.bind]
    rw [handlerLoad, tryDefault_of_ne_none dv _ (by simp)]
    dsimp only
    try rw [hlw name2 0 tree2]
    all_goals
      first
        | rfl
        | (intro h; exact PyVal.noConfusion h)

unseal processorLoad handlerLoad loadTupleElems tupleTypes processorRepresent handlerRepresent representTupleElems in
theorem RT_tuple (ts : List PyType) (hrt : rtTypes ts = true)
    (hAll : ∀ t, t ∈ ts → RT t) : RT (.tupleT ts) := by
  intro v hv name tree d0
  cases v <;> simp [validVal] at hv
  case tuple xs =>
  have hElems : ∀ (es : List PyType) (ys : List PyVal),
      (∀ t, t ∈ es → RT t) → validTuple es ys = true →
      ∃ ws, representTupleElems name es ys = pure ws ∧
        ws.length = es.length ∧ ys.length = es.length ∧
        ∀ (fname2 : String) (i : Nat) (ctree : List String),
          loadTupleElems fname2 es ws i ctree = pure ys := by
    intro es
    induction es with
    | nil =>
      intro ys hA hvy
      cases ys with
      | cons y ys2 => simp [validTuple] at hvy
      | nil =>
        refine ⟨[], ?_, rfl, rfl, ?_⟩
        · rw [representTupleElems]
          all_goals
            intro a b c d h1 h2
            exact List.noConfusion h1
        · intro fname2 i ctree
          rw [loadTupleElems]
          all_goals
            intro a b c d h1 h2
            exact List.noConfusion h1
    | cons e es2 ihe =>
      intro ys hA hvy
      cases ys with
      | nil => simp [validTuple] at hvy
      | cons y ys2 =>
        rw [validTuple] at hvy
        simp only [Bool.and_eq_true] at hvy
        obtain ⟨wy, hry, _, hly⟩ := hA e (List.mem_cons_self _ _) y hvy.1
          name [] Option.none
        obtain ⟨ws, hrw, hlen, hlen2, hlw⟩ :=
          ihe ys2 (fun t ht => hA t (List.mem_cons_of_mem _ ht)) hvy.2
        refine ⟨wy :: ws, ?_, by simp [hlen], by simp [hlen2], ?_⟩
        · rw [representTupleElems, hry]
          simp only [bind, Except.bind, pure, Except.pure]
          rw [hrw]
          rfl
        · intro fname2 i ctree
          rw [loadTupleElems,
            hly (fname2 ++ "[" ++ toString i ++ "]") ctree (ctree ++ [fname2])
              (Option.some PyVal.none) (Or.inr (Or.inl rfl))]
          simp only [bind, Except.bind, pure, Except.pure]
          rw [hlw fname2 (i + 1) ctree]
          rfl
  obtain ⟨ws, hrw, hlen, hlen2, hlw⟩ := hElems ts xs hAll hv
  refine ⟨.list ws, ?_, by simp, ?_⟩
  · rw [processorRepresent_bind, processor_tupleT]
    simp only [Except.bind]
    rw [handlerRepresent]
    obtain ⟨u, hu⟩ := tupleTypes_ok_rt ts hrt name tree 0
    try rw [hu]
    all_goals try (intro h; exact PyVal.noConfusion h)
    simp only [pyIter, bind, Except.bind, pure, Except.pure]
    rw [hrw]
    rfl
  · intro name2 tree1 tree2 dv _
    rw [processorLoad_bind, processor_tupleT]
    simp only [Except.bind]
    rw [handlerLoad, tryDefault_of_ne_none dv _ (by simp)]
    dsimp only
    obtain ⟨u, hu⟩ := tupleTypes_ok_rt ts hrt name2 tree1 0
    try rw [hu]
    all_goals try (intro h; exact PyVal.noConfusion h)
    simp only [bind, Except.bind]
    rw [if_neg (by simp [hlen])]
    rw [hlw name2 0 tree2]
    rfl

end RTListTuple

section RTDictUnion

unseal processorLoad handlerLoad loadDictEntries tsProcessType tsRender unionTypes tupleTypes processorRepresent handlerRepresent representDictEntries in
theorem RT_dict (kt vt : PyType) (hk : rtKeyB kt = true)
    (hvt : rtType vt = true) (hRTv : RT vt) : RT (.dictT kt vt) := by
  intro v hv name tree d0
  cases v <;> simp [validVal] at hv
  case dict entries =>
  obtain ⟨hnodup, hents⟩ := hv
  have main : ∀ (es : List (PyVal × PyVal)), validEntries kt vt es = true →
      (es.map Prod.fst).Nodup →
      ∃ out : List (PyVal × PyVal),
        (∀ o, o ∈ out → ∃ p, p ∈ es ∧ ∀ msg,
          dictKeyCoerce o.1 (dictActualKeyTypes kt) msg = pure p.1) ∧
        (∀ acc, (∀ q, q ∈ acc → ∀ o, o ∈ out → q.1 ≠ o.1) →
          representDictEntries name kt vt es acc = pure (acc ++ out)) ∧
        (∀ (fname2 : String) (ltree : List String) acc2,
          (∀ q, q ∈ acc2 → ∀ p, p ∈ es → q.1 ≠ p.1) →
          loadDictEntries fname2 kt vt out ltree acc2 =
            pure (acc2 ++ es)) := by
    intro es
    induction es with
    | nil =>
      intro _ _
      refine ⟨[], ?_, ?_, ?_⟩
      · intro o ho; cases ho
      · intro acc _
        rw [representDictEntries]
        simp
      · intro fname2 ltree acc2 _
        rw [loadDictEntries]
        simp
    | cons p rest ihp =>
      intro hvy hnd
      obtain ⟨k, val⟩ := p
      rw [validEntries] at hvy
      simp only [Bool.and_eq_true] at hvy
      obtain ⟨⟨hkk, hvv⟩, hrest⟩ := hvy
      simp only [List.map_cons, List.nodup_cons] at hnd
      obtain ⟨hkin, hnd'⟩ := hnd
      obtain ⟨k2, hkrep, hkco⟩ := key_roundtrip kt hk k hkk
      obtain ⟨w, hw, _, hwload⟩ := hRTv val hvv name [] Option.none
      obtain ⟨out', hC3, hC1, hC2⟩ := ihp hrest hnd'
      have hknotout : ∀ o, o ∈ out' → k2 ≠ o.1 := by
        intro o ho hx
        obtain ⟨p2, hp2, hco2⟩ := hC3 o ho
        have h1 : pure (f := Except PyErr) k = pure p2.1 := by
          rw [← hkco "m", hx, hco2 "m"]
        have h2 : k = p2.1 := by
          injection h1
        exact hkin (h2 ▸ List.mem_map.mpr ⟨p2, hp2, rfl⟩)
      refine ⟨(k2, w) :: out', ?_, ?_, ?_⟩
      · intro o ho
        rcases List.mem_cons.mp ho with rfl | ho'
        · exact ⟨(k, val), List.mem_cons_self _ _, hkco⟩
        · obtain ⟨p2, hp2, hco2⟩ := hC3 o ho'
          exact ⟨p2, List.mem_cons_of_mem _ hp2, hco2⟩
      · intro acc hfresh
        rw [representDictEntries, hw, hkrep name [] Option.none]
        simp only [bind, Except.bind, pure, Except.pure]
        have hf1 : pyDictHasKey acc k2 = false := by
          refine pyDictHasKey_of_keys _ _ ?_
          intro q hq
          exact hfresh q hq (k2, w) (List.mem_cons_self _ _)
        rw [pyDictSet_fresh k2 w acc hf1]
        rw [hC1 (acc ++ [(k2, w)]) ?_]
        · simp [pure, Except.pure]
        · intro q hq o ho
          rcases List.mem_append.mp hq with hq1 | hq2
          · exact hfresh q hq1 o (List.mem_cons_of_mem _ ho)
          · rcases List.mem_singleton.mp hq2 with rfl
            exact hknotout o ho
      · intro fname2 ltree acc2 hfresh2
        rw [loadDictEntries]
        rw [hkco _]
        simp only [bind, Except.bind, pure, Except.pure]
        rw [hwload (fname2 ++ "[" ++ pyStrOf k ++ "]") ltree
          (ltree ++ [fname2]) (Option.some PyVal.none) (Or.inr (Or.inl rfl))]
        simp only [bind, Except.bind, pure, Except.pure]
        have hf2 : pyDictHasKey acc2 k = false := by
          refine pyDictHasKey_of_keys _ _ ?_
          intro q hq
          exact hfresh2 q hq (k, val) (List.mem_cons_self _ _)
        rw [pyDictSet_fresh k val acc2 hf2]
        rw [hC2 fname2 ltree (acc2 ++ [(k, val)]) ?_]
        · simp [pure, Except.pure]
        · intro q hq p2 hp2
          rcases List.mem_append.mp hq with hq1 | hq2
          · exact hfresh2 q hq1 p2 (List.mem_cons_of_mem _ hp2)
          · rcases List.mem_singleton.mp hq2 with rfl
            intro hx
            have hx2 : k = p2.1 := hx
            exact hkin (hx2 ▸ List.mem_map.mpr ⟨p2, hp2, rfl⟩)
  obtain ⟨out, _, hC1, hC2⟩ := main entries hents hnodup
  refine ⟨.dict out, ?_, by simp, ?_⟩
  · rw [processorRepresent_bind, processor_dictT]
    simp only [Except.bind]
    rw [handlerRepresent]
    obtain ⟨defn, hdefn⟩ := dictDefinition_ok kt vt hk hvt name tree
    rw [hdefn]
    simp only [bind, Except.bind, pure, Except.pure]
    rw [hC1 [] (fun q hq => absurd hq (List.not_mem_nil q))]
    rfl
  · intro name2 tree1 tree2 dv _
    rw [processorLoad_bind, processor_dictT]
    simp only [Except.bind]
    rw [handlerLoad, tryDefault_of_ne_none dv _ (by simp)]
    dsimp only
    obtain ⟨defn, hdefn⟩ := dictDefinition_ok kt vt hk hvt name2 tree1
    rw [hdefn]
    simp only [bind, Except.bind, pure, Except.pure]
    rw [hC2 name2 tree2 [] (fun q hq => absurd hq (List.not_mem_nil q))]
    rfl

unseal processorLoad handlerLoad loadUnionArms tsProcessType tsRender unionTypes tupleTypes processorRepresent handlerRepresent representUnionArms in
theorem RT_union (t1 : PyType) (hin : rtInnerOk t1 = true)
    (hrt1 : rtType t1 = true) (h1 : RT t1) : RT (.unionT [t1, .noneT]) := by
  intro v hv name tree d0
  rw [validVal] at hv
  by_cases hvn : v = PyVal.none
  · subst hvn
    refine ⟨PyVal.none, ?_, by simp, ?_⟩
    · rw [processorRepresent_bind, processor_unionT]
      simp only [Except.bind]
      rw [handlerRepresent]
      rw [representUnionArms,
        if_neg (by simp [armMatches_none, isNoneT_false_of_rtType t1 hrt1])]
      rw [representUnionArms, if_neg (by simp [armMatches_none, isNoneT])]
      rw [representUnionArms]
    · intro name2 tree1 tree2 dv hdv
      rcases hdv with rfl | rfl | hne
      · exact optional_load_none t1 hrt1 name2 tree1 tree2 Option.none
          (Or.inl rfl)
      · exact optional_load_none t1 hrt1 name2 tree1 tree2
          (Option.some PyVal.none) (Or.inr rfl)
      · exact absurd rfl hne
  · have hv1 : validVal t1 v = true := by
      simp only [Bool.or_eq_true, decide_eq_true_eq] at hv
      rcases hv with h | h
      · exact absurd h hvn
      · exact h
    obtain ⟨w, hw, hiff, hload⟩ := h1 v hv1 name [name] Option.none
    have hwn : w ≠ PyVal.none := fun hx => hvn (hiff.mp hx)
    refine ⟨w, ?_, by simp [hwn, hvn], ?_⟩
    · rw [processorRepresent_bind, processor_unionT]
      simp only [Except.bind]
      rw [handlerRepresent]
      rw [representUnionArms,
        if_pos (by
          simp [armMatches_of_valid t1 v hin hrt1 hv1,
            isNoneT_false_of_rtType t1 hrt1])]
      exact hw
    · intro name2 tree1 tree2 dv _
      rw [processorLoad_bind, processor_unionT]
      simp only [Except.bind]
      rw [handlerLoad, tryDefault_of_ne_none dv w hwn]
      dsimp only
      obtain ⟨s, hs⟩ := rt_tsProcessType_ok (sizeOf t1) t1 (le_refl _) hrt1
        (name2 ++ "_" ++ toString 0) tree1
      rw [unionTypes_optional t1 hrt1 s name2 tree1 hs]
      simp only [bind, Except.bind, pure, Except.pure]
      rw [if_neg (by simp [hwn])]
      rw [loadUnionArms, if_neg (by simp [isNoneT_false_of_rtType t1 hrt1])]
      rw [hs]
      dsimp only
      rw [if_neg (by simp)]
      rw [hload (name2 ++ "[union]") tree2 tree2 (Option.some PyVal.none)
        (Or.inr (Or.inl rfl))]
      rfl

end RTDictUnion

section RTRecordAll

theorem rtTypes_mem : ∀ (ts : List PyType), rtTypes ts = true →
    ∀ t, t ∈ ts → rtType t = true := by
  intro ts
  induction ts with
  | nil => intro _ t ht; cases ht
  | cons a as ih =>
    intro h t ht
    rw [rtTypes] at h
    simp only [Bool.and_eq_true] at h
    rcases List.mem_cons.mp ht with rfl | ht2
    · exact h.1
    · exact ih h.2 t ht2

theorem lweight_mem : ∀ (ts : List PyType) (t : PyType), t ∈ ts →
    tweight t + 1 ≤ lweight ts := by
  intro ts
  induction ts with
  | nil => intro t ht; cases ht
  | cons a as ih =>
    intro t ht
    rcases List.mem_cons.mp ht with rfl | ht2
    · simp only [lweight]; omega
    · have := ih t ht2
      simp only [lweight]
      omega

unseal processorLoad handlerLoad recLoad recLoadFields processorRepresent handlerRepresent recRepresent recRepresentFields in
theorem RT_record (r : RecordDef) (hrb : rtRecordB r = true)
    (hF : ∀ p, p ∈ r.fields → RT p.2.1) : RT (.recordT r) := by
  cases r with
  | mk rn fields cl cr om fn =>
  rw [rtRecordB] at hrb
  simp only [Bool.and_eq_true, decide_eq_true_eq, List.isEmpty_iff] at hrb
  obtain ⟨⟨⟨⟨⟨hcl, hcr⟩, hom⟩, hfn⟩, hnodup⟩, hfb⟩ := hrb
  subst hcl
  subst hcr
  subst hom
  subst hfn
  intro v hv name tree d0
  cases v <;> simp [validVal] at hv
  case obj c instFields =>
  obtain ⟨hc, hinst⟩ := hv
  subst hc
  rw [validInstB] at hinst
  obtain ⟨out, loaded, hrep, _, hload, _, _, hemp⟩ :=
    rec_fields_roundtrip (.mk c fields [] [] [] []) rfl rfl rfl fields
      hF (rtFieldsB_mem fields hfb) (fun p _ => Or.inl rfl)
      instFields hinst hnodup [] (fun n _ => rfl)
  have hloaded : loaded = instFields := hemp rfl
  subst hloaded
  refine ⟨.dict out, ?_, by simp, ?_⟩
  · rw [processorRepresent_bind, processor_recordT]
    simp only [Except.bind]
    rw [handlerRepresent, recRepresent]
    have hfields : (RecordDef.mk c fields [] [] [] []).fields = fields := rfl
    rw [hfields, hrep]
    simp only [bind, Except.bind, pure, Except.pure, List.nil_append]
  · intro name2 tree1 tree2 dv _
    rw [processorLoad_bind, processor_recordT]
    simp only [Except.bind]
    rw [handlerLoad, tryDefault_of_ne_none dv _ (by simp)]
    dsimp only
    rw [recLoad]
    have hfields : (RecordDef.mk c fields [] [] [] []).fields = fields := rfl
    rw [hfields, hload out (fun _ _ => rfl)
      [(RecordDef.mk c fields [] [] [] []).rname] []]
    simp only [bind, Except.bind, pure, Except.pure, List.nil_append]
    rw [constructObj_of_aligned (.mk c fields [] [] [] []) loaded
      (by rw [hfields]; exact validFieldsB_map_fst fields loaded hinst)
      (by rw [hfields]; exact hnodup)]
    rfl

theorem rt_all : ∀ (k : Nat) (t : PyType), tweight t ≤ k →
    rtType t = true → RT t := by
  intro k
  induction k with
  | zero =>
    intro t hsz _
    exact absurd (le_trans (tweight_pos t) hsz) (by omega)
  | succ k ih =>
    intro t hsz hrt
    cases t with
    | strT => exact RT_str
    | intT => exact RT_int
    | floatT => exact RT_float
    | boolT => exact RT_bool
    | anyT => exact RT_any
    | rawDictT => exact RT_rawDict
    | enumT e =>
      rw [rtType] at hrt
      exact RT_enum e hrt
    | listT t1 =>
      rw [rtType] at hrt
      refine RT_list t1 (ih t1 ?_ hrt)
      simp only [tweight] at hsz
      omega
    | tupleT ts =>
      rw [rtType] at hrt
      refine RT_tuple ts hrt ?_
      intro t2 ht2
      refine ih t2 ?_ (rtTypes_mem ts hrt t2 ht2)
      have := lweight_mem ts t2 ht2
      simp only [tweight] at hsz
      omega
    | dictT kt vt =>
      rw [rtType] at hrt
      simp only [Bool.and_eq_true] at hrt
      refine RT_dict kt vt hrt.1 hrt.2 (ih vt ?_ hrt.2)
      simp only [tweight] at hsz
      omega
    | unionT args =>
      obtain ⟨t1, rfl, hin, hrt1⟩ := rtType_unionT_inv args hrt
      refine RT_union t1 hin hrt1 (ih t1 ?_ hrt1)
      simp only [tweight, lweight] at hsz
      omega
    | recordT r =>
      rw [rtType] at hrt
      cases r with
      | mk rn fields cl cr om fn =>
      refine RT_record (.mk rn fields cl cr om fn) hrt ?_
      intro p hp
      have hfieldsacc : (RecordDef.mk rn fields cl cr om fn).fields =
          fields := rfl
      rw [hfieldsacc] at hp
      have hw := tweight_mem_fields p fields hp
      have hftypes : rtType p.2.1 = true := by
        rw [rtRecordB] at hrt
        simp only [Bool.and_eq_true] at hrt
        exact rtFieldsB_mem fields hrt.2 p hp
      refine ih p.2.1 ?_ hftypes
      simp only [tweight, rweight] at hsz
      omega
    | decimalT => simp [rtType] at hrt
    | noneT => simp [rtType] at hrt
    | dateT => simp [rtType] at hrt
    | datetimeT => simp [rtType] at hrt
    | forwardRefT r => simp [rtType] at hrt
    | partialT args => simp [rtType] at hrt

end RTRecordAll

section C1

unseal PyVal.beq PyVal.beqL PyVal.beqP PyVal.beqF processorLoad handlerLoad loadUnionArms loadListElems loadTupleElems loadDictEntries recLoad recLoadFields processorRepresent handlerRepresent representUnionArms representListElems representTupleElems representDictEntries recRepresent recRepresentFields in
/-- C1 counterexample: `decimalRecord` has a single field of type
`Decimal` without custom loaders, representers or omitted fields, yet the
instance holding `Decimal(0)` does not survive the round trip:
`__iter__` represents it as `float(0) = 0.0`, and on the way back
`DecimalDataField.load` finds `0.0` falsy and returns `None` instead of
`Decimal("0.0")` — so "an equal instance" as claimed is false. -/
theorem c1_roundtrip_counterexample :
    represent decimalRecord (.obj "R" [("d", .decimal 0)]) =
      pure (.dict [(.str "d", .float 0)]) ∧
    load_from_dict decimalRecord (.dict [(.str "d", .float 0)]) =
      pure (.obj "R" [("d", PyVal.none)]) ∧
    decimalRecord.customLoad.isEmpty = true ∧
    decimalRecord.customRepr.isEmpty = true ∧
    decimalRecord.omitInRepr = [] ∧
    PyVal.obj "R" [("d", PyVal.none)] ≠ PyVal.obj "R" [("d", .decimal 0)] := by
  refine ⟨rfl, rfl, rfl, rfl, rfl, ?_⟩
  intro h
  simp at h

unseal processorLoad handlerLoad recLoad recLoadFields processorRepresent handlerRepresent recRepresent recRepresentFields in
/-- C1 amended: for a record without custom loaders, representers or
forced-`None` fields, with duplicate-free field names whose types are
round-trippable (and whose omitted fields load from an absent key),
`represent` of a valid instance yields a dict that `load_from_dict`
accepts, producing an instance whose fields align with the class and
agree with the original on every non-omitted field; with no omitted
fields the instance is restored exactly. -/
theorem c1_roundtrip_amended (r : RecordDef) (hr : rtRecordTop r = true)
    (instFields : List (String × PyVal))
    (hv : validInstB r instFields = true) :
    ∃ (entries : List (PyVal × PyVal)) (loaded : List (String × PyVal)),
      represent r (.obj r.rname instFields) = pure (.dict entries) ∧
      load_from_dict r (.dict entries) = pure (.obj r.rname loaded) ∧
      loaded.map Prod.fst = r.fields.map Prod.fst ∧
      (∀ n, n ∈ r.fields.map Prod.fst → r.omitInRepr.contains n = false →
        alistGet loaded n = alistGet instFields n) ∧
      (r.omitInRepr = [] → loaded = instFields) := by
  cases r with
  | mk rn fields cl cr om fn =>
  rw [rtRecordTop] at hr
  simp only [Bool.and_eq_true, decide_eq_true_eq, List.isEmpty_iff,
    List.all_eq_true] at hr
  obtain ⟨⟨⟨⟨hcl, hcr⟩, hfn⟩, hnodup⟩, hall⟩ := hr
  subst hcl
  subst hcr
  subst hfn
  rw [validInstB] at hv
  have hRT : ∀ p, p ∈ fields → RT p.2.1 := by
    intro p hp
    have h1 := hall p hp
    simp only [Bool.and_eq_true] at h1
    exact rt_all (tweight p.2.1) p.2.1 le_rfl h1.1
  have hrt : ∀ p, p ∈ fields → rtType p.2.1 = true := by
    intro p hp
    have h1 := hall p hp
    simp only [Bool.and_eq_true] at h1
    exact h1.1
  have hom : ∀ p, p ∈ fields →
      (RecordDef.mk rn fields [] [] om []).omitInRepr.contains p.1 = false ∨
      absentLoadable p.2.1 p.2.2 = true := by
    intro p hp
    have h1 := hall p hp
    simp only [Bool.and_eq_true, Bool.or_eq_true, Bool.not_eq_true'] at h1
    rcases h1.2 with h | h
    · exact Or.inl h
    · exact Or.inr h
  obtain ⟨out, loaded, hrep, _, hload, hmap, hagree, hemp⟩ :=
    rec_fields_roundtrip (.mk rn fields [] [] om []) rfl rfl rfl fields
      hRT hrt hom instFields hv hnodup [] (fun n _ => rfl)
  have hfields : (RecordDef.mk rn fields [] [] om []).fields = fields := rfl
  refine ⟨out, loaded, ?_, ?_, ?_, ?_, hemp⟩
  · rw [represent, recRepresent]
    rw [hfields, hrep]
    simp only [bind, Except.bind, pure, Except.pure, List.nil_append]
  · rw [load_from_dict, recLoad]
    rw [hfields, hload out (fun _ _ => rfl)
      [(RecordDef.mk rn fields [] [] om []).rname] []]
    simp only [bind, Except.bind, pure, Except.pure, List.nil_append]
    rw [constructObj_of_aligned (.mk rn fields [] [] om []) loaded
      (by rw [hfields]; exact hmap)
      (by rw [hfields]; exact hnodup)]
    rfl
  · rw [hfields]
    exact hmap
  · rw [hfields]
    exact hagree

set_option maxRecDepth 8192 in
unseal rtType rtTypes rtRecordB rtFieldsB validVal validList validTuple validEntries validInstB validFieldsB PyVal.beq PyVal.beqL PyVal.beqP PyVal.beqF processorLoad handlerLoad loadUnionArms loadListElems loadTupleElems loadDictEntries recLoad recLoadFields processorRepresent handlerRepresent representUnionArms representListElems representTupleElems representDictEntries recRepresent recRepresentFields in
/-- Concrete instantiation of the amended C1 round trip: a two-field
record (a string and an `Optional[int]`) holding `"x"` and `None`. -/
theorem c1_roundtrip_amended_witness :
    rtRecordTop (RecordDef.mk "A"
      [("s", PyType.strT, Option.none),
       ("o", PyType.unionT [PyType.intT, PyType.noneT], Option.none)]
      [] [] [] []) = true ∧
    validInstB (RecordDef.mk "A"
      [("s", PyType.strT, Option.none),
       ("o", PyType.unionT [PyType.intT, PyType.noneT], Option.none)]
      [] [] [] [])
      [("s", PyVal.str "x"), ("o", PyVal.none)] = true ∧
    ∃ (entries : List (PyVal × PyVal)) (loaded : List (String × PyVal)),
      represent (RecordDef.mk "A"
          [("s", PyType.strT, Option.none),
           ("o", PyType.unionT [PyType.intT, PyType.noneT], Option.none)]
          [] [] [] [])
        (.obj "A" [("s", PyVal.str "x"), ("o", PyVal.none)]) =
        pure (.dict entries) ∧
      load_from_dict (RecordDef.mk "A"
          [("s", PyType.strT, Option.none),
           ("o", PyType.unionT [PyType.intT, PyType.noneT], Option.none)]
          [] [] [] []) (.dict entries) =
        pure (.obj "A" loaded) ∧
      loaded.map Prod.fst = ["s", "o"] ∧
      (∀ n, n ∈ ["s", "o"] → ([] : List String).contains n = false →
        alistGet loaded n =
          alistGet [("s", PyVal.str "x"), ("o", PyVal.none)] n) ∧
      (([] : List String) = [] →
        loaded = [("s", PyVal.str "x"), ("o", PyVal.none)]) :=
  ⟨rfl, rfl,
    c1_roundtrip_amended (RecordDef.mk "A"
      [("s", PyType.strT, Option.none),
       ("o", PyType.unionT [PyType.intT, PyType.noneT], Option.none)]
      [] [] [] []) rfl
      [("s", PyVal.str "x"), ("o", PyVal.none)] rfl⟩

end C1

end PyTsAttrs
